import Mathlib

/-!
# Verification of the OUFS on-disk allocation and directory-management core

This development shallowly embeds the file-system core of `oufs_lib_support.c`
(`oufs_format_disk`, `oufs_read_inode_by_reference`,
`oufs_write_inode_by_reference`, `oufs_find_inode_ref_by_name`,
`oufs_find_file`, `oufs_find_available_bit`, `oufs_flip_bit`,
`oufs_find_bit_positions`, `oufs_mkdir`, `oufs_rmdir`, `oufs_comparator`,
`oufs_list`) and proves the specification's claims about it.

Modelling conventions, fixed once here:

* The geometry constants live in `oufs.h`, which is not part of the sources;
  they are modelled from the spec and from the constants visible in
  `oufs_format_disk` (bitmap bytes 255 and 3: blocks 0..9 reserved, i.e.
  master block 0, inode-table blocks 1..8, root directory block 9) and in
  `zformat.c` (128 blocks of 256 bytes).
* The C `BLOCK` union is modelled as a product of its three views (master /
  inode array / directory array).  Writing a block replaces all three views;
  reading through a different view than the one last written returns that
  view of the stored value rather than re-interpreting raw bytes.
* `vdisk_read_block` / `vdisk_write_block` are external collaborators
  (spec §6); they are modelled as total functions on a 128-block disk that
  fail exactly on an out-of-range block index.
* Uninitialized C locals (`path_inode_ref` and the caller-owned output
  variables of `oufs_find_file`, `child_dir_block` in `oufs_mkdir`,
  `temp_inode` in `oufs_list`) are modelled as zero-initialized; where a C
  function leaves an output untouched the model returns the input value
  unchanged.  `oufs_find_file` takes the initial values of the caller's
  `parent`/`child` variables as explicit arguments; the in-repo callers pass
  zero-initialized locals.
* `fprintf(stderr, ...)` diagnostics are modelled as a list of message
  strings so that the distinct error kinds are observable; `fprintf(stdout)`
  output of `oufs_list` is modelled as the list of printed lines.
* `basename` (libgen) and `strtok`-tokenization are external library
  functions, modelled from their POSIX contracts.
* libc `qsort` gives no tie-breaking guarantee; it is modelled as a
  deterministic stable insertion sort consistent with the comparator.
* Reading past the end of a C token array (a `NULL` token passed to
  `strcmp`, possible only for an empty token list) is undefined behaviour in
  the source; the model returns the error status `-1` there.
-/

/-! ## Geometry constants (modelled from the spec, `oufs.h` is not in the sources) -/

def BLOCK_SIZE : Nat := 256
def N_BLOCKS_IN_DISK : Nat := 128
def N_INODE_BLOCKS : Nat := 8
def INODES_PER_BLOCK : Nat := 8
def N_INODES : Nat := INODES_PER_BLOCK * N_INODE_BLOCKS
def BLOCKS_PER_INODE : Nat := 10
def DIRECTORY_ENTRIES_PER_BLOCK : Nat := 16
def FILE_NAME_SIZE : Nat := 14
def MAX_PATH_LENGTH : Nat := 200
def UNALLOCATED_BLOCK : Nat := 65535
def UNALLOCATED_INODE : Nat := 65535
def MASTER_BLOCK_REFERENCE : Nat := 0
def ROOT_DIRECTORY_BLOCK : Nat := 9

/-! ## Data model -/

/-- `INODE_TYPE` from `oufs.h`: `IT_NONE`, `IT_FILE`, `IT_DIRECTORY`. -/
inductive INODE_TYPE where
  | IT_NONE
  | IT_FILE
  | IT_DIRECTORY
deriving DecidableEq, Repr

/-- The `INODE` record: type, reference count, ten direct block references
and a size field. -/
structure INODE where
  itype : INODE_TYPE
  n_references : Nat
  data : List Nat
  size : Nat
deriving DecidableEq, Repr

/-- A zeroed inode (the state of a freshly `memset` inode record, with
`IT_NONE = 0`). -/
def zeroINODE : INODE :=
  { itype := .IT_NONE, n_references := 0, data := List.replicate BLOCKS_PER_INODE 0,
    size := 0 }

/-- A `DIRECTORY_ENTRY`: fixed-size name buffer (modelled as a string) plus
an inode reference. -/
structure DIRECTORY_ENTRY where
  name : String
  inode_reference : Nat
deriving DecidableEq, Repr

/-- A zeroed directory entry. -/
def zeroENTRY : DIRECTORY_ENTRY := { name := "", inode_reference := 0 }

/-- The master-block view: the two allocation bitmaps, one byte list each
(8 bytes of inode bits, 16 bytes of block bits). -/
structure MASTER_BLOCK where
  inode_allocated_flag : List Nat
  block_allocated_flag : List Nat
deriving DecidableEq, Repr

/-- The C `BLOCK` union, modelled as a product of its three views. -/
structure BLOCK where
  master : MASTER_BLOCK
  inodes : List INODE
  directory : List DIRECTORY_ENTRY
deriving DecidableEq, Repr

/-- A zeroed block: zero bitmaps, zero inodes, zero directory entries. -/
def zeroBLOCK : BLOCK :=
  { master := { inode_allocated_flag := List.replicate (N_INODES / 8) 0,
                block_allocated_flag := List.replicate (N_BLOCKS_IN_DISK / 8) 0 },
    inodes := List.replicate INODES_PER_BLOCK zeroINODE,
    directory := List.replicate DIRECTORY_ENTRIES_PER_BLOCK zeroENTRY }

/-- The virtual disk: the 128 blocks of the image, in order. -/
abbrev Disk : Type := List BLOCK

/-- `vdisk_read_block` (external collaborator, spec §6): returns the block at
a valid index, fails on an out-of-range index. -/
def vdisk_read_block (d : Disk) (i : Nat) : Option BLOCK :=
  if i < N_BLOCKS_IN_DISK then some (d.getD i zeroBLOCK) else none

/-- `vdisk_write_block` (external collaborator, spec §6): replaces the block
at a valid index, fails on an out-of-range index. -/
def vdisk_write_block (d : Disk) (i : Nat) (b : BLOCK) : Option Disk :=
  if i < N_BLOCKS_IN_DISK then some (d.set i b) else none

/-! ## Inode table access (`oufs_read_inode_by_reference`,
`oufs_write_inode_by_reference`) -/

/-- `oufs_read_inode_by_reference`: block `i / INODES_PER_BLOCK + 1`,
element `i % INODES_PER_BLOCK`; copies that inode out of the block, or
reports an error if the underlying block read fails. -/
def oufs_read_inode_by_reference (d : Disk) (i : Nat) : Option INODE :=
  let block := i / INODES_PER_BLOCK + 1
  let element := i % INODES_PER_BLOCK
  match vdisk_read_block d block with
  | some b => some (b.inodes.getD element zeroINODE)
  | none => none

/-- `oufs_write_inode_by_reference`: read-modify-write of the inode-table
block holding reference `i`. -/
def oufs_write_inode_by_reference (d : Disk) (i : Nat) (inode : INODE) :
    Option Disk :=
  let block_no := i / INODES_PER_BLOCK + 1
  let inode_no := i % INODES_PER_BLOCK
  match vdisk_read_block d block_no with
  | none => none
  | some b =>
      vdisk_write_block d block_no { b with inodes := b.inodes.set inode_no inode }

/-! ## Disk formatting (`oufs_format_disk`) -/

/-- The master block written by `oufs_format_disk`: inode bit 0 set and
block bits 0..9 set (bytes 255 and 3). -/
def formatMasterBLOCK : BLOCK :=
  { zeroBLOCK with
    master := { inode_allocated_flag := [1, 0, 0, 0, 0, 0, 0, 0],
                block_allocated_flag := [255, 3, 0, 0, 0, 0, 0, 0, 0, 0, 0, 0, 0, 0, 0, 0] } }

/-- The first inode-table block written by `oufs_format_disk`: inode 0 is a
directory of size 2 whose `data[0]` is block 9 and whose other data slots
are `UNALLOCATED_BLOCK`. -/
def formatInodeBLOCK : BLOCK :=
  { zeroBLOCK with
    inodes :=
      ({ itype := .IT_DIRECTORY, n_references := 1,
         data := 9 :: List.replicate (BLOCKS_PER_INODE - 1) UNALLOCATED_BLOCK,
         size := 2 } : INODE) :: List.replicate (INODES_PER_BLOCK - 1) zeroINODE }

/-- The root directory block written by `oufs_format_disk`: `.` and `..`
both referencing inode 0, every other slot with reference
`UNALLOCATED_INODE` (names zeroed). -/
def formatRootBLOCK : BLOCK :=
  { zeroBLOCK with
    directory :=
      ({ name := ".", inode_reference := 0 } : DIRECTORY_ENTRY) ::
      ({ name := "..", inode_reference := 0 } : DIRECTORY_ENTRY) ::
      List.replicate (DIRECTORY_ENTRIES_PER_BLOCK - 2)
        ({ name := "", inode_reference := UNALLOCATED_INODE } : DIRECTORY_ENTRY) }

/-- One step of the zeroing loop of `oufs_format_disk`. -/
def formatZeroLoop (d : Disk) : Nat → Option Disk
  | 0 => some d
  | n + 1 =>
      match formatZeroLoop d n with
      | none => none
      | some d' => vdisk_write_block d' n zeroBLOCK

/-- `oufs_format_disk`: zero every block, then write the master block, the
first inode-table block (root inode) and the root directory block. -/
def oufs_format_disk (d : Disk) : Option Disk :=
  match formatZeroLoop d N_BLOCKS_IN_DISK with
  | none => none
  | some d1 =>
      match vdisk_write_block d1 0 formatMasterBLOCK with
      | none => none
      | some d2 =>
          match vdisk_write_block d2 1 formatInodeBLOCK with
          | none => none
          | some d3 => vdisk_write_block d3 9 formatRootBLOCK

/-! ## Bit allocator (`oufs_flip_bit`, `oufs_find_available_bit`,
`oufs_find_bit_positions`) -/

/-- `oufs_flip_bit`: XOR the bit at position `pos` into the byte. -/
def oufs_flip_bit (byte : Nat) (pos : Nat) : Nat :=
  byte ^^^ (1 <<< pos)

/-- `oufs_find_available_bit`: the lowest position `i < 8` whose bit is 0
(bit 0 checked before bit 7), `none` when the byte is `0xFF`. -/
def oufs_find_available_bit (byte : Nat) : Option Nat :=
  (List.range 8).find? (fun i => ! byte.testBit i)

/-- The byte scan of `oufs_find_bit_positions` over the remaining bytes,
carrying the current byte index: first byte with an available bit, together
with that bit. -/
def oufs_bit_scan_aux (k : Nat) : List Nat → Option (Nat × Nat)
  | [] => none
  | b :: bs =>
      match oufs_find_available_bit b with
      | some j => some (k, j)
      | none => oufs_bit_scan_aux (k + 1) bs

/-- The byte scan of `oufs_find_bit_positions`: the loop over
`byte_array[0] .. byte_array[size-1]` in order. -/
def oufs_bit_scan (arr : List Nat) (size : Nat) : Option (Nat × Nat) :=
  oufs_bit_scan_aux 0 (arr.take size)

/-- `oufs_find_bit_positions`: scan the byte array of the given category
(`'I'` = inode table, `'B'` = block table) for the first available bit, flip
it in place, and return the updated array together with the bit's overall
position `8 * byte + bit`.  `none` models the `-1` error return. -/
def oufs_find_bit_positions (arr : List Nat) (ctype : Char) : Option (List Nat × Nat) :=
  if ctype = 'I' ∨ ctype = 'B' then
    let size := if ctype = 'I' then N_INODES / 8 else N_BLOCKS_IN_DISK / 8
    match oufs_bit_scan arr size with
    | none => none
    | some (byte, bit) =>
        some (arr.set byte (oufs_flip_bit (arr.getD byte 0) bit), 8 * byte + bit)
  else none

/-! ## Path tokenization and `basename` (external libc collaborators) -/

/-- The character scan behind `tokenize`: split the remaining characters on
`'/'`, with `acc` the (reversed) characters of the component being read;
empty components produce no token. -/
def tokenizeAux : List Char → List Char → List String
  | [], acc => if acc.isEmpty then [] else [String.mk acc.reverse]
  | c :: cs, acc =>
      if c = '/' then
        if acc.isEmpty then tokenizeAux cs []
        else String.mk acc.reverse :: tokenizeAux cs []
      else tokenizeAux cs (c :: acc)

/-- The `strtok` loop of `oufs_find_file` split on `"/"`: the nonempty
components in order (runs of slashes and leading/trailing slashes produce no
token). -/
def tokenize (s : String) : List String :=
  tokenizeAux s.data []

/-- Modelled from the spec: POSIX `basename` (libgen), used by `oufs_mkdir`
and `oufs_rmdir` to extract the final path component; the libc sources are
external to this repository.  Empty path gives `"."`, all-slash paths give
`"/"`, otherwise the last nonempty component. -/
def cBasename (s : String) : String :=
  (tokenize s).getLastD (if s = "" then "." else "/")

/-! ## Directory-entry lookup (`oufs_find_inode_ref_by_name`) -/

/-- `oufs_find_inode_ref_by_name`: read the directory block at the inode's
`data[0]` and scan all `DIRECTORY_ENTRIES_PER_BLOCK` slots in storage order
for an exact name match (allocated or not).  `(1, some ref)` = match,
`(0, none)` = no match, `(-1, none)` = block read failure (in the C the
output reference is then left unassigned). -/
def oufs_find_inode_ref_by_name (d : Disk) (inode : INODE) (name : String) :
    Int × Option Nat :=
  match vdisk_read_block d (inode.data.getD 0 0) with
  | none => (-1, none)
  | some b =>
      match b.directory.find? (fun e => e.name == name) with
      | some e => (1, some e.inode_reference)
      | none => (0, none)

/-! ## Path resolution (`oufs_find_file`) -/

/-- The result of `oufs_find_file`: the `int` return value, the final values
of the caller's `parent` and `child` variables, and the `stderr` messages. -/
structure FindFileResult where
  ret : Int
  parent : Nat
  child : Nat
  errs : List String
deriving DecidableEq, Repr

/-- One lookup step of the walk loops in `oufs_find_file`: `memset` the
inode, load it (ignoring a read failure), and call
`oufs_find_inode_ref_by_name` on the current reference variable `r`.  The C
treats both return values `1` and `-1` as a match (`if (...)`), and on `-1`
the reference variable keeps its old value. -/
def lookupStep (d : Disk) (r : Nat) (t : String) : Bool × Nat :=
  let inode := (oufs_read_inode_by_reference d r).getD zeroINODE
  match oufs_find_inode_ref_by_name d inode t with
  | (0, _) => (false, r)
  | (_, some r') => (true, r')
  | (_, none) => (true, r)

/-- The cwd walk of `oufs_find_file` (entered only when `cwd` is not `"/"`),
over the token list with state (current `cwd_inode_ref`, `*parent`,
`*child`).  Error results carry the `*parent`/`*child` values at failure and
the `stderr` message; an empty token list dereferences a `NULL` token in the
C (undefined behaviour), modelled as the error return. -/
def oufs_find_file_cwdLoop (d : Disk) :
    List String → Nat → Nat → Nat → Except (Nat × Nat × List String) (Nat × Nat × Nat)
  | [], _, p, c => .error (p, c, ["undefined: NULL token"])
  | t :: ts, r, _, c =>
      match lookupStep d r t with
      | (false, _) => .error (c, c, ["Invalid cwd"])
      | (true, r') =>
          if ts.isEmpty then .ok (r', c, r')
          else oufs_find_file_cwdLoop d ts r' c r'

/-- The target-path walk of `oufs_find_file`, over the token list with state
(current `path_inode_ref`, `*parent`, `*child`).  A match advances
`(parent, child)` to `(old child, new reference)`; a miss on the last token
returns `0`, a miss on an earlier token returns `-1` with the
"Improper path name" diagnostic; an empty token list is the `NULL`-token
undefined-behaviour case. -/
def oufs_find_file_pathLoop (d : Disk) :
    List String → Nat → Nat → Nat → FindFileResult
  | [], _, p, c => ⟨-1, p, c, ["undefined: NULL token"]⟩
  | t :: ts, r, p, c =>
      match lookupStep d r t with
      | (true, r') =>
          if ts.isEmpty then ⟨1, c, r', []⟩
          else oufs_find_file_pathLoop d ts r' c r'
      | (false, _) =>
          if ts.isEmpty then ⟨0, p, c, []⟩
          else ⟨-1, p, c, ["Improper path name"]⟩

/-- `oufs_find_file`.  `p0`/`c0` are the initial values of the variables the
caller's `parent`/`child` pointers address (the in-repo callers pass
zero-initialized locals).  For `path == "/"` the C assigns the local pointer
variables themselves (`parent = child = 0;`) and returns `0`, so the
caller's variables are left unchanged.  When `cwd` is `"/"` the walk starts
at the zero-initialized `path_inode_ref`; otherwise the cwd walk starting at
inode 0 produces the start state. -/
def oufs_find_file (d : Disk) (cwd path : String) (p0 c0 : Nat) : FindFileResult :=
  if path = "/" then ⟨0, p0, c0, []⟩
  else if cwd = "/" then oufs_find_file_pathLoop d (tokenize path) 0 p0 c0
  else
    match oufs_find_file_cwdLoop d (tokenize cwd) 0 p0 c0 with
    | .error (p, c, msgs) => ⟨-1, p, c, msgs⟩
    | .ok (r, p, c) => oufs_find_file_pathLoop d (tokenize path) r p c

/-! ## Directory creation (`oufs_mkdir`) -/

/-- Truncation to the C `unsigned int` of the inode `size` field. -/
def u32 (n : Nat) : Nat := n % 4294967296

/-- The result of a mutating operation: `int` return value, resulting disk
(the C leaves already-performed writes in place when a later step fails) and
the `stderr` messages. -/
structure OpResult where
  ret : Int
  disk : Disk
  errs : List String
deriving DecidableEq

/-- The fresh directory block built by `oufs_mkdir` for the new directory:
`.` to the new inode, `..` to the parent, all other slots with
`UNALLOCATED_INODE` references (their name bytes are never initialized by
the C; zero-initialized here). -/
def mkdirChildBLOCK (child_inode_ref parent_inode_ref : Nat) : BLOCK :=
  { zeroBLOCK with
    directory :=
      ({ name := ".", inode_reference := child_inode_ref } : DIRECTORY_ENTRY) ::
      ({ name := "..", inode_reference := parent_inode_ref } : DIRECTORY_ENTRY) ::
      List.replicate (DIRECTORY_ENTRIES_PER_BLOCK - 2)
        ({ name := "", inode_reference := UNALLOCATED_INODE } : DIRECTORY_ENTRY) }

/-- The inode `oufs_mkdir` writes for the new directory. -/
def mkdirChildINODE (child_block_ref : Nat) : INODE :=
  { itype := .IT_DIRECTORY, n_references := 1,
    data := child_block_ref :: List.replicate (BLOCKS_PER_INODE - 1) UNALLOCATED_BLOCK,
    size := 2 }

/-- `oufs_mkdir`.  The uninitialized `gparent_inode_ref`/`parent_inode_ref`
locals passed to `oufs_find_file` are zero-initialized per the conventions;
the resolved `child` output is the parent of the directory to create. -/
def oufs_mkdir (d : Disk) (cwd path : String) : OpResult :=
  let ff := oufs_find_file d cwd path 0 0
  if ff.ret = 0 then
    let dir_name := cBasename path
    if dir_name.length > FILE_NAME_SIZE then
      ⟨-1, d, ff.errs ++ ["Directory name too large"]⟩
    else
      match oufs_read_inode_by_reference d ff.child with
      | none => ⟨-1, d, ff.errs⟩
      | some parent_inode =>
        if parent_inode.size = DIRECTORY_ENTRIES_PER_BLOCK then
          ⟨-1, d, ff.errs ++ ["Not enough space in parent"]⟩
        else
          match vdisk_read_block d 0 with
          | none => ⟨-1, d, ff.errs⟩
          | some block_0 =>
            match oufs_find_bit_positions block_0.master.inode_allocated_flag 'I' with
            | none => ⟨-1, d, ff.errs ++ ["Not enough available inodes to make directory"]⟩
            | some (iflags, child_inode_ref) =>
              match oufs_find_bit_positions block_0.master.block_allocated_flag 'B' with
              | none => ⟨-1, d, ff.errs ++ ["Not enough available blocks to make directory"]⟩
              | some (bflags, child_block_ref) =>
                let block_0m : BLOCK :=
                  { block_0 with master :=
                    { inode_allocated_flag := iflags, block_allocated_flag := bflags } }
                match vdisk_write_block d 0 block_0m with
                | none => ⟨-1, d, ff.errs⟩
                | some d1 =>
                  let parent_inode1 := { parent_inode with size := u32 (parent_inode.size + 1) }
                  let parent_block_ref := parent_inode1.data.getD 0 0
                  match oufs_write_inode_by_reference d1 ff.child parent_inode1 with
                  | none => ⟨-1, d1, ff.errs⟩
                  | some d2 =>
                    match vdisk_read_block d2 parent_block_ref with
                    | none => ⟨-1, d2, ff.errs⟩
                    | some pdb =>
                      let pdb1 :=
                        match pdb.directory.findIdx?
                            (fun e => e.inode_reference = UNALLOCATED_INODE) with
                        | some idx =>
                            { pdb with directory :=
                                (pdb.directory.set idx
                                  ({ name := dir_name,
                                     inode_reference := child_inode_ref } :
                                    DIRECTORY_ENTRY)) }
                        | none => pdb
                      match vdisk_write_block d2 parent_block_ref pdb1 with
                      | none => ⟨-1, d2, ff.errs⟩
                      | some d3 =>
                        match vdisk_write_block d3 child_block_ref
                            (mkdirChildBLOCK child_inode_ref ff.child) with
                        | none => ⟨-1, d3, ff.errs⟩
                        | some d4 =>
                          match oufs_write_inode_by_reference d4 child_inode_ref
                              (mkdirChildINODE child_block_ref) with
                          | none => ⟨-1, d4, ff.errs⟩
                          | some d5 => ⟨0, d5, ff.errs⟩
  else if ff.ret = 1 then
    ⟨-1, d, ff.errs ++ ["Unable to make directory, name exists"]⟩
  else ⟨-1, d, ff.errs⟩

/-! ## Directory removal (`oufs_rmdir`) -/

/-- `oufs_rmdir`, following the C step for step: basename length check,
`.`/`..` rejection, resolution, child type and emptiness checks, entry
removal, parent size decrement, child inode/block zeroing, bitmap bit
flips. -/
def oufs_rmdir (d : Disk) (cwd path : String) : OpResult :=
  let dir_name := cBasename path
  if dir_name.length > FILE_NAME_SIZE then
    ⟨-1, d, ["Directory name too large"]⟩
  else if dir_name = "." ∨ dir_name = ".." then
    ⟨-1, d, ["Illegal name"]⟩
  else
    let ff := oufs_find_file d cwd path 0 0
    if ff.ret = 0 then ⟨-1, d, ff.errs ++ ["Name does not exist"]⟩
    else if ff.ret < 0 then ⟨-1, d, ff.errs⟩
    else
      match oufs_read_inode_by_reference d ff.child with
      | none => ⟨-1, d, ff.errs⟩
      | some child_inode =>
        let child_block_ref := child_inode.data.getD 0 0
        if child_inode.itype ≠ .IT_DIRECTORY then
          ⟨-1, d, ff.errs ++ ["is not a directory"]⟩
        else if child_inode.size ≠ 2 then
          ⟨-1, d, ff.errs ++ ["is not empty"]⟩
        else
          match oufs_read_inode_by_reference d ff.parent with
          | none => ⟨-1, d, ff.errs⟩
          | some parent_inode =>
            let parent_block_ref := parent_inode.data.getD 0 0
            let parent_inode1 :=
              { parent_inode with size := u32 (parent_inode.size + 4294967295) }
            match oufs_write_inode_by_reference d ff.parent parent_inode1 with
            | none => ⟨-1, d, ff.errs⟩
            | some d1 =>
              match vdisk_read_block d1 parent_block_ref with
              | none => ⟨-1, d1, ff.errs⟩
              | some pdb =>
                let pdb1 :=
                  match pdb.directory.findIdx? (fun e => e.name == dir_name) with
                  | some idx =>
                      { pdb with directory :=
                          (pdb.directory.set idx
                            ({ name := "", inode_reference := UNALLOCATED_INODE } :
                              DIRECTORY_ENTRY)) }
                  | none => pdb
                match vdisk_write_block d1 parent_block_ref pdb1 with
                | none => ⟨-1, d1, ff.errs⟩
                | some d2 =>
                  match oufs_write_inode_by_reference d2 ff.child zeroINODE with
                  | none => ⟨-1, d2, ff.errs⟩
                  | some d3 =>
                    match vdisk_write_block d3 child_block_ref zeroBLOCK with
                    | none => ⟨-1, d3, ff.errs⟩
                    | some d4 =>
                      match vdisk_read_block d4 0 with
                      | none => ⟨-1, d4, ff.errs⟩
                      | some mb =>
                        let iaf := mb.master.inode_allocated_flag
                        let baf := mb.master.block_allocated_flag
                        let maf : MASTER_BLOCK :=
                          { inode_allocated_flag :=
                              iaf.set (ff.child / 8)
                                (oufs_flip_bit (iaf.getD (ff.child / 8) 0) (ff.child % 8)),
                            block_allocated_flag :=
                              baf.set (child_block_ref / 8)
                                (oufs_flip_bit (baf.getD (child_block_ref / 8) 0)
                                  (child_block_ref % 8)) }
                        let mb1 := { mb with master := maf }
                        match vdisk_write_block d4 0 mb1 with
                        | none => ⟨-1, d4, ff.errs⟩
                        | some d5 => ⟨0, d5, ff.errs⟩

/-! ## Directory listing (`oufs_comparator`, `qsort`, `oufs_list`) -/

/-- C `strncmp` on character lists with a byte budget: stops at the first
difference, at the end of either string (the `NUL` terminator compares below
every real character) or after `n` characters.  Only the sign is used. -/
def strncmpChars : Nat → List Char → List Char → Int
  | 0, _, _ => 0
  | _ + 1, [], [] => 0
  | _ + 1, [], _ :: _ => -1
  | _ + 1, _ :: _, [] => 1
  | n + 1, x :: xs, y :: ys =>
      if x = y then strncmpChars n xs ys
      else if x.toNat < y.toNat then -1 else 1

/-- `oufs_comparator`: compares directory entries by
`strncmp(a->name, b->name, sizeof(char *))`, i.e. by only the first 8 bytes
of the stored names on the 64-bit target. -/
def oufs_comparator (a b : DIRECTORY_ENTRY) : Int :=
  strncmpChars 8 a.name.toList b.name.toList

/-- The non-strict order induced by `oufs_comparator`. -/
def entryLE (a b : DIRECTORY_ENTRY) : Prop := oufs_comparator a b ≤ 0

instance : DecidableRel entryLE := fun a b => Int.decLe (oufs_comparator a b) 0

/-- Modelled from the spec: libc `qsort` over the entry array with
`oufs_comparator`.  `qsort` promises only a comparator-consistent
rearrangement (no stability); this model fixes the deterministic stable
insertion sort, which is one admissible outcome. -/
def qsortModel (l : List DIRECTORY_ENTRY) : List DIRECTORY_ENTRY :=
  List.insertionSort entryLE l

/-- The result of `oufs_list`: return value, `stdout` lines in order, and
`stderr` messages. -/
structure ListResult where
  ret : Int
  output : List String
  errs : List String
deriving DecidableEq

/-- The print loop of `oufs_list` over the sorted entries: unallocated slots
are skipped; for an allocated slot the entry inode is loaded into
`temp_inode` (kept unchanged if the read fails; zero-initialized at first)
and the name is printed with a `/` suffix exactly when that inode is a
directory. -/
def oufs_list_printLoop (d : Disk) :
    List DIRECTORY_ENTRY → INODE → List String → List String
  | [], _, acc => acc
  | e :: es, temp, acc =>
      if e.inode_reference ≠ UNALLOCATED_INODE then
        let temp1 := (oufs_read_inode_by_reference d e.inode_reference).getD temp
        oufs_list_printLoop d es temp1
          (acc ++ [e.name ++ (if temp1.itype = .IT_DIRECTORY then "/" else "")])
      else oufs_list_printLoop d es temp acc

/-- `oufs_list`: the `path == "/"` rewrite, resolution, the file and
`IT_NONE` cases, and the sorted directory print loop. -/
def oufs_list (d : Disk) (cwd0 path0 : String) : ListResult :=
  let cwd := if path0 = "/" then "/" else cwd0
  let path := if path0 = "/" then "." else path0
  let ff := oufs_find_file d cwd path 0 0
  if ff.ret < 1 then ⟨-1, [], ff.errs ++ ["File does not exist"]⟩
  else
    match oufs_read_inode_by_reference d ff.child with
    | none => ⟨-1, [], ff.errs⟩
    | some inode =>
      if inode.itype = .IT_FILE then ⟨0, [path], ff.errs⟩
      else if inode.itype = .IT_NONE then ⟨-1, [], ff.errs⟩
      else
        match vdisk_read_block d (inode.data.getD 0 0) with
        | none => ⟨-1, [], ff.errs⟩
        | some dir_block =>
            ⟨0, oufs_list_printLoop d (qsortModel dir_block.directory) zeroINODE [],
              ff.errs⟩

/-! ## The spec's resolver algorithm (reference for the refinement claims) -/

/-- The status of the spec's `resolve` (§4.3) together with the returned
`(parent, child)` pair. -/
inductive WalkStatus where
  | found (parent child : Nat)
  | notFound (parent child : Nat)
  | invalid
deriving DecidableEq, Repr

/-- Modelled from the spec: one §4.3 lookup — "looking up each token in the
current directory's single entry block", scanning the slots in storage
order, first exact match wins (§4.3 tie-break policy). -/
def specLookup (d : Disk) (dir : Nat) (t : String) : Option Nat :=
  let inode := (oufs_read_inode_by_reference d dir).getD zeroINODE
  match vdisk_read_block d (inode.data.getD 0 0) with
  | none => none
  | some b =>
      match b.directory.find? (fun e => e.name == t) with
      | some e => some e.inode_reference
      | none => none

/-- Modelled from the spec: the §4.3 token walk.  On a match, advance
`(parent, child)` to `(old child, new child)`; on a miss at the last token
return `(parent, child-before-lookup)` with `NotFound`; on a miss earlier
return `Invalid`; when all tokens resolve return `Found`. -/
def specWalk (d : Disk) : Nat → Nat → List String → WalkStatus
  | p, c, [] => .found p c
  | p, c, t :: ts =>
      match specLookup d c t with
      | some r => specWalk d c r ts
      | none => if ts.isEmpty then .notFound p c else .invalid

/-- The start state of the target walk of `oufs_find_file` when the callers
pass zero-initialized output variables: `(path_inode_ref, parent, child)`,
i.e. `(0, 0, 0)` for the root cwd and the cwd walk's final state otherwise. -/
def findFileStart (d : Disk) (cwd : String) : Option (Nat × Nat × Nat) :=
  if cwd = "/" then some (0, 0, 0)
  else
    match oufs_find_file_cwdLoop d (tokenize cwd) 0 0 0 with
    | .ok s => some s
    | .error _ => none

/-- The `data[0]` reference of the inode record at reference `i`, as the
walk loops of `oufs_find_file` observe it (a failed inode read leaves the
`memset` record). -/
def inodeData0 (d : Disk) (i : Nat) : Nat :=
  ((oufs_read_inode_by_reference d i).getD zeroINODE).data.getD 0 0

/-- A disk on which every name lookup is well-defined: every inode record
the walk can load (any reference below `8 * (N_BLOCKS_IN_DISK - 1)`, beyond
which the inode read fails and yields the `memset` record) has a `data[0]`
inside the disk, so `oufs_find_inode_ref_by_name` never hits its block-read
failure path. -/
def goodDisk (d : Disk) : Prop :=
  ∀ i < 8 * (N_BLOCKS_IN_DISK - 1), inodeData0 d i < N_BLOCKS_IN_DISK

instance : DecidablePred goodDisk := fun d =>
  inferInstanceAs (Decidable (∀ i < 8 * (N_BLOCKS_IN_DISK - 1), inodeData0 d i < N_BLOCKS_IN_DISK))

/-! ## Concrete disks -/

/-- The all-zero 128-block disk image. -/
def zeroDisk : Disk := List.replicate N_BLOCKS_IN_DISK zeroBLOCK

/-- The freshly formatted disk: master block, root inode block, seven empty
inode-table blocks, the root directory block at block 9, and zeroed data
blocks. -/
def fmtDisk : Disk :=
  formatMasterBLOCK :: formatInodeBLOCK ::
    (List.replicate 7 zeroBLOCK ++ formatRootBLOCK :: List.replicate 118 zeroBLOCK)

/-! ## Derived state observers -/

/-- Bit `i` of a bitmap byte list, addressed as the source does (byte
`i / 8`, bit `i % 8`). -/
def bitmapGet (flags : List Nat) (i : Nat) : Bool :=
  (flags.getD (i / 8) 0).testBit (i % 8)

/-- The master-block view of block 0. -/
def diskMaster (d : Disk) : MASTER_BLOCK := (d.getD 0 zeroBLOCK).master

/-- The inode record at reference `i` as stored on disk (total form of
`oufs_read_inode_by_reference`). -/
def inodeAt (d : Disk) (i : Nat) : INODE :=
  (oufs_read_inode_by_reference d i).getD zeroINODE

/-! ## Formatting lemmas -/

theorem formatZeroLoop_spec (n : Nat) (d : Disk) (hn : n ≤ N_BLOCKS_IN_DISK)
    (hd : d.length = N_BLOCKS_IN_DISK) :
    formatZeroLoop d n = some (List.replicate n zeroBLOCK ++ d.drop n) := by
  induction n with
  | zero => simp [formatZeroLoop]
  | succ n ih =>
      rw [formatZeroLoop, ih (Nat.le_of_succ_le hn)]
      have hnlt : n < N_BLOCKS_IN_DISK := hn
      have hdrop : d.drop n = d[n] :: d.drop (n + 1) :=
        List.drop_eq_getElem_cons (by omega)
      simp only [vdisk_write_block, if_pos hnlt, hdrop, Option.some.injEq]
      rw [List.set_append_right _ _ (by simp)]
      simp only [List.length_replicate, Nat.sub_self, List.set]
      rw [List.replicate_succ' n]
      simp

theorem oufs_format_disk_eq (d : Disk) (hd : d.length = N_BLOCKS_IN_DISK) :
    oufs_format_disk d = some fmtDisk := by
  rw [oufs_format_disk, formatZeroLoop_spec N_BLOCKS_IN_DISK d le_rfl hd]
  have : d.drop N_BLOCKS_IN_DISK = [] := List.drop_eq_nil_of_le (by omega)
  rw [this]
  decide

/-! ## List access helpers -/

theorem getD_set_ne {α : Type} (l : List α) (i j : Nat) (x dflt : α) (h : i ≠ j) :
    (l.set i x).getD j dflt = l.getD j dflt := by
  simp [List.getD_eq_getElem?_getD, List.getElem?_set_ne h]

theorem getD_set_self {α : Type} (l : List α) (i : Nat) (x dflt : α) (h : i < l.length) :
    (l.set i x).getD i dflt = x := by
  simp [List.getD_eq_getElem?_getD, List.getElem?_set_self, h]

/-! ## C8: formatting establishes the documented initial state -/

set_option maxRecDepth 40000 in
/-- C8: after a successful `oufs_format_disk`, every non-reserved block is
zeroed; in the master block only inode bit 0 and block bits 0..9 (master
block, inode-table blocks, root directory block) are set; inode 0 is a
directory of size 2 with `data[0]` the root directory block and all other
data slots `UNALLOCATED_BLOCK`; and the root directory block maps `.` and
`..` to inode 0 with every other slot unallocated. -/
theorem claim_C8_format (d : Disk) (hd : d.length = N_BLOCKS_IN_DISK) :
    oufs_format_disk d = some fmtDisk ∧
    (∀ j, 10 ≤ j → j < N_BLOCKS_IN_DISK → fmtDisk.getD j zeroBLOCK = zeroBLOCK) ∧
    (∀ i < N_INODES,
      bitmapGet (diskMaster fmtDisk).inode_allocated_flag i = decide (i = 0)) ∧
    (∀ j < N_BLOCKS_IN_DISK,
      bitmapGet (diskMaster fmtDisk).block_allocated_flag j
        = decide (j ≤ ROOT_DIRECTORY_BLOCK)) ∧
    inodeAt fmtDisk 0 =
      { itype := .IT_DIRECTORY, n_references := 1,
        data := ROOT_DIRECTORY_BLOCK ::
          List.replicate (BLOCKS_PER_INODE - 1) UNALLOCATED_BLOCK,
        size := 2 } ∧
    (fmtDisk.getD ROOT_DIRECTORY_BLOCK zeroBLOCK).directory =
      ({ name := ".", inode_reference := 0 } : DIRECTORY_ENTRY) ::
      ({ name := "..", inode_reference := 0 } : DIRECTORY_ENTRY) ::
      List.replicate (DIRECTORY_ENTRIES_PER_BLOCK - 2)
        ({ name := "", inode_reference := UNALLOCATED_INODE } : DIRECTORY_ENTRY) := by
  refine ⟨oufs_format_disk_eq d hd, ?_, ?_, ?_, ?_, ?_⟩ <;> decide

/-- C8 witness: the format theorem applied to the all-zero image. -/
theorem claim_C8_format_witness : oufs_format_disk zeroDisk = some fmtDisk :=
  (claim_C8_format zeroDisk (by simp [zeroDisk])).1

/-! ## C2: resolving the root path -/

/-- C2 counterexample: for `target == "/"` the C assigns the local pointer
variables (`parent = child = 0;`) and returns `0` — the NotFound status, not
the `-1` Invalid/error status the claim requires. -/
theorem claim_C2_counterexample :
    (oufs_find_file fmtDisk "/" "/" 5 7).ret = 0 ∧
    ¬ (oufs_find_file fmtDisk "/" "/" 5 7).ret = -1 := by
  constructor <;> decide

/-- C2 (amended): for every cwd, `oufs_find_file` with target exactly `"/"`
returns status `0` (the NotFound status) with no diagnostic and leaves the
caller's `parent` and `child` variables unmodified; it never reports Found
for the root target. -/
theorem claim_C2_root_path (d : Disk) (cwd : String) (p0 c0 : Nat) :
    oufs_find_file d cwd "/" p0 c0 = ⟨0, p0, c0, []⟩ := by
  simp [oufs_find_file]

/-! ## C10: lookup matches unallocated slots -/

/-- A disk whose root directory block contains a free slot (reference
`UNALLOCATED_INODE`) whose name bytes spell `ghost` — the situation
`oufs_mkdir` can leave behind, since it initializes only the
inode-reference fields of the unused slots of a new directory block and not
their name bytes. -/
def ghostDisk : Disk :=
  fmtDisk.set ROOT_DIRECTORY_BLOCK
    { formatRootBLOCK with
      directory :=
        (formatRootBLOCK.directory.set 2
          ({ name := "ghost", inode_reference := UNALLOCATED_INODE } :
            DIRECTORY_ENTRY)) }

/-- C10: `oufs_find_inode_ref_by_name` compares the searched name against
every slot of the directory block, allocated or not; on `ghostDisk`, whose
root block holds a free slot named `ghost`, looking up `ghost` reports a
match whose returned child reference is `UNALLOCATED_INODE`. -/
theorem claim_C10_ghost_match :
    ((ghostDisk.getD ROOT_DIRECTORY_BLOCK zeroBLOCK).directory.getD 2
        zeroENTRY).inode_reference = UNALLOCATED_INODE ∧
    oufs_find_inode_ref_by_name ghostDisk (inodeAt ghostDisk 0) "ghost"
      = (1, some UNALLOCATED_INODE) := by
  constructor <;> decide

/-! ## C7: the bit allocator -/

theorem oufs_find_available_bit_lt {b j : Nat}
    (h : oufs_find_available_bit b = some j) : j < 8 := by
  have hmem := List.mem_of_find?_eq_some h
  simpa using hmem

set_option maxRecDepth 4000 in
theorem oufs_find_available_bit_none :
    ∀ b < 256, (oufs_find_available_bit b = none ↔ b = 255) := by decide

set_option maxRecDepth 4000 in
theorem oufs_find_available_bit_some :
    ∀ b < 256, ∀ j < 8,
      (oufs_find_available_bit b = some j ↔
        (¬ b.testBit j ∧ ∀ i < j, b.testBit i)) := by decide

theorem oufs_bit_scan_aux_none (l : List Nat) :
    ∀ k, oufs_bit_scan_aux k l = none ↔
      ∀ b ∈ l, oufs_find_available_bit b = none := by
  induction l with
  | nil => intro k; simp [oufs_bit_scan_aux]
  | cons b bs ih =>
      intro k
      simp only [oufs_bit_scan_aux]
      cases hfb : oufs_find_available_bit b with
      | some j => simp [hfb]
      | none => simp [hfb, ih (k + 1)]

theorem oufs_bit_scan_aux_some (l : List Nat) :
    ∀ k m j, oufs_bit_scan_aux k l = some (m, j) →
      k ≤ m ∧ m - k < l.length ∧
      (∀ i < m - k, oufs_find_available_bit (l.getD i 0) = none) ∧
      oufs_find_available_bit (l.getD (m - k) 0) = some j := by
  induction l with
  | nil => intro k m j h; simp [oufs_bit_scan_aux] at h
  | cons b bs ih =>
      intro k m j h
      simp only [oufs_bit_scan_aux] at h
      cases hfb : oufs_find_available_bit b with
      | some j0 =>
          rw [hfb] at h
          have hk : k = m ∧ j0 = j := by
            cases h
            exact ⟨rfl, rfl⟩
          obtain ⟨rfl, rfl⟩ := hk
          refine ⟨le_rfl, by simp, ?_, ?_⟩
          · intro i hi
            omega
          · simpa [Nat.sub_self] using hfb
      | none =>
          rw [hfb] at h
          obtain ⟨hkm, hlen, hall, hfind⟩ := ih (k + 1) m j h
          refine ⟨by omega, by simp only [List.length_cons]; omega, ?_, ?_⟩
          · intro i hi
            cases i with
            | zero => simpa using hfb
            | succ i' =>
                have hh := hall i' (by omega)
                simpa using hh
          · have hmk : m - k = (m - (k + 1)) + 1 := by omega
            rw [hmk]
            simpa using hfind

/-- C7: on a byte array of the category's size whose entries are bytes, the
allocator fails exactly when every byte is `0xFF`; otherwise it returns the
position formed from the first byte in scan order that is not `0xFF` and the
lowest-order zero bit within it, and it updates the array by setting exactly
that bit. -/
theorem claim_C7_bit_allocator (arr : List Nat) (ctype : Char)
    (hc : ctype = 'I' ∨ ctype = 'B')
    (hlen : arr.length = if ctype = 'I' then N_INODES / 8 else N_BLOCKS_IN_DISK / 8)
    (hbytes : ∀ b ∈ arr, b < 256) :
    (oufs_find_bit_positions arr ctype = none ↔ ∀ b ∈ arr, b = 255) ∧
    (∀ arr2 pos, oufs_find_bit_positions arr ctype = some (arr2, pos) →
      ∃ k j, k < arr.length ∧ j < 8 ∧ pos = 8 * k + j ∧
        (∀ i < k, arr.getD i 0 = 255) ∧
        arr.getD k 0 ≠ 255 ∧
        ¬ (arr.getD k 0).testBit j ∧
        (∀ i < j, (arr.getD k 0).testBit i) ∧
        arr2 = arr.set k (oufs_flip_bit (arr.getD k 0) j) ∧
        ∀ m < 8 * arr.length,
          bitmapGet arr2 m = (bitmapGet arr m || decide (m = pos))) := by
  have hcond : (ctype = 'I' ∨ ctype = 'B') = True := eq_true hc
  have hmem : ∀ i < arr.length, arr.getD i 0 ∈ arr := by
    intro i hi
    rw [List.getD_eq_getElem arr 0 hi]
    exact List.getElem_mem hi
  have htake : arr.take (if ctype = 'I' then N_INODES / 8 else N_BLOCKS_IN_DISK / 8)
      = arr := by
    rw [← hlen]
    exact List.take_length arr
  have hscan_eq : oufs_bit_scan arr
      (if ctype = 'I' then N_INODES / 8 else N_BLOCKS_IN_DISK / 8)
      = oufs_bit_scan_aux 0 arr := by
    rw [oufs_bit_scan, htake]
  constructor
  · -- failure exactly when every byte is 0xFF
    rw [oufs_find_bit_positions, if_pos hc]
    simp only [hscan_eq]
    cases hscan : oufs_bit_scan_aux 0 arr with
    | none =>
        simp only [true_iff]
        intro b hb
        have hfb := (oufs_bit_scan_aux_none arr 0).mp hscan b hb
        exact (oufs_find_available_bit_none b (hbytes b hb)).mp hfb
    | some p =>
        refine ⟨fun h => absurd h (by simp), fun hall => absurd hall ?_⟩
        intro hall
        obtain ⟨k0, j0⟩ := p
        obtain ⟨-, hklen, -, hfind⟩ := oufs_bit_scan_aux_some arr 0 k0 j0 hscan
        simp only [Nat.sub_zero] at hklen hfind
        have h255 := hall _ (hmem k0 hklen)
        rw [(oufs_find_available_bit_none _ (hbytes _ (hmem k0 hklen))).mpr h255] at hfind
        exact Option.noConfusion hfind
  · -- success: first non-0xFF byte, lowest zero bit, exactly that bit set
    intro arr2 pos hsome
    rw [oufs_find_bit_positions, if_pos hc] at hsome
    simp only [hscan_eq] at hsome
    cases hscan : oufs_bit_scan_aux 0 arr with
    | none => rw [hscan] at hsome; exact absurd hsome (by simp)
    | some p =>
        rw [hscan] at hsome
        obtain ⟨k, j⟩ := p
        simp only [Option.some.injEq, Prod.mk.injEq] at hsome
        obtain ⟨harr2, hpos⟩ := hsome
        obtain ⟨-, hklen, hfirst, hfind⟩ := oufs_bit_scan_aux_some arr 0 k j hscan
        simp only [Nat.sub_zero] at hklen hfirst hfind
        have hbk : arr.getD k 0 < 256 := hbytes _ (hmem k hklen)
        have hj8 : j < 8 := oufs_find_available_bit_lt hfind
        have hchar := (oufs_find_available_bit_some _ hbk j hj8).mp hfind
        refine ⟨k, j, hklen, hj8, hpos.symm, ?_, ?_, hchar.1, hchar.2, harr2.symm, ?_⟩
        · intro i hi
          have hfb := hfirst i hi
          exact (oufs_find_available_bit_none _
            (hbytes _ (hmem i (by omega)))).mp hfb
        · intro h255
          rw [(oufs_find_available_bit_none _ hbk).mpr h255] at hfind
          exact Option.noConfusion hfind
        · intro m hm
          subst harr2 hpos
          have hbit : (arr[k]?.getD 0).testBit j = false := by
            simpa [List.getD_eq_getElem?_getD] using hchar.1
          unfold bitmapGet
          by_cases hmk : m / 8 = k
          · rw [hmk, getD_set_self arr k _ 0 hklen]
            rw [oufs_flip_bit]
            have h2 : (1 <<< j : Nat) = 2 ^ j := by simp [Nat.shiftLeft_eq]
            rw [h2, Nat.testBit_xor, Nat.testBit_two_pow]
            by_cases hmj : m % 8 = j
            · have hd2 : decide (m = 8 * k + j) = true := by
                have hmeq : m = 8 * k + j := by omega
                simp [hmeq]
              rw [hmj]
              simp [hbit, hd2]
            · have hmne : m ≠ 8 * k + j := by omega
              have hjm : j ≠ m % 8 := fun h => hmj h.symm
              simp [hjm, hmne]
          · rw [getD_set_ne arr k (m / 8) _ 0 (Ne.symm hmk)]
            have hmne : m ≠ 8 * k + j := by omega
            simp [hmne]

/-- C7 witness: the allocator theorem applied to the freshly formatted block
bitmap. -/
theorem claim_C7_bit_allocator_witness :
    (oufs_find_bit_positions
        [255, 3, 0, 0, 0, 0, 0, 0, 0, 0, 0, 0, 0, 0, 0, 0] 'B' = none ↔
      ∀ b ∈ ([255, 3, 0, 0, 0, 0, 0, 0, 0, 0, 0, 0, 0, 0, 0, 0] : List Nat),
        b = 255) :=
  (claim_C7_bit_allocator _ 'B' (Or.inr rfl) (by decide) (by decide)).1

/-! ## C9: inode write/read round trip -/

/-- C9: writing inode `v` at a reference inside the inode table succeeds on
a well-formed disk, a subsequent read returns exactly `v`, and the inode at
any other table reference is unchanged. -/
theorem claim_C9_inode_roundtrip (d : Disk) (i i2 : Nat) (v : INODE)
    (hd : d.length = N_BLOCKS_IN_DISK)
    (hlen : ∀ b ∈ d, b.inodes.length = INODES_PER_BLOCK)
    (hi : i < N_INODES) (hi2 : i2 < N_INODES) (hne : i2 ≠ i) :
    ∃ d2, oufs_write_inode_by_reference d i v = some d2 ∧
      oufs_read_inode_by_reference d2 i = some v ∧
      oufs_read_inode_by_reference d2 i2 = oufs_read_inode_by_reference d i2 := by
  have hi64 : i < 64 := by
    simpa [N_INODES, INODES_PER_BLOCK, N_INODE_BLOCKS] using hi
  have hi264 : i2 < 64 := by
    simpa [N_INODES, INODES_PER_BLOCK, N_INODE_BLOCKS] using hi2
  have hIPB : INODES_PER_BLOCK = 8 := rfl
  have hbn128 : i / INODES_PER_BLOCK + 1 < N_BLOCKS_IN_DISK := by
    rw [hIPB]
    show i / 8 + 1 < 128
    omega
  have hbn2128 : i2 / INODES_PER_BLOCK + 1 < N_BLOCKS_IN_DISK := by
    rw [hIPB]
    show i2 / 8 + 1 < 128
    omega
  have hdlen : i / INODES_PER_BLOCK + 1 < d.length := by rw [hd]; exact hbn128
  have hbmem : d.getD (i / INODES_PER_BLOCK + 1) zeroBLOCK ∈ d := by
    rw [List.getD_eq_getElem d zeroBLOCK hdlen]
    exact List.getElem_mem hdlen
  have hblen : (d.getD (i / INODES_PER_BLOCK + 1) zeroBLOCK).inodes.length
      = INODES_PER_BLOCK := hlen _ hbmem
  have hslotlen : i % INODES_PER_BLOCK
      < (d.getD (i / INODES_PER_BLOCK + 1) zeroBLOCK).inodes.length := by
    rw [hblen, hIPB]
    exact Nat.mod_lt i (by norm_num)
  refine ⟨d.set (i / INODES_PER_BLOCK + 1)
      { d.getD (i / INODES_PER_BLOCK + 1) zeroBLOCK with
        inodes := ((d.getD (i / INODES_PER_BLOCK + 1) zeroBLOCK).inodes.set
          (i % INODES_PER_BLOCK) v) }, ?_, ?_, ?_⟩
  · simp only [oufs_write_inode_by_reference, vdisk_read_block, vdisk_write_block,
      if_pos hbn128]
  · simp only [oufs_read_inode_by_reference, vdisk_read_block, if_pos hbn128]
    rw [getD_set_self d _ _ zeroBLOCK hdlen]
    simp only [Option.some.injEq]
    exact getD_set_self _ _ _ _ hslotlen
  · by_cases hb2 : i2 / INODES_PER_BLOCK + 1 = i / INODES_PER_BLOCK + 1
    · have hslot : ¬ (i % INODES_PER_BLOCK = i2 % INODES_PER_BLOCK) := by
        rw [hIPB]
        rw [hIPB] at hb2
        show ¬ (i % 8 = i2 % 8)
        omega
      simp only [oufs_read_inode_by_reference, vdisk_read_block, hb2, if_pos hbn128]
      rw [getD_set_self d _ _ zeroBLOCK hdlen]
      simp only [Option.some.injEq]
      exact getD_set_ne _ _ _ _ _ hslot
    · simp only [oufs_read_inode_by_reference, vdisk_read_block, if_pos hbn2128]
      rw [getD_set_ne d _ _ _ zeroBLOCK (fun h => hb2 h.symm)]

set_option maxRecDepth 40000 in
/-- C9 witness: writing a fresh directory inode at reference 1 of the
formatted disk and reading it back. -/
theorem claim_C9_inode_roundtrip_witness :
    ∃ d2, oufs_write_inode_by_reference fmtDisk 1 (mkdirChildINODE 10) = some d2 ∧
      oufs_read_inode_by_reference d2 1 = some (mkdirChildINODE 10) ∧
      oufs_read_inode_by_reference d2 2 = oufs_read_inode_by_reference fmtDisk 2 :=
  claim_C9_inode_roundtrip fmtDisk 1 2 (mkdirChildINODE 10) (by decide)
    (by decide) (by decide) (by decide) (by decide)

/-! ## Success-path characterizations of the mutating operations -/

theorem oufs_read_inode_some_lt {d : Disk} {i : Nat} {inode : INODE}
    (h : oufs_read_inode_by_reference d i = some inode) :
    i / INODES_PER_BLOCK + 1 < N_BLOCKS_IN_DISK := by
  by_cases hc : i / INODES_PER_BLOCK + 1 < N_BLOCKS_IN_DISK
  · exact hc
  · rw [oufs_read_inode_by_reference] at h
    rw [vdisk_read_block, if_neg hc] at h
    exact Option.noConfusion h

theorem oufs_find_bit_positions_lt {arr : List Nat} {ctype : Char}
    {flags : List Nat} {pos : Nat}
    (h : oufs_find_bit_positions arr ctype = some (flags, pos)) :
    pos < 8 * (if ctype = 'I' then N_INODES / 8 else N_BLOCKS_IN_DISK / 8) := by
  simp only [oufs_find_bit_positions] at h
  by_cases hc : ctype = 'I' ∨ ctype = 'B'
  · rw [if_pos hc] at h
    cases hscan : oufs_bit_scan arr
        (if ctype = 'I' then N_INODES / 8 else N_BLOCKS_IN_DISK / 8) with
    | none => rw [hscan] at h; exact Option.noConfusion h
    | some q =>
        rw [hscan] at h
        obtain ⟨k, j⟩ := q
        simp only [Option.some.injEq, Prod.mk.injEq] at h
        rw [oufs_bit_scan] at hscan
        obtain ⟨-, hklen, -, hfind⟩ := oufs_bit_scan_aux_some _ 0 k j hscan
        have hj := oufs_find_available_bit_lt hfind
        have hk : k < if ctype = 'I' then N_INODES / 8 else N_BLOCKS_IN_DISK / 8 := by
          have := List.length_take_le
            (if ctype = 'I' then N_INODES / 8 else N_BLOCKS_IN_DISK / 8) arr
          omega
        omega
  · rw [if_neg hc] at h
    exact Option.noConfusion h


/-- The raw effect of a successful `oufs_write_inode_by_reference`:
read-modify-write of the inode-table block holding reference `i`. -/
def writeInodeRaw (d : Disk) (i : Nat) (v : INODE) : Disk :=
  d.set (i / INODES_PER_BLOCK + 1)
    { d.getD (i / INODES_PER_BLOCK + 1) zeroBLOCK with
      inodes := ((d.getD (i / INODES_PER_BLOCK + 1) zeroBLOCK).inodes.set
        (i % INODES_PER_BLOCK) v) }

/-- The parent-directory-block update of `oufs_mkdir`: the first slot with
an `UNALLOCATED_INODE` reference (if any) receives the new entry. -/
def insertEntryBLOCK (b : BLOCK) (dir_name : String) (ref : Nat) : BLOCK :=
  match b.directory.findIdx? (fun e => e.inode_reference = UNALLOCATED_INODE) with
  | some idx =>
      { b with directory :=
          (b.directory.set idx
            ({ name := dir_name, inode_reference := ref } : DIRECTORY_ENTRY)) }
  | none => b

/-- The disk produced by the success path of `oufs_mkdir`, given the
resolved parent reference `p` with inode `pi`, the new directory name, and
the allocator results: master-block write, parent inode size increment,
parent directory-block insertion, new directory block, new inode. -/
def mkdirResultDisk (d : Disk) (p : Nat) (pi : INODE) (dir_name : String)
    (iflags bflags : List Nat) (ipos bpos : Nat) : Disk :=
  let d1 := d.set 0
    { d.getD 0 zeroBLOCK with master :=
      { inode_allocated_flag := iflags, block_allocated_flag := bflags } }
  let d2 := writeInodeRaw d1 p { pi with size := u32 (pi.size + 1) }
  let pbr := pi.data.getD 0 0
  let d3 := d2.set pbr (insertEntryBLOCK (d2.getD pbr zeroBLOCK) dir_name ipos)
  let d4 := d3.set bpos (mkdirChildBLOCK ipos p)
  writeInodeRaw d4 ipos (mkdirChildINODE bpos)

theorem length_writeInodeRaw (d : Disk) (i : Nat) (v : INODE) :
    (writeInodeRaw d i v).length = d.length := by
  simp [writeInodeRaw]

theorem getD_writeInodeRaw_ne (d : Disk) (i : Nat) (v : INODE) (j : Nat)
    (h : j ≠ i / INODES_PER_BLOCK + 1) :
    (writeInodeRaw d i v).getD j zeroBLOCK = d.getD j zeroBLOCK := by
  rw [writeInodeRaw]
  exact getD_set_ne _ _ _ _ _ (fun hh => h hh.symm)

/-- `inodeAt` through a block overwrite of a block other than the one
holding the reference. -/
theorem inodeAt_set_ne (d : Disk) (j : Nat) (b : BLOCK) (i : Nat)
    (h : j ≠ i / INODES_PER_BLOCK + 1) :
    inodeAt (d.set j b) i = inodeAt d i := by
  by_cases hlt : i / INODES_PER_BLOCK + 1 < N_BLOCKS_IN_DISK
  · simp only [inodeAt, oufs_read_inode_by_reference, vdisk_read_block, if_pos hlt,
      Option.getD_some]
    rw [getD_set_ne d j _ b zeroBLOCK h]
  · simp only [inodeAt, oufs_read_inode_by_reference, vdisk_read_block, if_neg hlt]

theorem inodeAt_writeInodeRaw_self (d : Disk) (i : Nat) (v : INODE)
    (hdl : i / INODES_PER_BLOCK + 1 < d.length)
    (hlt : i / INODES_PER_BLOCK + 1 < N_BLOCKS_IN_DISK)
    (hslot : (d.getD (i / INODES_PER_BLOCK + 1) zeroBLOCK).inodes.length
      = INODES_PER_BLOCK) :
    inodeAt (writeInodeRaw d i v) i = v := by
  simp only [inodeAt, oufs_read_inode_by_reference, vdisk_read_block, if_pos hlt,
    writeInodeRaw, Option.getD_some]
  rw [getD_set_self _ _ _ _ hdl]
  exact getD_set_self _ _ _ _ (by
    rw [hslot]
    exact Nat.mod_lt i (by norm_num [INODES_PER_BLOCK]))

theorem inodeAt_writeInodeRaw_ne (d : Disk) (i : Nat) (v : INODE) (i2 : Nat)
    (hne : i2 ≠ i) (hdl : i / INODES_PER_BLOCK + 1 < d.length) :
    inodeAt (writeInodeRaw d i v) i2 = inodeAt d i2 := by
  by_cases hlt : i2 / INODES_PER_BLOCK + 1 < N_BLOCKS_IN_DISK
  · simp only [inodeAt, oufs_read_inode_by_reference, vdisk_read_block, if_pos hlt,
      writeInodeRaw, Option.getD_some]
    by_cases hb : i2 / INODES_PER_BLOCK + 1 = i / INODES_PER_BLOCK + 1
    · rw [hb, getD_set_self _ _ _ _ hdl]
      have hmod : ¬ (i % INODES_PER_BLOCK = i2 % INODES_PER_BLOCK) := by
        have h8 : INODES_PER_BLOCK = 8 := rfl
        rw [h8] at hb ⊢
        omega
      exact getD_set_ne _ _ _ _ _ hmod
    · rw [getD_set_ne _ (i / INODES_PER_BLOCK + 1) _ _ zeroBLOCK
        (fun hh => hb hh.symm)]
  · simp only [inodeAt, oufs_read_inode_by_reference, vdisk_read_block, if_neg hlt]

/-- The success path of `oufs_mkdir`: when resolution reports NotFound with
parent `p`, the name fits, the parent is not full, both allocations succeed
and the parent's directory block reference is on the disk, `oufs_mkdir`
returns 0 and produces exactly `mkdirResultDisk`. -/
theorem oufs_mkdir_success_eq (d : Disk) (cwd path : String) (gp p : Nat)
    (pi : INODE) (iflags bflags : List Nat) (ipos bpos : Nat)
    (hff : oufs_find_file d cwd path 0 0 = ⟨0, gp, p, []⟩)
    (hname : (cBasename path).length ≤ FILE_NAME_SIZE)
    (hpi : oufs_read_inode_by_reference d p = some pi)
    (hsize : pi.size ≠ DIRECTORY_ENTRIES_PER_BLOCK)
    (hfbI : oufs_find_bit_positions (diskMaster d).inode_allocated_flag 'I'
      = some (iflags, ipos))
    (hfbB : oufs_find_bit_positions (diskMaster d).block_allocated_flag 'B'
      = some (bflags, bpos))
    (hpbr : pi.data.getD 0 0 < N_BLOCKS_IN_DISK) :
    oufs_mkdir d cwd path
      = ⟨0, mkdirResultDisk d p pi (cBasename path) iflags bflags ipos bpos, []⟩ := by
  have hnot : ¬ (cBasename path).length > FILE_NAME_SIZE := by omega
  have hplt : p / INODES_PER_BLOCK + 1 < N_BLOCKS_IN_DISK := oufs_read_inode_some_lt hpi
  have hipos : ipos < 64 := by
    have := oufs_find_bit_positions_lt hfbI
    simpa using this
  have hilt : ipos / INODES_PER_BLOCK + 1 < N_BLOCKS_IN_DISK := by
    have h8 : INODES_PER_BLOCK = 8 := rfl
    have h128 : N_BLOCKS_IN_DISK = 128 := rfl
    rw [h8, h128]
    omega
  have hbpos : bpos < N_BLOCKS_IN_DISK := by
    have := oufs_find_bit_positions_lt hfbB
    simpa using this
  have hfbI' : oufs_find_bit_positions
      ((d.getD 0 zeroBLOCK).master).inode_allocated_flag 'I' = some (iflags, ipos) := hfbI
  have hfbB' : oufs_find_bit_positions
      ((d.getD 0 zeroBLOCK).master).block_allocated_flag 'B' = some (bflags, bpos) := hfbB
  have h0 : (0 : Nat) < N_BLOCKS_IN_DISK := by norm_num [N_BLOCKS_IN_DISK]
  have hpi2 : (d.getD (p / INODES_PER_BLOCK + 1) zeroBLOCK).inodes.getD
      (p % INODES_PER_BLOCK) zeroINODE = pi := by
    have h := hpi
    rw [oufs_read_inode_by_reference, vdisk_read_block, if_pos hplt] at h
    exact Option.some.inj h
  rw [oufs_mkdir]
  simp only [hff, hfbI', hfbB',
    oufs_write_inode_by_reference, oufs_read_inode_by_reference,
    vdisk_read_block, vdisk_write_block,
    mkdirResultDisk, writeInodeRaw, insertEntryBLOCK, diskMaster,
    hnot, hplt, hipos, hilt, hbpos, hpbr, h0, hpi2, hsize,
    if_true, if_false, ite_true, ite_false]

/-- After the success path of `oufs_mkdir`, the parent inode's record is the
old one with its size incremented, provided the allocation did not return
the parent's own reference and the directory-block writes went to other
blocks than the parent's inode-table block. -/
theorem mkdirResultDisk_parent (d : Disk) (p : Nat) (pi : INODE) (dn : String)
    (iflags bflags : List Nat) (ipos bpos : Nat)
    (hd : d.length = N_BLOCKS_IN_DISK)
    (hlen : ∀ b ∈ d, b.inodes.length = INODES_PER_BLOCK)
    (hplt : p / INODES_PER_BLOCK + 1 < N_BLOCKS_IN_DISK)
    (hpbrne : pi.data.getD 0 0 ≠ p / INODES_PER_BLOCK + 1)
    (hbposne : bpos ≠ p / INODES_PER_BLOCK + 1)
    (hipne : ipos ≠ p) (hipos64 : ipos < 64) :
    inodeAt (mkdirResultDisk d p pi dn iflags bflags ipos bpos) p
      = { pi with size := u32 (pi.size + 1) } := by
  have hdl : p / INODES_PER_BLOCK + 1 < d.length := by rw [hd]; exact hplt
  have h8 : INODES_PER_BLOCK = 8 := rfl
  have h128 : N_BLOCKS_IN_DISK = 128 := rfl
  have hne0 : (0 : Nat) ≠ p / INODES_PER_BLOCK + 1 := (Nat.succ_ne_zero _).symm
  rw [mkdirResultDisk]
  rw [inodeAt_writeInodeRaw_ne _ ipos _ p hipne.symm
    (by
      rw [List.length_set, List.length_set, length_writeInodeRaw,
        List.length_set, hd, h8, h128]
      omega)]
  rw [inodeAt_set_ne _ bpos _ p hbposne]
  rw [inodeAt_set_ne _ (pi.data.getD 0 0) _ p hpbrne]
  rw [inodeAt_writeInodeRaw_self _ p _ (by simpa using hdl) hplt
    (by
      rw [getD_set_ne d 0 (p / INODES_PER_BLOCK + 1) _ zeroBLOCK hne0]
      refine hlen _ ?_
      rw [List.getD_eq_getElem d zeroBLOCK hdl]
      exact List.getElem_mem hdl)]

/-! ## C3: mkdir at the directory-capacity boundary -/

/-- C3: with the target name resolved as NotFound under parent `p` (inode
`pi`) on a well-formed disk, `oufs_mkdir` fails with the DirectoryFull
diagnostic and writes nothing when `pi.size` equals
`DIRECTORY_ENTRIES_PER_BLOCK`; and when `pi.size` equals the capacity minus
one and both allocations succeed (away from the parent's own inode and
inode-table block), it succeeds and the parent's size becomes exactly the
capacity. -/
theorem claim_C3_mkdir_capacity (d : Disk) (cwd path : String) (gp p : Nat)
    (pi : INODE)
    (hd : d.length = N_BLOCKS_IN_DISK)
    (hlen : ∀ b ∈ d, b.inodes.length = INODES_PER_BLOCK)
    (hff : oufs_find_file d cwd path 0 0 = ⟨0, gp, p, []⟩)
    (hname : (cBasename path).length ≤ FILE_NAME_SIZE)
    (hpi : oufs_read_inode_by_reference d p = some pi)
    (hpbr : pi.data.getD 0 0 < N_BLOCKS_IN_DISK)
    (hpbrne : pi.data.getD 0 0 ≠ p / INODES_PER_BLOCK + 1) :
    (pi.size = DIRECTORY_ENTRIES_PER_BLOCK →
      oufs_mkdir d cwd path = ⟨-1, d, ["Not enough space in parent"]⟩) ∧
    (pi.size = DIRECTORY_ENTRIES_PER_BLOCK - 1 →
      ∀ iflags ipos bflags bpos,
        oufs_find_bit_positions (diskMaster d).inode_allocated_flag 'I'
          = some (iflags, ipos) →
        oufs_find_bit_positions (diskMaster d).block_allocated_flag 'B'
          = some (bflags, bpos) →
        ipos ≠ p → bpos ≠ p / INODES_PER_BLOCK + 1 →
        (oufs_mkdir d cwd path).ret = 0 ∧
        inodeAt (oufs_mkdir d cwd path).disk p
          = { pi with size := DIRECTORY_ENTRIES_PER_BLOCK }) := by
  have hplt : p / INODES_PER_BLOCK + 1 < N_BLOCKS_IN_DISK := oufs_read_inode_some_lt hpi
  have hnot : ¬ (cBasename path).length > FILE_NAME_SIZE := by omega
  have hpi2 : (d.getD (p / INODES_PER_BLOCK + 1) zeroBLOCK).inodes.getD
      (p % INODES_PER_BLOCK) zeroINODE = pi := by
    have h := hpi
    rw [oufs_read_inode_by_reference, vdisk_read_block, if_pos hplt] at h
    exact Option.some.inj h
  constructor
  · intro hsize
    rw [oufs_mkdir]
    simp only [hff, oufs_read_inode_by_reference, vdisk_read_block, if_pos hplt,
      hnot, hpi2, hsize, if_true, if_false, ite_true, ite_false, List.nil_append]
  · intro hsz iflags ipos bflags bpos hI hB hipne hbne
    have hsizene : pi.size ≠ DIRECTORY_ENTRIES_PER_BLOCK := by
      rw [hsz]
      decide
    have heq := oufs_mkdir_success_eq d cwd path gp p pi iflags bflags ipos bpos
      hff hname hpi hsizene hI hB hpbr
    have hipos64 : ipos < 64 := by
      have := oufs_find_bit_positions_lt hI
      simpa using this
    rw [heq]
    refine ⟨rfl, ?_⟩
    have hpar := mkdirResultDisk_parent d p pi (cBasename path) iflags bflags ipos
      bpos hd hlen hplt hpbrne hbne hipne hipos64
    simp only [OpResult.disk] at hpar ⊢
    rw [hpar, hsz]
    rfl

/-- A root inode of the given directory size (as `oufs_format_disk` writes
it, with the size field varied). -/
def rootINODEofSize (n : Nat) : INODE :=
  { itype := .IT_DIRECTORY, n_references := 1,
    data := 9 :: List.replicate (BLOCKS_PER_INODE - 1) UNALLOCATED_BLOCK,
    size := n }

/-- A root directory block with all 16 slots allocated. -/
def fullRootBLOCK : BLOCK :=
  { zeroBLOCK with
    directory :=
      [⟨".", 0⟩, ⟨"..", 0⟩, ⟨"d02", 2⟩, ⟨"d03", 3⟩, ⟨"d04", 4⟩, ⟨"d05", 5⟩,
       ⟨"d06", 6⟩, ⟨"d07", 7⟩, ⟨"d08", 8⟩, ⟨"d09", 9⟩, ⟨"d10", 10⟩, ⟨"d11", 11⟩,
       ⟨"d12", 12⟩, ⟨"d13", 13⟩, ⟨"d14", 14⟩, ⟨"d15", 15⟩] }

/-- A root directory block with 15 allocated slots and one free slot. -/
def almostFullRootBLOCK : BLOCK :=
  { zeroBLOCK with
    directory :=
      [⟨".", 0⟩, ⟨"..", 0⟩, ⟨"d02", 2⟩, ⟨"d03", 3⟩, ⟨"d04", 4⟩, ⟨"d05", 5⟩,
       ⟨"d06", 6⟩, ⟨"d07", 7⟩, ⟨"d08", 8⟩, ⟨"d09", 9⟩, ⟨"d10", 10⟩, ⟨"d11", 11⟩,
       ⟨"d12", 12⟩, ⟨"d13", 13⟩, ⟨"d14", 14⟩, ⟨"", UNALLOCATED_INODE⟩] }

/-- The formatted disk with the root directory filled to capacity 16. -/
def disk3full : Disk :=
  (fmtDisk.set 1
    { formatInodeBLOCK with
      inodes := rootINODEofSize 16 :: List.replicate (INODES_PER_BLOCK - 1) zeroINODE
    }).set 9 fullRootBLOCK

/-- The formatted disk with the root directory filled to 15 of 16 slots. -/
def disk3almost : Disk :=
  (fmtDisk.set 1
    { formatInodeBLOCK with
      inodes := rootINODEofSize 15 :: List.replicate (INODES_PER_BLOCK - 1) zeroINODE
    }).set 9 almostFullRootBLOCK

set_option maxRecDepth 100000 in
/-- C3 witness: on the full root, `mkdir /newdir` fails with DirectoryFull
and leaves the disk untouched; on the 15-entry root it succeeds and the root
size becomes 16. -/
theorem claim_C3_mkdir_capacity_witness :
    oufs_mkdir disk3full "/" "newdir"
      = ⟨-1, disk3full, ["Not enough space in parent"]⟩ ∧
    ((oufs_mkdir disk3almost "/" "newdir").ret = 0 ∧
      inodeAt (oufs_mkdir disk3almost "/" "newdir").disk 0
        = { rootINODEofSize 15 with size := DIRECTORY_ENTRIES_PER_BLOCK }) := by
  constructor
  · exact (claim_C3_mkdir_capacity disk3full "/" "newdir" 0 0 (rootINODEofSize 16)
      (by decide) (by decide) (by decide) (by decide) (by decide) (by decide)
      (by decide)).1 (by decide)
  · exact (claim_C3_mkdir_capacity disk3almost "/" "newdir" 0 0 (rootINODEofSize 15)
      (by decide) (by decide) (by decide) (by decide) (by decide) (by decide)
      (by decide)).2 (by decide) [3, 0, 0, 0, 0, 0, 0, 0] 1
      [255, 7, 0, 0, 0, 0, 0, 0, 0, 0, 0, 0, 0, 0, 0, 0] 10
      (by decide) (by decide) (by decide) (by decide)

/-! ## C4: rmdir failure conditions and success -/

/-- The parent-directory-block update of `oufs_rmdir`: the first slot whose
name matches is cleared (name zeroed, reference `UNALLOCATED_INODE`). -/
def removeEntryBLOCK (b : BLOCK) (dir_name : String) : BLOCK :=
  match b.directory.findIdx? (fun e => e.name == dir_name) with
  | some idx =>
      { b with directory :=
          (b.directory.set idx
            ({ name := "", inode_reference := UNALLOCATED_INODE } : DIRECTORY_ENTRY)) }
  | none => b

/-- The master-block update of `oufs_rmdir`: the child inode bit and child
block bit are flipped. -/
def clearBitsBLOCK (b : BLOCK) (c cbr : Nat) : BLOCK :=
  { b with master :=
    { inode_allocated_flag :=
        b.master.inode_allocated_flag.set (c / 8)
          (oufs_flip_bit (b.master.inode_allocated_flag.getD (c / 8) 0) (c % 8)),
      block_allocated_flag :=
        b.master.block_allocated_flag.set (cbr / 8)
          (oufs_flip_bit (b.master.block_allocated_flag.getD (cbr / 8) 0)
            (cbr % 8)) } }

/-- The disk produced by the success path of `oufs_rmdir`: parent size
decrement, parent directory-block entry clearing, child inode and child
directory block zeroing, bitmap bit flips. -/
def rmdirResultDisk (d : Disk) (p c : Nat) (pi ci : INODE) (dir_name : String) :
    Disk :=
  let d1 := writeInodeRaw d p { pi with size := u32 (pi.size + 4294967295) }
  let pbr := pi.data.getD 0 0
  let d2 := d1.set pbr (removeEntryBLOCK (d1.getD pbr zeroBLOCK) dir_name)
  let d3 := writeInodeRaw d2 c zeroINODE
  let cbr := ci.data.getD 0 0
  let d4 := d3.set cbr zeroBLOCK
  d4.set 0 (clearBitsBLOCK (d4.getD 0 zeroBLOCK) c cbr)

/-- The success path of `oufs_rmdir`: a legal, fitting final component that
resolves to an empty directory inode, with the parent inode readable and
both directory-block references on the disk, removes the directory and
returns 0. -/
theorem oufs_rmdir_success_eq (d : Disk) (cwd path : String) (p c : Nat)
    (pi ci : INODE)
    (hname : (cBasename path).length ≤ FILE_NAME_SIZE)
    (hdot : ¬ (cBasename path = "." ∨ cBasename path = ".."))
    (hff : oufs_find_file d cwd path 0 0 = ⟨1, p, c, []⟩)
    (hci : oufs_read_inode_by_reference d c = some ci)
    (htype : ci.itype = .IT_DIRECTORY)
    (hsz : ci.size = 2)
    (hpi : oufs_read_inode_by_reference d p = some pi)
    (hpbr : pi.data.getD 0 0 < N_BLOCKS_IN_DISK)
    (hcbr : ci.data.getD 0 0 < N_BLOCKS_IN_DISK) :
    oufs_rmdir d cwd path
      = ⟨0, rmdirResultDisk d p c pi ci (cBasename path), []⟩ := by
  have hnot : ¬ (cBasename path).length > FILE_NAME_SIZE := by omega
  have hplt : p / INODES_PER_BLOCK + 1 < N_BLOCKS_IN_DISK := oufs_read_inode_some_lt hpi
  have hclt : c / INODES_PER_BLOCK + 1 < N_BLOCKS_IN_DISK := oufs_read_inode_some_lt hci
  have h0 : (0 : Nat) < N_BLOCKS_IN_DISK := by norm_num [N_BLOCKS_IN_DISK]
  have hpi2 : (d.getD (p / INODES_PER_BLOCK + 1) zeroBLOCK).inodes.getD
      (p % INODES_PER_BLOCK) zeroINODE = pi := by
    have h := hpi
    rw [oufs_read_inode_by_reference, vdisk_read_block, if_pos hplt] at h
    exact Option.some.inj h
  have hci2 : (d.getD (c / INODES_PER_BLOCK + 1) zeroBLOCK).inodes.getD
      (c % INODES_PER_BLOCK) zeroINODE = ci := by
    have h := hci
    rw [oufs_read_inode_by_reference, vdisk_read_block, if_pos hclt] at h
    exact Option.some.inj h
  have htype' : ¬ (ci.itype ≠ INODE_TYPE.IT_DIRECTORY) := by simp [htype]
  have hsz' : ¬ (ci.size ≠ 2) := by simp [hsz]
  have hr0 : ¬ ((1 : Int) = 0) := by decide
  have hr1 : ¬ ((1 : Int) < 0) := by decide
  rw [oufs_rmdir]
  simp only [hff, hdot,
    oufs_write_inode_by_reference, oufs_read_inode_by_reference,
    vdisk_read_block, vdisk_write_block,
    rmdirResultDisk, writeInodeRaw, removeEntryBLOCK, clearBitsBLOCK,
    hnot, hplt, hclt, h0, hpi2, hci2, htype', hsz', hpbr, hcbr, hr0, hr1,
    if_true, if_false, ite_true, ite_false]

/-- C4: with a final path component that fits the name buffer, `oufs_rmdir`
fails leaving the disk untouched exactly in the claimed cases and order —
`.`/`..` (IllegalName, checked before resolution), an unresolved name
(NameNotFound, which is also what a second rmdir of a just-removed name
hits), a non-directory child (NotADirectory), a child of size other than 2
(DirectoryNotEmpty) — and otherwise succeeds. -/
theorem claim_C4_rmdir_errors (d : Disk) (cwd path : String)
    (hname : (cBasename path).length ≤ FILE_NAME_SIZE) :
    ((cBasename path = "." ∨ cBasename path = "..") →
      oufs_rmdir d cwd path = ⟨-1, d, ["Illegal name"]⟩) ∧
    (¬ (cBasename path = "." ∨ cBasename path = "..") →
      ∀ gp p, oufs_find_file d cwd path 0 0 = ⟨0, gp, p, []⟩ →
        oufs_rmdir d cwd path = ⟨-1, d, ["Name does not exist"]⟩) ∧
    (¬ (cBasename path = "." ∨ cBasename path = "..") →
      ∀ p c ci, oufs_find_file d cwd path 0 0 = ⟨1, p, c, []⟩ →
        oufs_read_inode_by_reference d c = some ci →
        ci.itype ≠ .IT_DIRECTORY →
        oufs_rmdir d cwd path = ⟨-1, d, ["is not a directory"]⟩) ∧
    (¬ (cBasename path = "." ∨ cBasename path = "..") →
      ∀ p c ci, oufs_find_file d cwd path 0 0 = ⟨1, p, c, []⟩ →
        oufs_read_inode_by_reference d c = some ci →
        ci.itype = .IT_DIRECTORY → ci.size ≠ 2 →
        oufs_rmdir d cwd path = ⟨-1, d, ["is not empty"]⟩) ∧
    (¬ (cBasename path = "." ∨ cBasename path = "..") →
      ∀ p c ci pi, oufs_find_file d cwd path 0 0 = ⟨1, p, c, []⟩ →
        oufs_read_inode_by_reference d c = some ci →
        ci.itype = .IT_DIRECTORY → ci.size = 2 →
        oufs_read_inode_by_reference d p = some pi →
        pi.data.getD 0 0 < N_BLOCKS_IN_DISK →
        ci.data.getD 0 0 < N_BLOCKS_IN_DISK →
        oufs_rmdir d cwd path
          = ⟨0, rmdirResultDisk d p c pi ci (cBasename path), []⟩) := by
  have hnot : ¬ (cBasename path).length > FILE_NAME_SIZE := by omega
  have hr0 : ¬ ((1 : Int) = 0) := by decide
  have hr1 : ¬ ((1 : Int) < 0) := by decide
  refine ⟨?_, ?_, ?_, ?_, ?_⟩
  · intro hdot
    rw [oufs_rmdir]
    simp only [hnot, hdot, if_true, if_false, ite_true, ite_false]
  · intro hdot gp p hff
    rw [oufs_rmdir]
    simp only [hnot, hdot, hff, if_true, if_false, ite_true, ite_false,
      List.nil_append]
  · intro hdot p c ci hff hci htype
    have hclt : c / INODES_PER_BLOCK + 1 < N_BLOCKS_IN_DISK :=
      oufs_read_inode_some_lt hci
    have hci2 : (d.getD (c / INODES_PER_BLOCK + 1) zeroBLOCK).inodes.getD
        (c % INODES_PER_BLOCK) zeroINODE = ci := by
      have h := hci
      rw [oufs_read_inode_by_reference, vdisk_read_block, if_pos hclt] at h
      exact Option.some.inj h
    simp only [List.getD_eq_getElem?_getD] at hci2
    rw [oufs_rmdir]
    simp [hnot, hdot, hff, hr0, hr1,
      oufs_read_inode_by_reference, vdisk_read_block, if_pos hclt, hci2, htype,
      List.nil_append]
  · intro hdot p c ci hff hci htype hsz
    have hclt : c / INODES_PER_BLOCK + 1 < N_BLOCKS_IN_DISK :=
      oufs_read_inode_some_lt hci
    have hci2 : (d.getD (c / INODES_PER_BLOCK + 1) zeroBLOCK).inodes.getD
        (c % INODES_PER_BLOCK) zeroINODE = ci := by
      have h := hci
      rw [oufs_read_inode_by_reference, vdisk_read_block, if_pos hclt] at h
      exact Option.some.inj h
    have htype' : ¬ (ci.itype ≠ INODE_TYPE.IT_DIRECTORY) := by simp [htype]
    simp only [List.getD_eq_getElem?_getD] at hci2
    rw [oufs_rmdir]
    simp [hnot, hdot, hff, hr0, hr1,
      oufs_read_inode_by_reference, vdisk_read_block, if_pos hclt, hci2,
      htype', hsz, List.nil_append]
  · intro hdot p c ci pi hff hci htype hsz hpi hpbr hcbr
    exact oufs_rmdir_success_eq d cwd path p c pi ci hname hdot hff hci htype
      hsz hpi hpbr hcbr

/-- A regular-file inode, for exercising the NotADirectory branch. -/
def fileINODE : INODE :=
  { itype := .IT_FILE, n_references := 1,
    data := List.replicate BLOCKS_PER_INODE 0, size := 5 }

/-- The formatted disk with a file `f` at inode 2 entered in the root. -/
def disk4file : Disk :=
  (fmtDisk.set 1
    { formatInodeBLOCK with
      inodes := [rootINODEofSize 3, zeroINODE, fileINODE, zeroINODE, zeroINODE,
        zeroINODE, zeroINODE, zeroINODE] }).set 9
    { zeroBLOCK with
      directory := ⟨".", 0⟩ :: ⟨"..", 0⟩ :: ⟨"f", 2⟩ ::
        List.replicate 13 ⟨"", UNALLOCATED_INODE⟩ }

/-- The formatted disk with a non-empty directory `a` at inode 1. -/
def disk4nonempty : Disk :=
  (fmtDisk.set 1
    { formatInodeBLOCK with
      inodes := [rootINODEofSize 3, { mkdirChildINODE 10 with size := 3 },
        zeroINODE, zeroINODE, zeroINODE, zeroINODE, zeroINODE, zeroINODE] }).set 9
    { zeroBLOCK with
      directory := ⟨".", 0⟩ :: ⟨"..", 0⟩ :: ⟨"a", 1⟩ ::
        List.replicate 13 ⟨"", UNALLOCATED_INODE⟩ }

set_option maxRecDepth 200000 in
/-- C4 witness: the rmdir theorem applied to concrete disks — illegal name,
missing name, a file child, a non-empty directory child, a successful
removal, and the failing second removal of the same name. -/
theorem claim_C4_rmdir_errors_witness :
    oufs_rmdir fmtDisk "/" "/a/.." = ⟨-1, fmtDisk, ["Illegal name"]⟩ ∧
    oufs_rmdir fmtDisk "/" "a" = ⟨-1, fmtDisk, ["Name does not exist"]⟩ ∧
    oufs_rmdir disk4file "/" "f" = ⟨-1, disk4file, ["is not a directory"]⟩ ∧
    oufs_rmdir disk4nonempty "/" "a" = ⟨-1, disk4nonempty, ["is not empty"]⟩ ∧
    (oufs_rmdir (oufs_mkdir fmtDisk "/" "/a").disk "/" "/a").ret = 0 ∧
    oufs_rmdir (oufs_rmdir (oufs_mkdir fmtDisk "/" "/a").disk "/" "/a").disk
        "/" "/a"
      = ⟨-1, (oufs_rmdir (oufs_mkdir fmtDisk "/" "/a").disk "/" "/a").disk,
          ["Name does not exist"]⟩ := by
  refine ⟨?_, ?_, ?_, ?_, ?_, ?_⟩
  · exact (claim_C4_rmdir_errors fmtDisk "/" "/a/.." (by decide)).1 (by decide)
  · exact (claim_C4_rmdir_errors fmtDisk "/" "a" (by decide)).2.1 (by decide)
      0 0 (by decide)
  · exact (claim_C4_rmdir_errors disk4file "/" "f" (by decide)).2.2.1 (by decide)
      0 2 fileINODE (by decide) (by decide) (by decide)
  · exact (claim_C4_rmdir_errors disk4nonempty "/" "a" (by decide)).2.2.2.1
      (by decide) 0 1 { mkdirChildINODE 10 with size := 3 } (by decide)
      (by decide) (by decide) (by decide)
  · have h := (claim_C4_rmdir_errors (oufs_mkdir fmtDisk "/" "/a").disk "/" "/a"
      (by decide)).2.2.2.2 (by decide) 0 1 (mkdirChildINODE 10)
      (rootINODEofSize 3) (by decide) (by decide) (by decide) (by decide)
      (by decide) (by decide) (by decide)
    rw [h]
  · exact (claim_C4_rmdir_errors
      (oufs_rmdir (oufs_mkdir fmtDisk "/" "/a").disk "/" "/a").disk "/" "/a"
      (by decide)).2.1 (by decide) 0 0 (by decide)

/-! ## C6: the sorted directory listing -/

theorem char_toNat_inj {a b : Char} (h : a.toNat = b.toNat) : a = b := by
  rcases a with ⟨⟨av⟩, ha⟩
  rcases b with ⟨⟨bv⟩, hb⟩
  simp only [Char.toNat, UInt32.toNat] at h
  have hv : av = bv := BitVec.toNat_injective h
  subst hv
  rfl

theorem strncmpChars_nil_le (n : Nat) (c : List Char) :
    strncmpChars n [] c ≤ 0 := by
  cases n with
  | zero => simp [strncmpChars]
  | succ n =>
      cases c with
      | nil => simp [strncmpChars]
      | cons z zs => simp [strncmpChars]

theorem strncmpChars_total : ∀ (n : Nat) (a b : List Char),
    strncmpChars n a b ≤ 0 ∨ strncmpChars n b a ≤ 0
  | 0, _, _ => by simp [strncmpChars]
  | n + 1, [], b => Or.inl (strncmpChars_nil_le (n + 1) b)
  | n + 1, x :: xs, [] => Or.inr (strncmpChars_nil_le (n + 1) (x :: xs))
  | n + 1, x :: xs, y :: ys => by
      by_cases hxy : x = y
      · subst hxy
        simpa [strncmpChars] using strncmpChars_total n xs ys
      · have hyx : ¬ (y = x) := fun h => hxy h.symm
        rcases Nat.lt_trichotomy x.toNat y.toNat with h | h | h
        · exact Or.inl (by simp [strncmpChars, hxy, h])
        · exact absurd (char_toNat_inj h) hxy
        · exact Or.inr (by simp [strncmpChars, hyx, h])

theorem strncmpChars_trans : ∀ (n : Nat) (a b c : List Char),
    strncmpChars n a b ≤ 0 → strncmpChars n b c ≤ 0 → strncmpChars n a c ≤ 0
  | 0, _, _, c, _, _ => by simp [strncmpChars]
  | n + 1, [], _, c, _, _ => strncmpChars_nil_le (n + 1) c
  | n + 1, x :: xs, [], _, hab, _ => by simp [strncmpChars] at hab
  | n + 1, _ :: _, y :: ys, [], _, hbc => by simp [strncmpChars] at hbc
  | n + 1, x :: xs, y :: ys, z :: zs, hab, hbc => by
      by_cases hxy : x = y
      · subst hxy
        by_cases hxz : x = z
        · subst hxz
          simp only [strncmpChars, if_pos rfl] at hab hbc ⊢
          exact strncmpChars_trans n xs ys zs hab hbc
        · simp only [strncmpChars, if_pos rfl, if_neg hxz] at hab hbc ⊢
          exact hbc
      · have hxy' : x.toNat < y.toNat := by
          rcases Nat.lt_trichotomy x.toNat y.toNat with h | h | h
          · exact h
          · exact absurd (char_toNat_inj h) hxy
          · exfalso
            have : ¬ x.toNat < y.toNat := by omega
            simp [strncmpChars, hxy, this] at hab
        by_cases hyz : y = z
        · subst hyz
          simp [strncmpChars, hxy, hxy']
        · have hyz' : y.toNat < z.toNat := by
            rcases Nat.lt_trichotomy y.toNat z.toNat with h | h | h
            · exact h
            · exact absurd (char_toNat_inj h) hyz
            · exfalso
              have : ¬ y.toNat < z.toNat := by omega
              simp [strncmpChars, hyz, this] at hbc
          have hxz' : x.toNat < z.toNat := Nat.lt_trans hxy' hyz'
          have hxz : ¬ x = z := fun h => by
            subst h
            omega
          simp [strncmpChars, hxz, hxz']

instance : IsTotal DIRECTORY_ENTRY entryLE :=
  ⟨fun a b => strncmpChars_total 8 a.name.toList b.name.toList⟩

instance : IsTrans DIRECTORY_ENTRY entryLE :=
  ⟨fun a b c => strncmpChars_trans 8 a.name.toList b.name.toList c.name.toList⟩

/-- The print loop of `oufs_list` on entries whose allocated references are
all readable: it emits exactly the allocated entries, in order, each name
suffixed with `/` exactly when its inode is a directory. -/
theorem oufs_list_printLoop_eq (d : Disk) :
    ∀ (es : List DIRECTORY_ENTRY) (temp : INODE) (acc : List String),
      (∀ e ∈ es, e.inode_reference ≠ UNALLOCATED_INODE →
        e.inode_reference / INODES_PER_BLOCK + 1 < N_BLOCKS_IN_DISK) →
      oufs_list_printLoop d es temp acc
        = acc ++ (es.filter
            (fun e => e.inode_reference ≠ UNALLOCATED_INODE)).map
            (fun e => e.name ++
              (if (inodeAt d e.inode_reference).itype = .IT_DIRECTORY
                then "/" else ""))
  | [], temp, acc, _ => by simp [oufs_list_printLoop]
  | e :: es, temp, acc, h => by
      by_cases halloc : e.inode_reference = UNALLOCATED_INODE
      · rw [oufs_list_printLoop]
        simp only [halloc, ne_eq, not_true_eq_false, if_false, ite_false]
        rw [oufs_list_printLoop_eq d es temp acc
          (fun e' he' => h e' (List.mem_cons_of_mem e he'))]
        simp [halloc]
      · have hlt := h e (List.mem_cons_self e es) halloc
        have hread : oufs_read_inode_by_reference d e.inode_reference
            = some (inodeAt d e.inode_reference) := by
          rw [inodeAt, oufs_read_inode_by_reference, vdisk_read_block, if_pos hlt]
          rfl
        rw [oufs_list_printLoop]
        simp only [halloc, ne_eq, not_false_eq_true, if_true, ite_true, hread,
          Option.getD_some]
        rw [oufs_list_printLoop_eq d es _ _
          (fun e' he' => h e' (List.mem_cons_of_mem e he'))]
        simp [halloc]

/-- C6 (amended): for a resolved directory (path other than `/`; `/` is
rewritten to `.` first) whose allocated entries are readable, the listing
prints exactly the allocated entries of the directory block — a permutation
of the block's slots sorted by `oufs_comparator`, which compares only the
first `sizeof(char *)` = 8 bytes of the stored names — each suffixed with
`/` exactly when its own inode is a directory; unallocated slots print
nothing. -/
theorem claim_C6_list_sorted (d : Disk) (cwd path : String) (p r : Nat)
    (ino : INODE)
    (hpath : path ≠ "/")
    (hff : oufs_find_file d cwd path 0 0 = ⟨1, p, r, []⟩)
    (hino : oufs_read_inode_by_reference d r = some ino)
    (htype : ino.itype = .IT_DIRECTORY)
    (hblk : ino.data.getD 0 0 < N_BLOCKS_IN_DISK)
    (hrefs : ∀ e ∈ (d.getD (ino.data.getD 0 0) zeroBLOCK).directory,
      e.inode_reference ≠ UNALLOCATED_INODE →
      e.inode_reference / INODES_PER_BLOCK + 1 < N_BLOCKS_IN_DISK) :
    (qsortModel (d.getD (ino.data.getD 0 0) zeroBLOCK).directory).Perm
      (d.getD (ino.data.getD 0 0) zeroBLOCK).directory ∧
    List.Sorted entryLE
      (qsortModel (d.getD (ino.data.getD 0 0) zeroBLOCK).directory) ∧
    oufs_list d cwd path
      = ⟨0,
          ((qsortModel (d.getD (ino.data.getD 0 0) zeroBLOCK).directory).filter
            (fun e => e.inode_reference ≠ UNALLOCATED_INODE)).map
            (fun e => e.name ++
              (if (inodeAt d e.inode_reference).itype = .IT_DIRECTORY
                then "/" else "")),
          []⟩ := by
  refine ⟨List.perm_insertionSort entryLE _, List.sorted_insertionSort entryLE _, ?_⟩
  have hrlt : r / INODES_PER_BLOCK + 1 < N_BLOCKS_IN_DISK := oufs_read_inode_some_lt hino
  have hino2 : (d.getD (r / INODES_PER_BLOCK + 1) zeroBLOCK).inodes.getD
      (r % INODES_PER_BLOCK) zeroINODE = ino := by
    have h := hino
    rw [oufs_read_inode_by_reference, vdisk_read_block, if_pos hrlt] at h
    exact Option.some.inj h
  have hfile : ¬ (ino.itype = INODE_TYPE.IT_FILE) := by simp [htype]
  have hnone : ¬ (ino.itype = INODE_TYPE.IT_NONE) := by simp [htype]
  have hr1 : ¬ ((1 : Int) < 1) := by decide
  have hloop := oufs_list_printLoop_eq d
    (qsortModel (d.getD (ino.data.getD 0 0) zeroBLOCK).directory) zeroINODE []
    (fun e he => hrefs e
      ((List.perm_insertionSort entryLE _).subset he))
  rw [oufs_list]
  simp only [if_neg hpath, hff, hino2, hfile, hnone, hr1,
    oufs_read_inode_by_reference, vdisk_read_block, if_pos hrlt, if_pos hblk,
    if_true, if_false, ite_true, ite_false, qsortModel, hloop, List.nil_append]
  simp [qsortModel] at hloop
  simp [hloop, qsortModel]

/-- The formatted disk with two directories whose names agree on their first
8 bytes, entered in slot order `zzzzzzzzb` then `zzzzzzzza`. -/
def disk6 : Disk :=
  (fmtDisk.set 1
    { formatInodeBLOCK with
      inodes := [rootINODEofSize 4, mkdirChildINODE 10, mkdirChildINODE 11,
        zeroINODE, zeroINODE, zeroINODE, zeroINODE, zeroINODE] }).set 9
    { zeroBLOCK with
      directory := ⟨".", 0⟩ :: ⟨"..", 0⟩ :: ⟨"zzzzzzzzb", 1⟩ ::
        ⟨"zzzzzzzza", 2⟩ :: List.replicate 12 ⟨"", UNALLOCATED_INODE⟩ }

set_option maxRecDepth 100000 in
/-- C6 counterexample: on `disk6` the claim requires the output in ascending
order of the full stored names (`zzzzzzzza` before `zzzzzzzzb`), but
`oufs_comparator` compares only the first 8 bytes (`sizeof(char *)`), the
two names tie, and the block order wins: `zzzzzzzzb` is printed first. -/
theorem claim_C6_counterexample :
    oufs_list disk6 "/" "/"
      = ⟨0, ["./", "../", "zzzzzzzzb/", "zzzzzzzza/"], []⟩ ∧
    oufs_list disk6 "/" "/"
      ≠ ⟨0, ["./", "../", "zzzzzzzza/", "zzzzzzzzb/"], []⟩ := by
  constructor <;> decide

set_option maxRecDepth 100000 in
/-- C6 witness: the amended listing theorem applied to `disk6` via the path
`.`. -/
theorem claim_C6_list_sorted_witness :
    (qsortModel (disk6.getD ((rootINODEofSize 4).data.getD 0 0)
        zeroBLOCK).directory).Perm
      (disk6.getD ((rootINODEofSize 4).data.getD 0 0) zeroBLOCK).directory ∧
    List.Sorted entryLE
      (qsortModel (disk6.getD ((rootINODEofSize 4).data.getD 0 0)
        zeroBLOCK).directory) ∧
    oufs_list disk6 "/" "."
      = ⟨0,
          ((qsortModel (disk6.getD ((rootINODEofSize 4).data.getD 0 0)
              zeroBLOCK).directory).filter
            (fun e => e.inode_reference ≠ UNALLOCATED_INODE)).map
            (fun e => e.name ++
              (if (inodeAt disk6 e.inode_reference).itype = .IT_DIRECTORY
                then "/" else "")),
          []⟩ :=
  claim_C6_list_sorted disk6 "/" "." 0 0 (rootINODEofSize 4) (by decide)
    (by decide) (by decide) (by decide) (by decide) (by decide)

/-! ## C1: the path-resolver statuses and outputs -/

theorem goodDisk_all {d : Disk} (hg : goodDisk d) (r : Nat) :
    inodeData0 d r < N_BLOCKS_IN_DISK := by
  by_cases hr : r < 8 * (N_BLOCKS_IN_DISK - 1)
  · exact hg r hr
  · have hge : ¬ (r / INODES_PER_BLOCK + 1 < N_BLOCKS_IN_DISK) := by
      have h8 : INODES_PER_BLOCK = 8 := rfl
      have h128 : N_BLOCKS_IN_DISK = 128 := rfl
      rw [h8, h128]
      rw [h128] at hr
      omega
    rw [inodeData0, oufs_read_inode_by_reference, vdisk_read_block, if_neg hge]
    simp [zeroINODE, N_BLOCKS_IN_DISK, BLOCKS_PER_INODE]

/-- Under `goodDisk`, one lookup step of `oufs_find_file` agrees with the
spec's lookup: a hit updates the reference, a miss leaves it. -/
theorem lookupStep_spec {d : Disk} (hg : goodDisk d) (r : Nat) (t : String) :
    lookupStep d r t
      = match specLookup d r t with
        | some r2 => (true, r2)
        | none => (false, r) := by
  have hdata := goodDisk_all hg r
  rw [lookupStep, specLookup, oufs_find_inode_ref_by_name]
  rw [show ((oufs_read_inode_by_reference d r).getD zeroINODE).data.getD 0 0
      = inodeData0 d r from rfl]
  rw [vdisk_read_block, if_pos hdata]
  simp only [List.getD_eq_getElem?_getD]
  cases hfind : (((d[inodeData0 d r]?).getD zeroBLOCK).directory.find?
      (fun e => e.name == t)) with
  | some e => simp [hfind]
  | none => simp [hfind]

theorem cwdLoop_ok_shape (d : Disk) :
    ∀ (ts : List String) (r p c a b c2 : Nat),
      oufs_find_file_cwdLoop d ts r p c = .ok (a, b, c2) → a = c2
  | [], r, p, c, a, b, c2, h => by simp [oufs_find_file_cwdLoop] at h
  | t :: ts, r, p, c, a, b, c2, h => by
      rw [oufs_find_file_cwdLoop] at h
      cases hstep : lookupStep d r t with
      | mk found r2 =>
          rw [hstep] at h
          cases found with
          | false => exact absurd h (by simp)
          | true =>
              cases hts : ts.isEmpty with
              | true =>
                  rw [hts] at h
                  simp only [if_true] at h
                  cases h
                  rfl
              | false =>
                  rw [hts] at h
                  simp only [if_false] at h
                  exact cwdLoop_ok_shape d ts r2 c r2 a b c2 h

/-- Under `goodDisk`, the target walk of `oufs_find_file` computes exactly
the spec resolver's walk (§4.3): Found and NotFound return the spec's
`(parent, child)` pair, a miss before the last token is the `-1` error. -/
theorem pathLoop_spec {d : Disk} (hg : goodDisk d) :
    ∀ (ts : List String) (c p : Nat), ts ≠ [] →
      (∀ p2 c2, specWalk d p c ts = .notFound p2 c2 →
        oufs_find_file_pathLoop d ts c p c = ⟨0, p2, c2, []⟩) ∧
      (specWalk d p c ts = .invalid →
        (oufs_find_file_pathLoop d ts c p c).ret = -1) ∧
      (∀ p2 c2, specWalk d p c ts = .found p2 c2 →
        oufs_find_file_pathLoop d ts c p c = ⟨1, p2, c2, []⟩)
  | [], c, p, hne => absurd rfl hne
  | t :: ts, c, p, _ => by
      rw [oufs_find_file_pathLoop, lookupStep_spec hg]
      cases hlk : specLookup d c t with
      | none =>
          cases hts : ts with
          | nil =>
              refine ⟨?_, ?_, ?_⟩ <;> intros <;>
                simp_all [specWalk, oufs_find_file_pathLoop]
          | cons t2 ts2 =>
              refine ⟨?_, ?_, ?_⟩ <;> intros <;>
                simp_all [specWalk, oufs_find_file_pathLoop]
      | some r2 =>
          cases hts : ts with
          | nil =>
              refine ⟨?_, ?_, ?_⟩ <;> intros <;>
                simp_all [specWalk, oufs_find_file_pathLoop]
          | cons t2 ts2 =>
              simp only [List.isEmpty_cons, if_false, ite_false]
              have ih := pathLoop_spec hg (t2 :: ts2) r2 c (by simp)
              refine ⟨?_, ?_, ?_⟩
              · intro p2 c2 hw
                rw [specWalk, hlk] at hw
                exact ih.1 p2 c2 hw
              · intro hw
                rw [specWalk, hlk] at hw
                exact ih.2.1 hw
              · intro p2 c2 hw
                rw [specWalk, hlk] at hw
                exact ih.2.2 p2 c2 hw

/-- C1: on a disk with well-defined lookups, for a target other than `/`
with at least one token and a resolvable cwd context, `oufs_find_file`
(called with zero-initialized outputs, as all in-repo callers do) returns
exactly the spec resolver's results: a miss at the last token gives status
0 (NotFound) with `child` the directory in which the lookup failed (the
child value from before the failed lookup, the starting inode when no token
resolved) and `parent` that directory's walk parent; a miss at any earlier
token gives the `-1` Invalid status. -/
theorem claim_C1_resolver (d : Disk) (cwd path : String) (st p0 c0 : Nat)
    (hg : goodDisk d)
    (hpath : path ≠ "/")
    (htok : tokenize path ≠ [])
    (hstart : findFileStart d cwd = some (st, p0, c0)) :
    (∀ p c, specWalk d p0 c0 (tokenize path) = .notFound p c →
      oufs_find_file d cwd path 0 0 = ⟨0, p, c, []⟩) ∧
    (specWalk d p0 c0 (tokenize path) = .invalid →
      (oufs_find_file d cwd path 0 0).ret = -1) := by
  rw [oufs_find_file, if_neg hpath]
  by_cases hcwd : cwd = "/"
  · rw [findFileStart, if_pos hcwd] at hstart
    simp only [Option.some.injEq, Prod.mk.injEq] at hstart
    obtain ⟨hst, hp0, hc0⟩ := hstart
    subst hst hp0 hc0
    rw [if_pos hcwd]
    have h := pathLoop_spec hg (tokenize path) 0 0 htok
    exact ⟨h.1, h.2.1⟩
  · rw [findFileStart, if_neg hcwd] at hstart
    rw [if_neg hcwd]
    cases hloop : oufs_find_file_cwdLoop d (tokenize cwd) 0 0 0 with
    | error e =>
        rw [hloop] at hstart
        exact absurd hstart (by simp)
    | ok s =>
        rw [hloop] at hstart
        obtain ⟨a, b, c2⟩ := s
        simp only [Option.some.injEq, Prod.mk.injEq] at hstart
        obtain ⟨hst, hp0, hc0⟩ := hstart
        subst hst hp0 hc0
        have hshape : a = c2 := cwdLoop_ok_shape d (tokenize cwd) 0 0 0 a b c2 hloop
        rw [hshape]
        have h := pathLoop_spec hg (tokenize path) c2 b htok
        exact ⟨h.1, h.2.1⟩

set_option maxRecDepth 1000000 in
/-- C1 witness: the resolver theorem applied to a disk with directory `a`
under the root — `a/x` misses at its last token and returns NotFound with
`(parent, child) = (0, a)`, while `nope/y` misses before its last token and
returns the `-1` Invalid status. -/
theorem claim_C1_resolver_witness :
    oufs_find_file disk4nonempty "/" "a/x" 0 0 = ⟨0, 0, 1, []⟩ ∧
    (oufs_find_file disk4nonempty "/" "nope/y" 0 0).ret = -1 := by
  constructor
  · exact (claim_C1_resolver disk4nonempty "/" "a/x" 0 0 0 (by decide) (by decide)
      (by decide) (by decide)).1 0 1 (by decide)
  · exact (claim_C1_resolver disk4nonempty "/" "nope/y" 0 0 0 (by decide)
      (by decide) (by decide) (by decide)).2 (by decide)

/-! ## C5: the bitmap/structure agreement invariant

The development below proves that mkdir/rmdir preserve a strengthened
well-formedness invariant `Inv` of the disk, of which the claim's two
bitmap equivalences are components. -/

theorem tokenizeAux_ne_nil :
    ∀ (cs acc : List Char) (t : String), t ∈ tokenizeAux cs acc → t ≠ ""
  | [], acc, t, ht => by
      rw [tokenizeAux] at ht
      by_cases hacc : acc.isEmpty
      · rw [if_pos hacc] at ht
        exact absurd ht (List.not_mem_nil t)
      · rw [if_neg hacc] at ht
        rw [List.mem_singleton] at ht
        subst ht
        intro hcon
        have hrev : acc.reverse = [] := by
          simpa [String.ext_iff] using hcon
        rw [List.reverse_eq_nil_iff] at hrev
        rw [hrev] at hacc
        exact hacc rfl
  | c :: cs, acc, t, ht => by
      rw [tokenizeAux] at ht
      by_cases hc : c = '/'
      · rw [if_pos hc] at ht
        by_cases hacc : acc.isEmpty
        · rw [if_pos hacc] at ht
          exact tokenizeAux_ne_nil cs [] t ht
        · rw [if_neg hacc] at ht
          rcases List.mem_cons.mp ht with h | h
          · subst h
            intro hcon
            have hrev : acc.reverse = [] := by
              simpa [String.ext_iff] using hcon
            rw [List.reverse_eq_nil_iff] at hrev
            rw [hrev] at hacc
            exact hacc rfl
          · exact tokenizeAux_ne_nil cs [] t h
      · rw [if_neg hc] at ht
        exact tokenizeAux_ne_nil cs (c :: acc) t ht

/-- Every token produced by the strtok model is a nonempty string. -/
theorem tokenize_mem_ne (s : String) (t : String) (ht : t ∈ tokenize s) :
    t ≠ "" :=
  tokenizeAux_ne_nil s.data [] t ht

/-- When the path has tokens, `basename` is exactly the last token. -/
theorem cBasename_eq_getLast (s : String) (h : tokenize s ≠ []) :
    cBasename s = (tokenize s).getLastD "" := by
  rw [cBasename]
  cases hts : tokenize s with
  | nil => exact absurd hts h
  | cons t ts => simp [List.getLastD]

theorem mem_of_mem_set {α : Type} {l : List α} {i : Nat} {x b : α}
    (h : b ∈ l.set i x) : b ∈ l ∨ b = x := by
  rcases List.mem_or_eq_of_mem_set h with h1 | h1
  · exact Or.inl h1
  · exact Or.inr h1

theorem xor_lt_256 {a b : Nat} (ha : a < 256) (hb : b < 256) :
    a ^^^ b < 256 := Nat.xor_lt_two_pow (n := 8) ha hb

/-! ### Block-view observers -/

/-- The directory view of block `j`. -/
def dirAt (d : Disk) (j : Nat) : List DIRECTORY_ENTRY := (d.getD j zeroBLOCK).directory

/-- The inode view of block `j`. -/
def inodesAt (d : Disk) (j : Nat) : List INODE := (d.getD j zeroBLOCK).inodes

/-- The inode allocation bitmap of the disk. -/
def iflagsOf (d : Disk) : List Nat := (diskMaster d).inode_allocated_flag

/-- The block allocation bitmap of the disk. -/
def bflagsOf (d : Disk) : List Nat := (diskMaster d).block_allocated_flag

/-! ### Frame lemmas for the observers -/

theorem dirAt_set_self (d : Disk) (j : Nat) (b : BLOCK) (h : j < d.length) :
    dirAt (d.set j b) j = b.directory := by
  rw [dirAt, getD_set_self _ _ _ _ h]

theorem dirAt_set_ne (d : Disk) (j : Nat) (b : BLOCK) (k : Nat) (h : j ≠ k) :
    dirAt (d.set j b) k = dirAt d k := by
  rw [dirAt, dirAt, getD_set_ne _ _ _ _ _ h]

theorem inodesAt_set_self (d : Disk) (j : Nat) (b : BLOCK) (h : j < d.length) :
    inodesAt (d.set j b) j = b.inodes := by
  rw [inodesAt, getD_set_self _ _ _ _ h]

theorem inodesAt_set_ne (d : Disk) (j : Nat) (b : BLOCK) (k : Nat) (h : j ≠ k) :
    inodesAt (d.set j b) k = inodesAt d k := by
  rw [inodesAt, inodesAt, getD_set_ne _ _ _ _ _ h]

theorem dirAt_writeInodeRaw (d : Disk) (i : Nat) (v : INODE) (k : Nat) :
    dirAt (writeInodeRaw d i v) k = dirAt d k := by
  rw [writeInodeRaw]
  by_cases h : i / INODES_PER_BLOCK + 1 = k
  · subst h
    by_cases hlen : i / INODES_PER_BLOCK + 1 < d.length
    · rw [dirAt_set_self _ _ _ hlen, dirAt]
    · rw [dirAt, dirAt, List.getD_eq_default, List.getD_eq_default]
      · omega
      · rw [List.length_set]; omega
  · exact dirAt_set_ne _ _ _ _ h

theorem inodesAt_writeInodeRaw_ne (d : Disk) (i : Nat) (v : INODE) (k : Nat)
    (h : i / INODES_PER_BLOCK + 1 ≠ k) :
    inodesAt (writeInodeRaw d i v) k = inodesAt d k := by
  rw [writeInodeRaw]
  exact inodesAt_set_ne _ _ _ _ h

theorem inodesAt_writeInodeRaw_self (d : Disk) (i : Nat) (v : INODE)
    (h : i / INODES_PER_BLOCK + 1 < d.length) :
    inodesAt (writeInodeRaw d i v)  (i / INODES_PER_BLOCK + 1)
      = (inodesAt d (i / INODES_PER_BLOCK + 1)).set (i % INODES_PER_BLOCK) v := by
  rw [writeInodeRaw, inodesAt_set_self _ _ _ h, inodesAt]

theorem masterAt_writeInodeRaw (d : Disk) (i : Nat) (v : INODE) :
    ((writeInodeRaw d i v).getD 0 zeroBLOCK).master = (d.getD 0 zeroBLOCK).master := by
  rw [writeInodeRaw, getD_set_ne _ _ _ _ _ (Nat.succ_ne_zero _)]

theorem insertEntryBLOCK_master (b : BLOCK) (dn : String) (r : Nat) :
    (insertEntryBLOCK b dn r).master = b.master := by
  rw [insertEntryBLOCK]
  cases b.directory.findIdx? (fun e => e.inode_reference = UNALLOCATED_INODE) <;> rfl

theorem insertEntryBLOCK_inodes (b : BLOCK) (dn : String) (r : Nat) :
    (insertEntryBLOCK b dn r).inodes = b.inodes := by
  rw [insertEntryBLOCK]
  cases b.directory.findIdx? (fun e => e.inode_reference = UNALLOCATED_INODE) <;> rfl

theorem removeEntryBLOCK_master (b : BLOCK) (dn : String) :
    (removeEntryBLOCK b dn).master = b.master := by
  rw [removeEntryBLOCK]
  cases b.directory.findIdx? (fun e => e.name == dn) <;> rfl

theorem removeEntryBLOCK_inodes (b : BLOCK) (dn : String) :
    (removeEntryBLOCK b dn).inodes = b.inodes := by
  rw [removeEntryBLOCK]
  cases b.directory.findIdx? (fun e => e.name == dn) <;> rfl

theorem clearBitsBLOCK_directory (b : BLOCK) (c cbr : Nat) :
    (clearBitsBLOCK b c cbr).directory = b.directory := rfl

theorem clearBitsBLOCK_inodes (b : BLOCK) (c cbr : Nat) :
    (clearBitsBLOCK b c cbr).inodes = b.inodes := rfl

/-! ### The effect of a bitmap bit flip -/

theorem getD_replicate_lt {α : Type} (a dflt : α) {n m : Nat} (h : m < n) :
    (List.replicate n a).getD m dflt = a := by
  rw [List.getD_eq_getElem _ _ (by simpa using h)]
  exact List.getElem_replicate a _

/-- Flipping bit `q % 8` of byte `q / 8` in a bitmap changes exactly bit `q`
of the bitmap. -/
theorem bitmapGet_set_flip (arr : List Nat) (q : Nat) (hq : q / 8 < arr.length) :
    ∀ m, bitmapGet (arr.set (q / 8) (oufs_flip_bit (arr.getD (q / 8) 0) (q % 8))) m
      = if m = q then ! bitmapGet arr q else bitmapGet arr m := by
  intro m
  by_cases hb : m / 8 = q / 8
  · rw [bitmapGet, hb, getD_set_self _ _ _ _ hq, oufs_flip_bit, Nat.testBit_xor,
      Nat.shiftLeft_eq, one_mul, Nat.testBit_two_pow]
    by_cases hm : m % 8 = q % 8
    · have hmq : m = q := by omega
      subst hmq
      rw [hm]
      simp [bitmapGet, Bool.xor_comm]
    · have hmq : m ≠ q := by omega
      rw [if_neg hmq]
      have : ¬ (q % 8 = m % 8) := fun hh => hm hh.symm
      simp [this, bitmapGet, hb]
  · have hmq : m ≠ q := by omega
    rw [if_neg hmq, bitmapGet, bitmapGet,
      getD_set_ne _ _ _ _ _ (fun hh => hb hh.symm)]

/-! ### Inversion of the bit allocator -/

/-- A successful `oufs_find_bit_positions` call returns a position inside
the scanned range whose bit was clear, and sets exactly that bit. -/
theorem oufs_find_bit_positions_inv {arr arr2 : List Nat} {ct : Char} {pos : Nat}
    (hct : ct = 'I' ∨ ct = 'B')
    (hlen : arr.length = if ct = 'I' then N_INODES / 8 else N_BLOCKS_IN_DISK / 8)
    (h : oufs_find_bit_positions arr ct = some (arr2, pos)) :
    pos < 8 * arr.length ∧ bitmapGet arr pos = false ∧
      arr2 = arr.set (pos / 8) (oufs_flip_bit (arr.getD (pos / 8) 0) (pos % 8)) := by
  have htake : arr.take (if ct = 'I' then N_INODES / 8 else N_BLOCKS_IN_DISK / 8) = arr := by
    rw [← hlen]
    exact List.take_length arr
  simp only [oufs_find_bit_positions, if_pos hct, oufs_bit_scan, htake] at h
  cases hscan : oufs_bit_scan_aux 0 arr with
  | none => rw [hscan] at h; exact absurd h (by simp)
  | some bj =>
      obtain ⟨byte, bit⟩ := bj
      rw [hscan] at h
      simp only [Option.some.injEq, Prod.mk.injEq] at h
      obtain ⟨harr2, hpos⟩ := h
      obtain ⟨-, hblen, -, hfind⟩ := oufs_bit_scan_aux_some arr 0 byte bit hscan
      rw [Nat.sub_zero] at hblen hfind
      have hbit8 : bit < 8 := oufs_find_available_bit_lt hfind
      have hdiv : pos / 8 = byte := by omega
      have hmod : pos % 8 = bit := by omega
      have htb : (arr.getD byte 0).testBit bit = false := by
        have hp := List.find?_some hfind
        simpa using hp
      refine ⟨by omega, ?_, ?_⟩
      · rw [bitmapGet, hdiv, hmod]
        exact htb
      · rw [← harr2, hdiv, hmod]

/-! ### Inversion of the walk loops -/

theorem getLastD_of_ne_nil {α : Type} (l : List α) (x y : α) (h : l ≠ []) :
    l.getLastD x = l.getLastD y := by
  cases l with
  | nil => exact absurd rfl h
  | cons a l => rw [List.getLastD_cons, List.getLastD_cons]

theorem getLastD_mem {α : Type} (l : List α) (x : α) (h : l ≠ []) :
    l.getLastD x ∈ l := by
  rw [List.getLastD_eq_getLast?, List.getLast?_eq_getLast l h, Option.getD_some]
  exact List.getLast_mem h

/-- The target walk returns with an error status, or with status 0 or 1 and
no diagnostics. -/
theorem pathLoop_ret_errs (d : Disk) :
    ∀ (ts : List String) (r p c : Nat),
      (oufs_find_file_pathLoop d ts r p c).ret = -1 ∨
      (((oufs_find_file_pathLoop d ts r p c).ret = 0 ∨
        (oufs_find_file_pathLoop d ts r p c).ret = 1) ∧
       (oufs_find_file_pathLoop d ts r p c).errs = [])
  | [], r, p, c => by
      rw [oufs_find_file_pathLoop]
      exact Or.inl rfl
  | t :: ts, r, p, c => by
      rw [oufs_find_file_pathLoop]
      cases hstep : lookupStep d r t with
      | mk found r2 =>
          cases found with
          | true =>
              cases hts : ts.isEmpty with
              | true => exact Or.inr ⟨Or.inr rfl, rfl⟩
              | false => exact pathLoop_ret_errs d ts r2 c r2
          | false =>
              cases hts : ts.isEmpty with
              | true => exact Or.inr ⟨Or.inl rfl, rfl⟩
              | false => exact Or.inl rfl

/-- `oufs_find_file` returns with an error status, or with status 0 or 1 and
no diagnostics. -/
theorem find_file_ret_errs (d : Disk) (cwd path : String) (p0 c0 : Nat) :
    (oufs_find_file d cwd path p0 c0).ret = -1 ∨
    (((oufs_find_file d cwd path p0 c0).ret = 0 ∨
      (oufs_find_file d cwd path p0 c0).ret = 1) ∧
     (oufs_find_file d cwd path p0 c0).errs = []) := by
  rw [oufs_find_file]
  by_cases hroot : path = "/"
  · rw [if_pos hroot]
    exact Or.inr ⟨Or.inl rfl, rfl⟩
  · rw [if_neg hroot]
    by_cases hcwd : cwd = "/"
    · rw [if_pos hcwd]
      exact pathLoop_ret_errs d (tokenize path) 0 p0 c0
    · rw [if_neg hcwd]
      cases hloop : oufs_find_file_cwdLoop d (tokenize cwd) 0 p0 c0 with
      | error e =>
          obtain ⟨a, b, m⟩ := e
          exact Or.inl rfl
      | ok s =>
          obtain ⟨r, p, c⟩ := s
          exact pathLoop_ret_errs d (tokenize path) r p c

/-- When the target walk reports Found, the final child was produced by a
successful lookup of the last token at the final parent reference (given the
loop invariant that the walk reference equals the current child). -/
theorem pathLoop_found_inv (d : Disk) :
    ∀ (ts : List String) (r p c p2 c2 : Nat) (e : List String),
      oufs_find_file_pathLoop d ts r p c = ⟨1, p2, c2, e⟩ → r = c →
      lookupStep d p2 (ts.getLastD "") = (true, c2)
  | [], r, p, c, p2, c2, e, h, hrc => by
      rw [oufs_find_file_pathLoop] at h
      have hr := congrArg FindFileResult.ret h
      simp at hr
  | t :: ts, r, p, c, p2, c2, e, h, hrc => by
      rw [oufs_find_file_pathLoop] at h
      cases hstep : lookupStep d r t with
      | mk found r2 =>
          rw [hstep] at h
          cases found with
          | true =>
              cases hts : ts.isEmpty with
              | true =>
                  rw [hts] at h
                  simp only [if_true] at h
                  have hnil : ts = [] := by
                    cases ts with
                    | nil => rfl
                    | cons a l => simp at hts
                  subst hnil
                  cases h
                  rw [List.getLastD_cons, List.getLastD]
                  rw [← hrc]
                  exact hstep
              | false =>
                  rw [hts] at h
                  simp only [if_false] at h
                  have hne : ts ≠ [] := by
                    cases ts with
                    | nil => simp at hts
                    | cons a l => exact List.cons_ne_nil a l
                  have hlast := pathLoop_found_inv d ts r2 c r2 p2 c2 e h rfl
                  rw [List.getLastD_cons, getLastD_of_ne_nil ts t "" hne]
                  exact hlast
          | false =>
              cases hts : ts.isEmpty with
              | true =>
                  rw [hts] at h
                  have hr := congrArg FindFileResult.ret h
                  simp at hr
              | false =>
                  rw [hts] at h
                  have hr := congrArg FindFileResult.ret h
                  simp at hr

/-- When `oufs_find_file` (with the callers' zero-initialized outputs)
reports Found, the path has tokens and the child was produced by a
successful lookup of the last path token at the returned parent. -/
theorem find_file_found_inv (d : Disk) (cwd path : String) (p2 c2 : Nat)
    (e : List String)
    (h : oufs_find_file d cwd path 0 0 = ⟨1, p2, c2, e⟩) :
    tokenize path ≠ [] ∧
    lookupStep d p2 ((tokenize path).getLastD "") = (true, c2) := by
  have hne : tokenize path ≠ [] := by
    intro hnil
    rw [oufs_find_file] at h
    by_cases hroot : path = "/"
    · rw [if_pos hroot] at h
      have hr := congrArg FindFileResult.ret h
      simp at hr
    · rw [if_neg hroot, hnil] at h
      by_cases hcwd : cwd = "/"
      · rw [if_pos hcwd] at h
        have hr := congrArg FindFileResult.ret h
        simp [oufs_find_file_pathLoop] at hr
      · rw [if_neg hcwd] at h
        cases hloop : oufs_find_file_cwdLoop d (tokenize cwd) 0 0 0 with
        | error er =>
            obtain ⟨a, b, m⟩ := er
            rw [hloop] at h
            have hr := congrArg FindFileResult.ret h
            simp at hr
        | ok s =>
            obtain ⟨r, p, c⟩ := s
            rw [hloop] at h
            have hr := congrArg FindFileResult.ret h
            simp [oufs_find_file_pathLoop] at hr
  refine ⟨hne, ?_⟩
  rw [oufs_find_file] at h
  by_cases hroot : path = "/"
  · rw [if_pos hroot] at h
    have hr := congrArg FindFileResult.ret h
    simp at hr
  · rw [if_neg hroot] at h
    by_cases hcwd : cwd = "/"
    · rw [if_pos hcwd] at h
      exact pathLoop_found_inv d (tokenize path) 0 0 0 p2 c2 e h rfl
    · rw [if_neg hcwd] at h
      cases hloop : oufs_find_file_cwdLoop d (tokenize cwd) 0 0 0 with
      | error er =>
          obtain ⟨a, b, m⟩ := er
          rw [hloop] at h
          have hr := congrArg FindFileResult.ret h
          simp at hr
      | ok s =>
          obtain ⟨r, p, c⟩ := s
          rw [hloop] at h
          have hshape := cwdLoop_ok_shape d (tokenize cwd) 0 0 0 r p c hloop
          exact pathLoop_found_inv d (tokenize path) r p c p2 c2 e h hshape

/-! ### The disk well-formedness invariant preserved by mkdir/rmdir -/

/-- Well-formedness of the entries of a live directory block owned by inode
`i`: slots 0 and 1 are the allocated `.` and `..` entries, free slots have
zeroed names, and allocated later slots reference neither inode 0 nor the
owner itself. -/
def entriesOK (es : List DIRECTORY_ENTRY) (i : Nat) : Prop :=
  (es.getD 0 zeroENTRY).name = "." ∧
  (es.getD 0 zeroENTRY).inode_reference ≠ UNALLOCATED_INODE ∧
  (es.getD 1 zeroENTRY).name = ".." ∧
  (es.getD 1 zeroENTRY).inode_reference ≠ UNALLOCATED_INODE ∧
  ∀ k < DIRECTORY_ENTRIES_PER_BLOCK, 2 ≤ k →
    ((es.getD k zeroENTRY).inode_reference = UNALLOCATED_INODE →
      (es.getD k zeroENTRY).name = "") ∧
    ((es.getD k zeroENTRY).inode_reference ≠ UNALLOCATED_INODE →
      (es.getD k zeroENTRY).inode_reference ≠ 0 ∧
      (es.getD k zeroENTRY).inode_reference ≠ i)

instance (es : List DIRECTORY_ENTRY) (i : Nat) : Decidable (entriesOK es i) := by
  unfold entriesOK
  infer_instance

/-- The strengthened state invariant of the on-disk structures, preserved by
formatting and by every successful `oufs_mkdir`/`oufs_rmdir` call.  Its
`K1`/`K2` fields are the claimed bitmap agreements; the remaining fields are
the auxiliary structure needed to push them through the operations. -/
structure DiskInv (d : Disk) : Prop where
  len : d.length = N_BLOCKS_IN_DISK
  wfi : ∀ b ∈ d, b.inodes.length = INODES_PER_BLOCK
  wfd : ∀ b ∈ d, b.directory.length = DIRECTORY_ENTRIES_PER_BLOCK
  wfiF : (iflagsOf d).length = N_INODES / 8
  wfbF : (bflagsOf d).length = N_BLOCKS_IN_DISK / 8
  bytesI : ∀ x ∈ iflagsOf d, x < 256
  bytesB : ∀ x ∈ bflagsOf d, x < 256
  rootType : (inodeAt d 0).itype = .IT_DIRECTORY
  rootData : inodeData0 d 0 = ROOT_DIRECTORY_BLOCK
  K1 : ∀ i < N_INODES, (bitmapGet (iflagsOf d) i = true ↔ (inodeAt d i).itype ≠ .IT_NONE)
  noFile : ∀ i < N_INODES, (inodeAt d i).itype ≠ .IT_FILE
  K2 : ∀ j < N_BLOCKS_IN_DISK, (bitmapGet (bflagsOf d) j = true ↔
    (j ≤ ROOT_DIRECTORY_BLOCK ∨
      ∃ i, i < N_INODES ∧ (inodeAt d i).itype ≠ .IT_NONE ∧ inodeData0 d i = j))
  dataHi : ∀ i < N_INODES, i ≠ 0 → (inodeAt d i).itype ≠ .IT_NONE →
    10 ≤ inodeData0 d i ∧ inodeData0 d i < N_BLOCKS_IN_DISK
  dataInj : ∀ i1 < N_INODES, ∀ i2 < N_INODES,
    (inodeAt d i1).itype ≠ .IT_NONE → (inodeAt d i2).itype ≠ .IT_NONE →
    i1 ≠ i2 → inodeData0 d i1 ≠ inodeData0 d i2
  noneD0 : ∀ i < N_INODES, (inodeAt d i).itype = .IT_NONE → inodeData0 d i = 0
  nonTable : ∀ j < N_BLOCKS_IN_DISK, 9 ≤ j →
    ∀ v ∈ inodesAt d j, v.itype = .IT_NONE ∧ v.data.getD 0 0 = 0
  blk0dir : dirAt d 0 = List.replicate DIRECTORY_ENTRIES_PER_BLOCK zeroENTRY
  live : ∀ i < N_INODES, (inodeAt d i).itype ≠ .IT_NONE →
    entriesOK (dirAt d (inodeData0 d i)) i

/-! ### Consequences of the invariant -/

theorem inv_blk_mem {d : Disk} (hInv : DiskInv d) {j : Nat}
    (hj : j < N_BLOCKS_IN_DISK) : d.getD j zeroBLOCK ∈ d := by
  have hlen : j < d.length := by rw [hInv.len]; exact hj
  rw [List.getD_eq_getElem d zeroBLOCK hlen]
  exact List.getElem_mem hlen

theorem inv_dirAt_length {d : Disk} (hInv : DiskInv d) {j : Nat}
    (hj : j < N_BLOCKS_IN_DISK) :
    (dirAt d j).length = DIRECTORY_ENTRIES_PER_BLOCK :=
  hInv.wfd _ (inv_blk_mem hInv hj)

theorem inv_inodesAt_length {d : Disk} (hInv : DiskInv d) {j : Nat}
    (hj : j < N_BLOCKS_IN_DISK) :
    (inodesAt d j).length = INODES_PER_BLOCK :=
  hInv.wfi _ (inv_blk_mem hInv hj)

/-- The inode record at a table reference, as its block's inode view. -/
theorem inodeAt_eq_view {d : Disk} {r : Nat}
    (h : r / INODES_PER_BLOCK + 1 < N_BLOCKS_IN_DISK) :
    inodeAt d r = (inodesAt d (r / INODES_PER_BLOCK + 1)).getD
      (r % INODES_PER_BLOCK) zeroINODE := by
  rw [inodeAt, oufs_read_inode_by_reference, vdisk_read_block, if_pos h,
    Option.getD_some, inodesAt]

theorem inodeAt_read_fail {d : Disk} {r : Nat}
    (h : ¬ (r / INODES_PER_BLOCK + 1 < N_BLOCKS_IN_DISK)) :
    inodeAt d r = zeroINODE := by
  rw [inodeAt, oufs_read_inode_by_reference, vdisk_read_block, if_neg h]
  rfl

/-- References beyond the inode table read records of non-table blocks,
which the invariant keeps zero-typed with a zero `data[0]`. -/
theorem inv_inodeAt_big {d : Disk} (hInv : DiskInv d) {r : Nat}
    (h64 : N_INODES ≤ r) (hlt : r / INODES_PER_BLOCK + 1 < N_BLOCKS_IN_DISK) :
    (inodeAt d r).itype = .IT_NONE ∧ inodeData0 d r = 0 := by
  have h9 : 9 ≤ r / INODES_PER_BLOCK + 1 := by
    have h8 : INODES_PER_BLOCK = 8 := rfl
    have h64' : N_INODES = 64 := rfl
    rw [h8]
    rw [h64'] at h64
    omega
  have hmem : inodeAt d r ∈ inodesAt d (r / INODES_PER_BLOCK + 1) := by
    rw [inodeAt_eq_view hlt]
    have hmod : r % INODES_PER_BLOCK < (inodesAt d (r / INODES_PER_BLOCK + 1)).length := by
      rw [inv_inodesAt_length hInv hlt]
      exact Nat.mod_lt r (by norm_num [INODES_PER_BLOCK])
    rw [List.getD_eq_getElem _ _ hmod]
    exact List.getElem_mem hmod
  have hv := hInv.nonTable _ hlt h9 _ hmem
  exact ⟨hv.1, hv.2⟩

/-- Every reference either reads a record with a zero `data[0]` or is an
allocated table inode. -/
theorem inv_data0_cases {d : Disk} (hInv : DiskInv d) (r : Nat) :
    inodeData0 d r = 0 ∨ (r < N_INODES ∧ (inodeAt d r).itype ≠ .IT_NONE) := by
  by_cases hr : r < N_INODES
  · by_cases ht : (inodeAt d r).itype = .IT_NONE
    · exact Or.inl (hInv.noneD0 r hr ht)
    · exact Or.inr ⟨hr, ht⟩
  · by_cases hlt : r / INODES_PER_BLOCK + 1 < N_BLOCKS_IN_DISK
    · exact Or.inl (inv_inodeAt_big hInv (by omega) hlt).2
    · refine Or.inl ?_
      rw [inodeData0]
      rw [show ((oufs_read_inode_by_reference d r).getD zeroINODE) = inodeAt d r from rfl]
      rw [inodeAt_read_fail hlt]
      rfl

/-- The `data[0]` of an allocated inode: block 9 for the root, a data block
at 10 or above otherwise. -/
theorem inv_data0_live {d : Disk} (hInv : DiskInv d) {r : Nat}
    (hr : r < N_INODES) (ht : (inodeAt d r).itype ≠ .IT_NONE) :
    (r = 0 ∧ inodeData0 d r = 9) ∨
    (r ≠ 0 ∧ 10 ≤ inodeData0 d r ∧ inodeData0 d r < N_BLOCKS_IN_DISK) := by
  by_cases h0 : r = 0
  · subst h0
    exact Or.inl ⟨rfl, hInv.rootData⟩
  · exact Or.inr ⟨h0, hInv.dataHi r hr h0 ht⟩

theorem inv_data0_lt {d : Disk} (hInv : DiskInv d) (r : Nat) :
    inodeData0 d r < N_BLOCKS_IN_DISK := by
  rcases inv_data0_cases hInv r with h0 | ⟨hr, ht⟩
  · rw [h0]; norm_num [N_BLOCKS_IN_DISK]
  · rcases inv_data0_live hInv hr ht with ⟨-, h9⟩ | ⟨-, -, hlt⟩
    · rw [h9]; norm_num [N_BLOCKS_IN_DISK]
    · exact hlt

/-- A successful inode read returns the stored record at an in-range table
block. -/
theorem read_some_inodeAt {d : Disk} {r : Nat} {v : INODE}
    (h : oufs_read_inode_by_reference d r = some v) :
    v = inodeAt d r ∧ r / INODES_PER_BLOCK + 1 < N_BLOCKS_IN_DISK := by
  have hlt : r / INODES_PER_BLOCK + 1 < N_BLOCKS_IN_DISK := oufs_read_inode_some_lt h
  refine ⟨?_, hlt⟩
  rw [inodeAt, h, Option.getD_some]

/-! ### Lookups under the invariant -/

theorem find?_replicate_zeroENTRY (t : String) (ht : t ≠ "") :
    ∀ n, (List.replicate n zeroENTRY).find? (fun e => e.name == t) = none := by
  intro n
  induction n with
  | zero => rfl
  | succ m ih =>
      rw [List.replicate_succ, List.find?_cons_of_neg _ (by
        intro hh
        simp only [zeroENTRY, beq_iff_eq] at hh
        exact ht hh.symm)]
      exact ih


/-- A successful lookup step with a token that is not `.`, `..` or empty
happens at an allocated table inode and returns an entry reference that is
neither 0 nor the searched reference itself. -/
theorem inv_lookup_true {d : Disk} (hInv : DiskInv d) {r c2 : Nat} {tok : String}
    (h : lookupStep d r tok = (true, c2))
    (ht0 : tok ≠ "") (ht1 : tok ≠ ".") (ht2 : tok ≠ "..") :
    r < N_INODES ∧ (inodeAt d r).itype ≠ .IT_NONE ∧ c2 ≠ 0 ∧ c2 ≠ r := by
  have hlt : inodeData0 d r < N_BLOCKS_IN_DISK := inv_data0_lt hInv r
  have hfir : oufs_find_inode_ref_by_name d
      ((oufs_read_inode_by_reference d r).getD zeroINODE) tok
      = match (dirAt d (inodeData0 d r)).find? (fun e => e.name == tok) with
        | some e => ((1 : Int), some e.inode_reference)
        | none => ((0 : Int), none) := by
    rw [oufs_find_inode_ref_by_name]
    rw [show ((oufs_read_inode_by_reference d r).getD zeroINODE).data.getD 0 0
        = inodeData0 d r from rfl]
    rw [vdisk_read_block, if_pos hlt]
    rfl
  simp only [lookupStep] at h
  rw [hfir] at h
  cases hf : (dirAt d (inodeData0 d r)).find? (fun e => e.name == tok) with
  | none =>
      rw [hf] at h
      simp at h
  | some e =>
      rw [hf] at h
      simp only [Prod.mk.injEq] at h
      have hc2 : c2 = e.inode_reference := by
        rcases h with ⟨-, h2⟩
        cases h2
        rfl
      have hname : e.name = tok := by
        have hp := List.find?_some hf
        simpa using hp
      rcases inv_data0_cases hInv r with h0 | ⟨hr, ht⟩
      · rw [h0, hInv.blk0dir] at hf
        rw [find?_replicate_zeroENTRY tok ht0] at hf
        cases hf
      · have hok := hInv.live r hr ht
        have hmem := List.mem_of_find?_eq_some hf
        rw [List.mem_iff_getElem] at hmem
        obtain ⟨k, hk, hek⟩ := hmem
        have hk16 : k < DIRECTORY_ENTRIES_PER_BLOCK := by
          rw [← inv_dirAt_length hInv hlt]
          exact hk
        have hgd : (dirAt d (inodeData0 d r)).getD k zeroENTRY = e := by
          rw [List.getD_eq_getElem _ _ hk]
          exact hek
        obtain ⟨hdot0, -, hdot1, -, hrest⟩ := hok
        match k, hk16 with
        | 0, _ =>
            rw [hgd] at hdot0
            rw [hname] at hdot0
            exact absurd hdot0 ht1
        | 1, _ =>
            rw [hgd] at hdot1
            rw [hname] at hdot1
            exact absurd hdot1 ht2
        | (k2 + 2), hkk =>
            have hcl := hrest (k2 + 2) hkk (by omega)
            rw [hgd] at hcl
            by_cases hfree : e.inode_reference = UNALLOCATED_INODE
            · have hempty := hcl.1 hfree
              rw [hname] at hempty
              exact absurd hempty ht0
            · have halloc := hcl.2 hfree
              rw [← hc2] at halloc
              exact ⟨hr, ht, halloc.1, halloc.2⟩

/-! ### The slot chosen by the entry insertion/removal scans -/

theorem findIdx?_spec {α : Type} (l : List α) (p : α → Bool) (i : Nat) (dflt : α)
    (h : l.findIdx? p = some i) :
    i < l.length ∧ p (l.getD i dflt) = true := by
  rw [List.findIdx?_eq_some_iff_findIdx_eq] at h
  obtain ⟨hlt, hidx⟩ := h
  refine ⟨hlt, ?_⟩
  rw [List.getD_eq_getElem l dflt hlt]
  have hw := @List.findIdx_getElem _ p l (hidx ▸ hlt)
  simp only [hidx] at hw
  exact hw

/-- On a live directory block (allocated `.`/`..` slots), the insertion scan
either fails and leaves the block alone, or fills a slot at index 2 or
above. -/
theorem insertEntryBLOCK_directory_spec (b : BLOCK) (dn : String) (r : Nat)
    (h0 : (b.directory.getD 0 zeroENTRY).inode_reference ≠ UNALLOCATED_INODE)
    (h1 : (b.directory.getD 1 zeroENTRY).inode_reference ≠ UNALLOCATED_INODE) :
    (insertEntryBLOCK b dn r).directory = b.directory ∨
    ∃ idx, 2 ≤ idx ∧ idx < b.directory.length ∧
      (insertEntryBLOCK b dn r).directory
        = b.directory.set idx ({ name := dn, inode_reference := r } : DIRECTORY_ENTRY) := by
  rw [insertEntryBLOCK]
  cases hidx : b.directory.findIdx? (fun e => e.inode_reference = UNALLOCATED_INODE) with
  | none => exact Or.inl rfl
  | some idx =>
      obtain ⟨hlt, hp⟩ := findIdx?_spec _ _ idx zeroENTRY hidx
      have href : (b.directory.getD idx zeroENTRY).inode_reference = UNALLOCATED_INODE := by
        simpa using hp
      have hidx2 : 2 ≤ idx := by
        by_cases hi0 : idx = 0
        · rw [hi0] at href
          exact absurd href h0
        · by_cases hi1 : idx = 1
          · rw [hi1] at href
            exact absurd href h1
          · omega
      exact Or.inr ⟨idx, hidx2, hlt, rfl⟩

/-- On a live directory block, removing a name other than `.`, `..` and the
empty name either misses or clears a slot at index 2 or above. -/
theorem removeEntryBLOCK_directory_spec (b : BLOCK) (dn : String)
    (h0 : (b.directory.getD 0 zeroENTRY).name = ".")
    (h1 : (b.directory.getD 1 zeroENTRY).name = "..")
    (hdn0 : dn ≠ ".") (hdn1 : dn ≠ "..") :
    (removeEntryBLOCK b dn).directory = b.directory ∨
    ∃ idx, 2 ≤ idx ∧ idx < b.directory.length ∧
      (removeEntryBLOCK b dn).directory
        = b.directory.set idx
            ({ name := "", inode_reference := UNALLOCATED_INODE } : DIRECTORY_ENTRY) := by
  rw [removeEntryBLOCK]
  cases hidx : b.directory.findIdx? (fun e => e.name == dn) with
  | none => exact Or.inl rfl
  | some idx =>
      obtain ⟨hlt, hp⟩ := findIdx?_spec _ _ idx zeroENTRY hidx
      have hname : (b.directory.getD idx zeroENTRY).name = dn := by
        simpa using hp
      have hidx2 : 2 ≤ idx := by
        by_cases hi0 : idx = 0
        · rw [hi0, h0] at hname
          exact absurd hname.symm hdn0
        · by_cases hi1 : idx = 1
          · rw [hi1, h1] at hname
            exact absurd hname.symm hdn1
          · omega
      exact Or.inr ⟨idx, hidx2, hlt, rfl⟩

/-- The insertion scan never fires on the master block's (zeroed) directory
view: every slot reference there is 0, not `UNALLOCATED_INODE`. -/
theorem insertEntryBLOCK_zerodir (b : BLOCK) (dn : String) (r : Nat)
    (h : b.directory = List.replicate DIRECTORY_ENTRIES_PER_BLOCK zeroENTRY) :
    insertEntryBLOCK b dn r = b := by
  rw [insertEntryBLOCK, h]
  have hnone : (List.replicate DIRECTORY_ENTRIES_PER_BLOCK zeroENTRY).findIdx?
      (fun e => e.inode_reference = UNALLOCATED_INODE) = none := by
    rw [List.findIdx?_eq_none_iff]
    intro x hx
    have hxz : x = zeroENTRY := List.eq_of_mem_replicate hx
    rw [hxz]
    simp [zeroENTRY, UNALLOCATED_INODE]
  rw [hnone]

/-! ### Inversion of the success paths of mkdir and rmdir -/

/-- A 0 return from `oufs_mkdir` forces the NotFound resolution, a fitting
name, a readable non-full parent and two successful allocations. -/
theorem oufs_mkdir_ret0_inv (d : Disk) (cwd path : String)
    (h : (oufs_mkdir d cwd path).ret = 0) :
    ∃ gp p pi iflags2 ipos bflags2 bpos,
      oufs_find_file d cwd path 0 0 = ⟨0, gp, p, []⟩ ∧
      (cBasename path).length ≤ FILE_NAME_SIZE ∧
      oufs_read_inode_by_reference d p = some pi ∧
      pi.size ≠ DIRECTORY_ENTRIES_PER_BLOCK ∧
      oufs_find_bit_positions (diskMaster d).inode_allocated_flag 'I'
        = some (iflags2, ipos) ∧
      oufs_find_bit_positions (diskMaster d).block_allocated_flag 'B'
        = some (bflags2, bpos) := by
  rcases hF : oufs_find_file d cwd path 0 0 with ⟨fr, gp, p, fe⟩
  have herrs := find_file_ret_errs d cwd path 0 0
  rw [hF] at herrs
  simp only [oufs_mkdir, hF] at h
  by_cases hfr : fr = 0
  · subst hfr
    rw [if_pos rfl] at h
    have hfe : fe = [] := by
      rcases herrs with h1 | ⟨-, h2⟩
      · simp at h1
      · exact h2
    subst hfe
    by_cases hname : (cBasename path).length > FILE_NAME_SIZE
    · rw [if_pos hname] at h
      simp at h
    · rw [if_neg hname] at h
      cases hpi : oufs_read_inode_by_reference d p with
      | none =>
          simp only [hpi] at h
          simp at h
      | some pi =>
          simp only [hpi] at h
          by_cases hsize : pi.size = DIRECTORY_ENTRIES_PER_BLOCK
          · rw [if_pos hsize] at h
            simp at h
          · rw [if_neg hsize] at h
            have hb0 : vdisk_read_block d 0 = some (d.getD 0 zeroBLOCK) := by
              rw [vdisk_read_block]
              exact if_pos (by norm_num [N_BLOCKS_IN_DISK])
            simp only [hb0] at h
            cases hbi : oufs_find_bit_positions
                (d.getD 0 zeroBLOCK).master.inode_allocated_flag 'I' with
            | none =>
                simp only [hbi] at h
                simp at h
            | some ip =>
                obtain ⟨ifl, ipos⟩ := ip
                simp only [hbi] at h
                cases hbb : oufs_find_bit_positions
                    (d.getD 0 zeroBLOCK).master.block_allocated_flag 'B' with
                | none =>
                    simp only [hbb] at h
                    simp at h
                | some bp =>
                    obtain ⟨bfl, bpos⟩ := bp
                    exact ⟨gp, p, pi, ifl, ipos, bfl, bpos, rfl, by omega, hpi,
                      hsize, hbi, hbb⟩
  · rw [if_neg hfr] at h
    by_cases hfr1 : fr = 1
    · rw [if_pos hfr1] at h
      simp at h
    · rw [if_neg hfr1] at h
      simp at h

/-- A 0 return from `oufs_rmdir` forces a fitting non-dot name, the Found
resolution, a readable empty directory child and a readable parent. -/
theorem oufs_rmdir_ret0_inv (d : Disk) (cwd path : String)
    (h : (oufs_rmdir d cwd path).ret = 0) :
    ∃ p c ci pi,
      (cBasename path).length ≤ FILE_NAME_SIZE ∧
      ¬ (cBasename path = "." ∨ cBasename path = "..") ∧
      oufs_find_file d cwd path 0 0 = ⟨1, p, c, []⟩ ∧
      oufs_read_inode_by_reference d c = some ci ∧
      ci.itype = .IT_DIRECTORY ∧ ci.size = 2 ∧
      oufs_read_inode_by_reference d p = some pi := by
  simp only [oufs_rmdir] at h
  by_cases hname : (cBasename path).length > FILE_NAME_SIZE
  · rw [if_pos hname] at h
    simp at h
  · rw [if_neg hname] at h
    by_cases hdot : (cBasename path = "." ∨ cBasename path = "..")
    · rw [if_pos hdot] at h
      simp at h
    · rw [if_neg hdot] at h
      rcases hF : oufs_find_file d cwd path 0 0 with ⟨fr, p, c, fe⟩
      have herrs := find_file_ret_errs d cwd path 0 0
      rw [hF] at herrs
      rw [hF] at h
      by_cases hfr0 : fr = 0
      · rw [if_pos hfr0] at h
        simp at h
      · rw [if_neg hfr0] at h
        by_cases hfrneg : fr < 0
        · rw [if_pos hfrneg] at h
          simp at h
        · rw [if_neg hfrneg] at h
          have hfr1 : fr = 1 := by
            rcases herrs with h1 | ⟨h2 | h2, -⟩
            · simp only [] at h1
              omega
            · simp only [] at h2
              exact absurd h2 hfr0
            · exact h2
          subst hfr1
          have hfe : fe = [] := by
            rcases herrs with h1 | ⟨-, h2⟩
            · simp at h1
            · exact h2
          subst hfe
          cases hci : oufs_read_inode_by_reference d c with
          | none =>
              simp only [hci] at h
              simp at h
          | some ci =>
              simp only [hci] at h
              by_cases htype : ci.itype ≠ INODE_TYPE.IT_DIRECTORY
              · rw [if_pos htype] at h
                simp at h
              · rw [if_neg htype] at h
                by_cases hsz : ci.size ≠ 2
                · rw [if_pos hsz] at h
                  simp at h
                · rw [if_neg hsz] at h
                  cases hpi : oufs_read_inode_by_reference d p with
                  | none =>
                      simp only [hpi] at h
                      simp at h
                  | some pi =>
                      refine ⟨p, c, ci, pi, by omega, hdot, rfl, hci, ?_, ?_, hpi⟩
                      · by_cases hh : ci.itype = INODE_TYPE.IT_DIRECTORY
                        · exact hh
                        · exact absurd hh (by
                            intro hcon
                            exact htype hcon)
                      · by_cases hh : ci.size = 2
                        · exact hh
                        · exact absurd hh (fun hcon => hsz hcon)

/-! ### Generic helpers for write-frame computations -/

theorem mem_set_forall {α : Type} {P : α → Prop} (l : List α) (j : Nat) (x : α)
    (h : ∀ b ∈ l, P b) (hx : P x) : ∀ b ∈ l.set j x, P b := by
  intro b hb
  rcases List.mem_or_eq_of_mem_set hb with hb1 | hb1
  · exact h b hb1
  · rw [hb1]
    exact hx

theorem getD_forall {α : Type} {P : α → Prop} (l : List α) (j : Nat) (dflt : α)
    (h : ∀ b ∈ l, P b) (hdflt : P dflt) : P (l.getD j dflt) := by
  by_cases hj : j < l.length
  · rw [List.getD_eq_getElem l dflt hj]
    exact h _ (List.getElem_mem hj)
  · rw [List.getD_eq_default l dflt (by omega)]
    exact hdflt

theorem inodeData0_eq (d : Disk) (r : Nat) :
    inodeData0 d r = (inodeAt d r).data.getD 0 0 := rfl

theorem shiftLeft_one_lt_256 {j : Nat} (h : j < 8) : 1 <<< j < 256 := by
  rw [Nat.shiftLeft_eq, one_mul]
  calc (2 : Nat) ^ j < 2 ^ 8 := Nat.pow_lt_pow_right (by norm_num) h
  _ = 256 := by norm_num

/-! ### `entriesOK` under slot updates -/

theorem entriesOK_set_free {es : List DIRECTORY_ENTRY} {i idx : Nat}
    (h : entriesOK es i) (hidx : 2 ≤ idx) :
    entriesOK (es.set idx
      ({ name := "", inode_reference := UNALLOCATED_INODE } : DIRECTORY_ENTRY)) i := by
  obtain ⟨h0, h0r, h1, h1r, hk⟩ := h
  refine ⟨?_, ?_, ?_, ?_, ?_⟩
  · rw [getD_set_ne _ _ _ _ _ (by omega)]; exact h0
  · rw [getD_set_ne _ _ _ _ _ (by omega)]; exact h0r
  · rw [getD_set_ne _ _ _ _ _ (by omega)]; exact h1
  · rw [getD_set_ne _ _ _ _ _ (by omega)]; exact h1r
  · intro k hk16 hk2
    by_cases hke : idx = k
    · subst hke
      by_cases hlt : idx < es.length
      · rw [getD_set_self _ _ _ _ hlt]
        exact ⟨fun _ => rfl, fun hcon => absurd rfl hcon⟩
      · rw [List.set_eq_of_length_le (by omega)]
        exact hk idx hk16 hk2
    · rw [getD_set_ne _ _ _ _ _ hke]
      exact hk k hk16 hk2

theorem entriesOK_set_alloc {es : List DIRECTORY_ENTRY} {i idx r : Nat} {dn : String}
    (h : entriesOK es i) (hidx : 2 ≤ idx) (hlt : idx < es.length)
    (hr0 : r ≠ 0) (hri : r ≠ i) (hrU : r ≠ UNALLOCATED_INODE) :
    entriesOK (es.set idx
      ({ name := dn, inode_reference := r } : DIRECTORY_ENTRY)) i := by
  obtain ⟨h0, h0r, h1, h1r, hk⟩ := h
  refine ⟨?_, ?_, ?_, ?_, ?_⟩
  · rw [getD_set_ne _ _ _ _ _ (by omega)]; exact h0
  · rw [getD_set_ne _ _ _ _ _ (by omega)]; exact h0r
  · rw [getD_set_ne _ _ _ _ _ (by omega)]; exact h1
  · rw [getD_set_ne _ _ _ _ _ (by omega)]; exact h1r
  · intro k hk16 hk2
    by_cases hke : idx = k
    · subst hke
      rw [getD_set_self _ _ _ _ hlt]
      exact ⟨fun hcon => absurd hcon hrU, fun _ => ⟨hr0, hri⟩⟩
    · rw [getD_set_ne _ _ _ _ _ hke]
      exact hk k hk16 hk2

/-- The fresh directory block of `oufs_mkdir` satisfies the live-block
structure for its new inode. -/
theorem entriesOK_childBLOCK (ipos p : Nat) (hi : ipos ≠ UNALLOCATED_INODE)
    (hp : p ≠ UNALLOCATED_INODE) :
    entriesOK (mkdirChildBLOCK ipos p).directory ipos := by
  refine ⟨rfl, ?_, rfl, ?_, ?_⟩
  · exact hi
  · exact hp
  · intro k hk16 hk2
    match k, hk2 with
    | (k2 + 2), _ =>
        have hk14 : k2 < 14 := by
          have h16 : DIRECTORY_ENTRIES_PER_BLOCK = 16 := rfl
          rw [h16] at hk16
          omega
        rw [show (mkdirChildBLOCK ipos p).directory.getD (k2 + 2) zeroENTRY
            = (List.replicate (DIRECTORY_ENTRIES_PER_BLOCK - 2)
                ({ name := "", inode_reference := UNALLOCATED_INODE } :
                  DIRECTORY_ENTRY)).getD k2 zeroENTRY from rfl]
        rw [getD_replicate_lt _ _ (by
          have h16 : DIRECTORY_ENTRIES_PER_BLOCK = 16 := rfl
          rw [h16]
          omega)]
        exact ⟨fun _ => rfl, fun hcon => absurd rfl hcon⟩

/-! ### The write layers of the mkdir success path -/

/-- Layer 1 of `mkdirResultDisk`: the master-block bitmap write. -/
def mkdirD1 (d : Disk) (ifl bfl : List Nat) : Disk :=
  d.set 0 { d.getD 0 zeroBLOCK with master :=
    { inode_allocated_flag := ifl, block_allocated_flag := bfl } }

/-- Layer 2: the parent inode size increment. -/
def mkdirD2 (d : Disk) (p : Nat) (pi : INODE) (ifl bfl : List Nat) : Disk :=
  writeInodeRaw (mkdirD1 d ifl bfl) p { pi with size := u32 (pi.size + 1) }

/-- Layer 3: the new entry in the parent's directory block. -/
def mkdirD3 (d : Disk) (p : Nat) (pi : INODE) (dn : String) (ifl bfl : List Nat)
    (ipos : Nat) : Disk :=
  (mkdirD2 d p pi ifl bfl).set (pi.data.getD 0 0)
    (insertEntryBLOCK ((mkdirD2 d p pi ifl bfl).getD (pi.data.getD 0 0) zeroBLOCK)
      dn ipos)

/-- Layer 4: the fresh directory block of the new directory. -/
def mkdirD4 (d : Disk) (p : Nat) (pi : INODE) (dn : String) (ifl bfl : List Nat)
    (ipos bpos : Nat) : Disk :=
  (mkdirD3 d p pi dn ifl bfl ipos).set bpos (mkdirChildBLOCK ipos p)

theorem mkdirResultDisk_layers (d : Disk) (p : Nat) (pi : INODE) (dn : String)
    (ifl bfl : List Nat) (ipos bpos : Nat) :
    mkdirResultDisk d p pi dn ifl bfl ipos bpos
      = writeInodeRaw (mkdirD4 d p pi dn ifl bfl ipos bpos) ipos
          (mkdirChildINODE bpos) := rfl

theorem mkdirD1_length (d : Disk) (ifl bfl : List Nat) :
    (mkdirD1 d ifl bfl).length = d.length := by
  simp [mkdirD1]

theorem mkdirD2_length (d : Disk) (p : Nat) (pi : INODE) (ifl bfl : List Nat) :
    (mkdirD2 d p pi ifl bfl).length = d.length := by
  rw [mkdirD2, length_writeInodeRaw, mkdirD1_length]

theorem mkdirD3_length (d : Disk) (p : Nat) (pi : INODE) (dn : String)
    (ifl bfl : List Nat) (ipos : Nat) :
    (mkdirD3 d p pi dn ifl bfl ipos).length = d.length := by
  rw [mkdirD3, List.length_set, mkdirD2_length]

theorem mkdirD4_length (d : Disk) (p : Nat) (pi : INODE) (dn : String)
    (ifl bfl : List Nat) (ipos bpos : Nat) :
    (mkdirD4 d p pi dn ifl bfl ipos bpos).length = d.length := by
  rw [mkdirD4, List.length_set, mkdirD3_length]

theorem mkdirResultDisk_length (d : Disk) (p : Nat) (pi : INODE) (dn : String)
    (ifl bfl : List Nat) (ipos bpos : Nat) :
    (mkdirResultDisk d p pi dn ifl bfl ipos bpos).length = d.length := by
  rw [mkdirResultDisk_layers, length_writeInodeRaw, mkdirD4_length]

theorem dirAt_mkdirD1 (d : Disk) (ifl bfl : List Nat) (j : Nat) :
    dirAt (mkdirD1 d ifl bfl) j = dirAt d j := by
  by_cases h0 : (0 : Nat) = j
  · subst h0
    by_cases hlen : 0 < d.length
    · rw [mkdirD1, dirAt_set_self _ _ _ hlen]
      rfl
    · have hnil : d = [] := List.length_eq_zero.mp (by omega)
      subst hnil
      rfl
  · rw [mkdirD1, dirAt_set_ne _ _ _ _ h0]

theorem inodesAt_mkdirD1 (d : Disk) (ifl bfl : List Nat) (j : Nat) :
    inodesAt (mkdirD1 d ifl bfl) j = inodesAt d j := by
  by_cases h0 : (0 : Nat) = j
  · subst h0
    by_cases hlen : 0 < d.length
    · rw [mkdirD1, inodesAt_set_self _ _ _ hlen]
      rfl
    · have hnil : d = [] := List.length_eq_zero.mp (by omega)
      subst hnil
      rfl
  · rw [mkdirD1, inodesAt_set_ne _ _ _ _ h0]

theorem inodeAt_mkdirD1 (d : Disk) (ifl bfl : List Nat) (i : Nat) :
    inodeAt (mkdirD1 d ifl bfl) i = inodeAt d i := by
  rw [mkdirD1]
  exact inodeAt_set_ne _ _ _ _ (Nat.succ_ne_zero _).symm

theorem iflagsOf_mkdirD1 (d : Disk) (ifl bfl : List Nat) (hd : 0 < d.length) :
    iflagsOf (mkdirD1 d ifl bfl) = ifl := by
  rw [iflagsOf, diskMaster, mkdirD1, getD_set_self _ _ _ _ hd]

theorem bflagsOf_mkdirD1 (d : Disk) (ifl bfl : List Nat) (hd : 0 < d.length) :
    bflagsOf (mkdirD1 d ifl bfl) = bfl := by
  rw [bflagsOf, diskMaster, mkdirD1, getD_set_self _ _ _ _ hd]

theorem masterAt_mkdirD3 (d : Disk) (p : Nat) (pi : INODE) (dn : String)
    (ifl bfl : List Nat) (ipos : Nat) :
    ((mkdirD3 d p pi dn ifl bfl ipos).getD 0 zeroBLOCK).master
      = ((mkdirD2 d p pi ifl bfl).getD 0 zeroBLOCK).master := by
  rw [mkdirD3]
  by_cases h0 : pi.data.getD 0 0 = 0
  · rw [h0]
    by_cases hlen : 0 < (mkdirD2 d p pi ifl bfl).length
    · rw [getD_set_self _ _ _ _ hlen, insertEntryBLOCK_master]
    · have hnil : mkdirD2 d p pi ifl bfl = [] := List.length_eq_zero.mp (by omega)
      rw [hnil]
      rfl
  · rw [getD_set_ne _ _ _ _ _ h0]

theorem dirAt_mkdirD3_ne (d : Disk) (p : Nat) (pi : INODE) (dn : String)
    (ifl bfl : List Nat) (ipos : Nat) (j : Nat) (h : pi.data.getD 0 0 ≠ j) :
    dirAt (mkdirD3 d p pi dn ifl bfl ipos) j = dirAt (mkdirD2 d p pi ifl bfl) j := by
  rw [mkdirD3, dirAt_set_ne _ _ _ _ h]

theorem inodesAt_mkdirD3 (d : Disk) (p : Nat) (pi : INODE) (dn : String)
    (ifl bfl : List Nat) (ipos : Nat) (j : Nat) :
    inodesAt (mkdirD3 d p pi dn ifl bfl ipos) j
      = inodesAt (mkdirD2 d p pi ifl bfl) j := by
  rw [mkdirD3]
  by_cases h : pi.data.getD 0 0 = j
  · subst h
    by_cases hlen : pi.data.getD 0 0 < (mkdirD2 d p pi ifl bfl).length
    · rw [inodesAt_set_self _ _ _ hlen, insertEntryBLOCK_inodes]
      rfl
    · rw [List.set_eq_of_length_le (by omega)]
  · rw [inodesAt_set_ne _ _ _ _ h]

theorem inodeAt_mkdirD3 (d : Disk) (p : Nat) (pi : INODE) (dn : String)
    (ifl bfl : List Nat) (ipos : Nat) (i : Nat)
    (hpbr09 : pi.data.getD 0 0 = 0 ∨ 9 ≤ pi.data.getD 0 0) (hi : i < N_INODES) :
    inodeAt (mkdirD3 d p pi dn ifl bfl ipos) i
      = inodeAt (mkdirD2 d p pi ifl bfl) i := by
  rw [mkdirD3]
  refine inodeAt_set_ne _ _ _ _ ?_
  have h8 : INODES_PER_BLOCK = 8 := rfl
  have h64 : N_INODES = 64 := rfl
  rw [h8]
  rw [h64] at hi
  omega

theorem dirAt_mkdirD4_ne (d : Disk) (p : Nat) (pi : INODE) (dn : String)
    (ifl bfl : List Nat) (ipos bpos : Nat) (j : Nat) (h : bpos ≠ j) :
    dirAt (mkdirD4 d p pi dn ifl bfl ipos bpos) j
      = dirAt (mkdirD3 d p pi dn ifl bfl ipos) j := by
  rw [mkdirD4, dirAt_set_ne _ _ _ _ h]

theorem dirAt_mkdirD4_self (d : Disk) (p : Nat) (pi : INODE) (dn : String)
    (ifl bfl : List Nat) (ipos bpos : Nat) (hd : d.length = N_BLOCKS_IN_DISK)
    (hb : bpos < N_BLOCKS_IN_DISK) :
    dirAt (mkdirD4 d p pi dn ifl bfl ipos bpos) bpos
      = (mkdirChildBLOCK ipos p).directory := by
  rw [mkdirD4, dirAt_set_self _ _ _ (by rw [mkdirD3_length, hd]; exact hb)]

theorem inodesAt_mkdirD4_ne (d : Disk) (p : Nat) (pi : INODE) (dn : String)
    (ifl bfl : List Nat) (ipos bpos : Nat) (j : Nat) (h : bpos ≠ j) :
    inodesAt (mkdirD4 d p pi dn ifl bfl ipos bpos) j
      = inodesAt (mkdirD3 d p pi dn ifl bfl ipos) j := by
  rw [mkdirD4, inodesAt_set_ne _ _ _ _ h]

theorem inodesAt_mkdirD4_self (d : Disk) (p : Nat) (pi : INODE) (dn : String)
    (ifl bfl : List Nat) (ipos bpos : Nat) (hd : d.length = N_BLOCKS_IN_DISK)
    (hb : bpos < N_BLOCKS_IN_DISK) :
    inodesAt (mkdirD4 d p pi dn ifl bfl ipos bpos) bpos
      = List.replicate INODES_PER_BLOCK zeroINODE := by
  rw [mkdirD4, inodesAt_set_self _ _ _ (by rw [mkdirD3_length, hd]; exact hb)]
  rfl

theorem inodeAt_mkdirD4 (d : Disk) (p : Nat) (pi : INODE) (dn : String)
    (ifl bfl : List Nat) (ipos bpos : Nat) (i : Nat)
    (hbpos9 : 9 ≤ bpos) (hi : i < N_INODES) :
    inodeAt (mkdirD4 d p pi dn ifl bfl ipos bpos) i
      = inodeAt (mkdirD3 d p pi dn ifl bfl ipos) i := by
  rw [mkdirD4]
  refine inodeAt_set_ne _ _ _ _ ?_
  have h8 : INODES_PER_BLOCK = 8 := rfl
  have h64 : N_INODES = 64 := rfl
  rw [h8]
  rw [h64] at hi
  omega

theorem masterAt_mkdirD4 (d : Disk) (p : Nat) (pi : INODE) (dn : String)
    (ifl bfl : List Nat) (ipos bpos : Nat) (hbpos9 : 9 ≤ bpos) :
    ((mkdirD4 d p pi dn ifl bfl ipos bpos).getD 0 zeroBLOCK).master
      = ((mkdirD3 d p pi dn ifl bfl ipos).getD 0 zeroBLOCK).master := by
  rw [mkdirD4, getD_set_ne _ _ _ _ _ (by omega)]

theorem insertEntryBLOCK_dir_length (b : BLOCK) (dn : String) (r : Nat) :
    (insertEntryBLOCK b dn r).directory.length = b.directory.length := by
  rw [insertEntryBLOCK]
  cases b.directory.findIdx? (fun e => e.inode_reference = UNALLOCATED_INODE) with
  | none => rfl
  | some idx => exact List.length_set _ _ _

theorem removeEntryBLOCK_dir_length (b : BLOCK) (dn : String) :
    (removeEntryBLOCK b dn).directory.length = b.directory.length := by
  rw [removeEntryBLOCK]
  cases b.directory.findIdx? (fun e => e.name == dn) with
  | none => rfl
  | some idx => exact List.length_set _ _ _

theorem inodesAt_length_of_wf (d : Disk)
    (hwfi : ∀ b ∈ d, b.inodes.length = INODES_PER_BLOCK) (j : Nat) :
    (inodesAt d j).length = INODES_PER_BLOCK :=
  getD_forall (P := fun b => b.inodes.length = INODES_PER_BLOCK) d j zeroBLOCK hwfi
    (by simp [zeroBLOCK])

theorem dirAt_length_of_wf (d : Disk)
    (hwfd : ∀ b ∈ d, b.directory.length = DIRECTORY_ENTRIES_PER_BLOCK) (j : Nat) :
    (dirAt d j).length = DIRECTORY_ENTRIES_PER_BLOCK :=
  getD_forall (P := fun b => b.directory.length = DIRECTORY_ENTRIES_PER_BLOCK) d j
    zeroBLOCK hwfd (by simp [zeroBLOCK])

/-! ### Observers of the mkdir result disk -/

theorem iflagsOf_mkdirResultDisk (d : Disk) (p : Nat) (pi : INODE) (dn : String)
    (ifl bfl : List Nat) (ipos bpos : Nat)
    (hd : d.length = N_BLOCKS_IN_DISK) (hbpos9 : 9 ≤ bpos) :
    iflagsOf (mkdirResultDisk d p pi dn ifl bfl ipos bpos) = ifl := by
  have hbase := iflagsOf_mkdirD1 d ifl bfl (by rw [hd]; norm_num [N_BLOCKS_IN_DISK])
  rw [iflagsOf, diskMaster] at hbase ⊢
  rw [mkdirResultDisk_layers, masterAt_writeInodeRaw,
    masterAt_mkdirD4 d p pi dn ifl bfl ipos bpos hbpos9, masterAt_mkdirD3,
    mkdirD2, masterAt_writeInodeRaw]
  exact hbase

theorem bflagsOf_mkdirResultDisk (d : Disk) (p : Nat) (pi : INODE) (dn : String)
    (ifl bfl : List Nat) (ipos bpos : Nat)
    (hd : d.length = N_BLOCKS_IN_DISK) (hbpos9 : 9 ≤ bpos) :
    bflagsOf (mkdirResultDisk d p pi dn ifl bfl ipos bpos) = bfl := by
  have hbase := bflagsOf_mkdirD1 d ifl bfl (by rw [hd]; norm_num [N_BLOCKS_IN_DISK])
  rw [bflagsOf, diskMaster] at hbase ⊢
  rw [mkdirResultDisk_layers, masterAt_writeInodeRaw,
    masterAt_mkdirD4 d p pi dn ifl bfl ipos bpos hbpos9, masterAt_mkdirD3,
    mkdirD2, masterAt_writeInodeRaw]
  exact hbase

theorem inodeAt_mkdirResultDisk (d : Disk) (p : Nat) (pi : INODE) (dn : String)
    (ifl bfl : List Nat) (ipos bpos : Nat)
    (hd : d.length = N_BLOCKS_IN_DISK)
    (hwfi : ∀ b ∈ d, b.inodes.length = INODES_PER_BLOCK)
    (hipos : ipos < N_INODES)
    (hbpos9 : 9 ≤ bpos)
    (hpbr09 : pi.data.getD 0 0 = 0 ∨ 9 ≤ pi.data.getD 0 0)
    (hpT : p / INODES_PER_BLOCK + 1 < N_BLOCKS_IN_DISK) :
    ∀ i, i < N_INODES →
      inodeAt (mkdirResultDisk d p pi dn ifl bfl ipos bpos) i
        = if i = ipos then mkdirChildINODE bpos
          else if i = p then { pi with size := u32 (pi.size + 1) }
          else inodeAt d i := by
  intro i hi
  have h8 : INODES_PER_BLOCK = 8 := rfl
  have h64 : N_INODES = 64 := rfl
  have h128 : N_BLOCKS_IN_DISK = 128 := rfl
  have hiT : ipos / INODES_PER_BLOCK + 1 < N_BLOCKS_IN_DISK := by
    rw [h8, h128]
    rw [h64] at hipos
    omega
  have hiT8 : ipos / INODES_PER_BLOCK + 1 ≤ 8 := by
    rw [h8]
    rw [h64] at hipos
    omega
  have hd4len : (mkdirD4 d p pi dn ifl bfl ipos bpos).length = N_BLOCKS_IN_DISK := by
    rw [mkdirD4_length, hd]
  rw [mkdirResultDisk_layers]
  by_cases hip : i = ipos
  · subst hip
    rw [if_pos rfl]
    refine inodeAt_writeInodeRaw_self _ _ _ (by rw [hd4len]; exact hiT) hiT ?_
    rw [show ((mkdirD4 d p pi dn ifl bfl i bpos).getD
        (i / INODES_PER_BLOCK + 1) zeroBLOCK).inodes
        = inodesAt (mkdirD4 d p pi dn ifl bfl i bpos)
            (i / INODES_PER_BLOCK + 1) from rfl]
    rw [inodesAt_mkdirD4_ne _ _ _ _ _ _ _ _ _ (by omega)]
    rw [inodesAt_mkdirD3]
    rw [mkdirD2]
    by_cases hpt : p / INODES_PER_BLOCK + 1 = i / INODES_PER_BLOCK + 1
    · rw [← hpt]
      rw [inodesAt_writeInodeRaw_self _ _ _ (by
        rw [mkdirD1_length, hd]
        rw [hpt]
        exact hiT)]
      rw [List.length_set, inodesAt_mkdirD1]
      exact inodesAt_length_of_wf d hwfi _
    · rw [inodesAt_writeInodeRaw_ne _ _ _ _ hpt, inodesAt_mkdirD1]
      exact inodesAt_length_of_wf d hwfi _
  · rw [if_neg hip]
    rw [inodeAt_writeInodeRaw_ne _ _ _ _ hip (by rw [hd4len]; exact hiT)]
    rw [inodeAt_mkdirD4 d p pi dn ifl bfl ipos bpos i hbpos9 hi]
    rw [inodeAt_mkdirD3 d p pi dn ifl bfl ipos i hpbr09 hi]
    rw [mkdirD2]
    by_cases hp : i = p
    · subst hp
      rw [if_pos rfl]
      refine inodeAt_writeInodeRaw_self _ _ _ (by rw [mkdirD1_length, hd]; exact hpT)
        hpT ?_
      rw [show ((mkdirD1 d ifl bfl).getD (i / INODES_PER_BLOCK + 1) zeroBLOCK).inodes
          = inodesAt (mkdirD1 d ifl bfl) (i / INODES_PER_BLOCK + 1) from rfl]
      rw [inodesAt_mkdirD1]
      exact inodesAt_length_of_wf d hwfi _
    · rw [if_neg hp]
      rw [inodeAt_writeInodeRaw_ne _ _ _ _ hp (by rw [mkdirD1_length, hd]; exact hpT)]
      exact inodeAt_mkdirD1 d ifl bfl i

theorem dirAt_mkdirResultDisk_ne (d : Disk) (p : Nat) (pi : INODE) (dn : String)
    (ifl bfl : List Nat) (ipos bpos : Nat) (j : Nat)
    (hj1 : j ≠ pi.data.getD 0 0) (hj2 : j ≠ bpos) :
    dirAt (mkdirResultDisk d p pi dn ifl bfl ipos bpos) j = dirAt d j := by
  rw [mkdirResultDisk_layers, dirAt_writeInodeRaw,
    dirAt_mkdirD4_ne _ _ _ _ _ _ _ _ _ (Ne.symm hj2),
    dirAt_mkdirD3_ne _ _ _ _ _ _ _ _ (Ne.symm hj1),
    mkdirD2, dirAt_writeInodeRaw, dirAt_mkdirD1]

theorem dirAt_mkdirResultDisk_bpos (d : Disk) (p : Nat) (pi : INODE) (dn : String)
    (ifl bfl : List Nat) (ipos bpos : Nat)
    (hd : d.length = N_BLOCKS_IN_DISK) (hb128 : bpos < N_BLOCKS_IN_DISK) :
    dirAt (mkdirResultDisk d p pi dn ifl bfl ipos bpos) bpos
      = (mkdirChildBLOCK ipos p).directory := by
  rw [mkdirResultDisk_layers, dirAt_writeInodeRaw,
    dirAt_mkdirD4_self d p pi dn ifl bfl ipos bpos hd hb128]

theorem dirAt_mkdirResultDisk_pbr (d : Disk) (p : Nat) (pi : INODE) (dn : String)
    (ifl bfl : List Nat) (ipos bpos : Nat)
    (hd : d.length = N_BLOCKS_IN_DISK)
    (hpbr0 : pi.data.getD 0 0 ≠ 0)
    (hpbrb : pi.data.getD 0 0 ≠ bpos)
    (hpbr128 : pi.data.getD 0 0 < N_BLOCKS_IN_DISK)
    (hpbrpT : pi.data.getD 0 0 ≠ p / INODES_PER_BLOCK + 1) :
    dirAt (mkdirResultDisk d p pi dn ifl bfl ipos bpos) (pi.data.getD 0 0)
      = (insertEntryBLOCK (d.getD (pi.data.getD 0 0) zeroBLOCK) dn ipos).directory := by
  have hblk : (mkdirD2 d p pi ifl bfl).getD (pi.data.getD 0 0) zeroBLOCK
      = d.getD (pi.data.getD 0 0) zeroBLOCK := by
    rw [mkdirD2, writeInodeRaw,
      getD_set_ne _ _ _ _ _ (Ne.symm hpbrpT),
      mkdirD1, getD_set_ne _ _ _ _ _ (fun hh => hpbr0 hh.symm)]
  rw [mkdirResultDisk_layers, dirAt_writeInodeRaw,
    dirAt_mkdirD4_ne _ _ _ _ _ _ _ _ _ (Ne.symm hpbrb),
    mkdirD3, dirAt_set_self _ _ _ (by rw [mkdirD2_length, hd]; exact hpbr128),
    hblk]

theorem dirAt_mkdirResultDisk_zero (d : Disk) (p : Nat) (pi : INODE) (dn : String)
    (ifl bfl : List Nat) (ipos bpos : Nat)
    (hd : d.length = N_BLOCKS_IN_DISK)
    (hblk0 : dirAt d 0 = List.replicate DIRECTORY_ENTRIES_PER_BLOCK zeroENTRY)
    (hpbr0 : pi.data.getD 0 0 = 0) (hbpos9 : 9 ≤ bpos) :
    dirAt (mkdirResultDisk d p pi dn ifl bfl ipos bpos) 0 = dirAt d 0 := by
  have hd2dir : ((mkdirD2 d p pi ifl bfl).getD 0 zeroBLOCK).directory = dirAt d 0 := by
    rw [show ((mkdirD2 d p pi ifl bfl).getD 0 zeroBLOCK).directory
        = dirAt (mkdirD2 d p pi ifl bfl) 0 from rfl]
    rw [mkdirD2, dirAt_writeInodeRaw, dirAt_mkdirD1]
  rw [mkdirResultDisk_layers, dirAt_writeInodeRaw,
    dirAt_mkdirD4_ne _ _ _ _ _ _ _ _ _ (by omega),
    mkdirD3, hpbr0,
    dirAt_set_self _ _ _ (by rw [mkdirD2_length, hd]; norm_num [N_BLOCKS_IN_DISK]),
    insertEntryBLOCK_zerodir _ _ _ (by rw [hd2dir, hblk0])]
  exact hd2dir

theorem inodesAt_mkdirResultDisk_ne (d : Disk) (p : Nat) (pi : INODE) (dn : String)
    (ifl bfl : List Nat) (ipos bpos : Nat) (j : Nat)
    (hipos : ipos < N_INODES) (h9 : 9 ≤ j) (hjb : j ≠ bpos)
    (hjpT : j ≠ p / INODES_PER_BLOCK + 1) :
    inodesAt (mkdirResultDisk d p pi dn ifl bfl ipos bpos) j = inodesAt d j := by
  have h8 : INODES_PER_BLOCK = 8 := rfl
  have h64 : N_INODES = 64 := rfl
  rw [mkdirResultDisk_layers,
    inodesAt_writeInodeRaw_ne _ _ _ _ (by rw [h8]; rw [h64] at hipos; omega),
    inodesAt_mkdirD4_ne _ _ _ _ _ _ _ _ _ (Ne.symm hjb),
    inodesAt_mkdirD3, mkdirD2,
    inodesAt_writeInodeRaw_ne _ _ _ _ (Ne.symm hjpT),
    inodesAt_mkdirD1]

theorem inodesAt_mkdirResultDisk_bpos (d : Disk) (p : Nat) (pi : INODE) (dn : String)
    (ifl bfl : List Nat) (ipos bpos : Nat)
    (hd : d.length = N_BLOCKS_IN_DISK) (hipos : ipos < N_INODES)
    (hbpos9 : 9 ≤ bpos) (hb128 : bpos < N_BLOCKS_IN_DISK) :
    inodesAt (mkdirResultDisk d p pi dn ifl bfl ipos bpos) bpos
      = List.replicate INODES_PER_BLOCK zeroINODE := by
  have h8 : INODES_PER_BLOCK = 8 := rfl
  have h64 : N_INODES = 64 := rfl
  rw [mkdirResultDisk_layers,
    inodesAt_writeInodeRaw_ne _ _ _ _ (by rw [h8]; rw [h64] at hipos; omega),
    inodesAt_mkdirD4_self d p pi dn ifl bfl ipos bpos hd hb128]

theorem inodesAt_mkdirResultDisk_pT (d : Disk) (p : Nat) (pi : INODE) (dn : String)
    (ifl bfl : List Nat) (ipos bpos : Nat)
    (hd : d.length = N_BLOCKS_IN_DISK) (hipos : ipos < N_INODES)
    (h9 : 9 ≤ p / INODES_PER_BLOCK + 1)
    (hpTb : p / INODES_PER_BLOCK + 1 ≠ bpos)
    (hpT : p / INODES_PER_BLOCK + 1 < N_BLOCKS_IN_DISK) :
    inodesAt (mkdirResultDisk d p pi dn ifl bfl ipos bpos)
        (p / INODES_PER_BLOCK + 1)
      = (inodesAt d (p / INODES_PER_BLOCK + 1)).set (p % INODES_PER_BLOCK)
          { pi with size := u32 (pi.size + 1) } := by
  have h8 : INODES_PER_BLOCK = 8 := rfl
  have h64 : N_INODES = 64 := rfl
  rw [mkdirResultDisk_layers,
    inodesAt_writeInodeRaw_ne _ _ _ _ (by
      rw [h8]
      rw [h64] at hipos
      rw [h8] at h9
      omega),
    inodesAt_mkdirD4_ne _ _ _ _ _ _ _ _ _ (Ne.symm hpTb),
    inodesAt_mkdirD3, mkdirD2,
    inodesAt_writeInodeRaw_self _ _ _ (by rw [mkdirD1_length, hd]; exact hpT),
    inodesAt_mkdirD1]

theorem wf_mkdirResultDisk (d : Disk) (p : Nat) (pi : INODE) (dn : String)
    (ifl bfl : List Nat) (ipos bpos : Nat)
    (hwfi : ∀ b ∈ d, b.inodes.length = INODES_PER_BLOCK)
    (hwfd : ∀ b ∈ d, b.directory.length = DIRECTORY_ENTRIES_PER_BLOCK) :
    ∀ b ∈ mkdirResultDisk d p pi dn ifl bfl ipos bpos,
      b.inodes.length = INODES_PER_BLOCK ∧
      b.directory.length = DIRECTORY_ENTRIES_PER_BLOCK := by
  have hPz : zeroBLOCK.inodes.length = INODES_PER_BLOCK ∧
      zeroBLOCK.directory.length = DIRECTORY_ENTRIES_PER_BLOCK := by
    constructor <;> simp [zeroBLOCK]
  have hP : ∀ b ∈ d, b.inodes.length = INODES_PER_BLOCK ∧
      b.directory.length = DIRECTORY_ENTRIES_PER_BLOCK :=
    fun b hb => ⟨hwfi b hb, hwfd b hb⟩
  have hP1 : ∀ b ∈ mkdirD1 d ifl bfl, b.inodes.length = INODES_PER_BLOCK ∧
      b.directory.length = DIRECTORY_ENTRIES_PER_BLOCK := by
    rw [mkdirD1]
    exact mem_set_forall _ _ _ hP
      ⟨(getD_forall d 0 zeroBLOCK hP hPz).1, (getD_forall d 0 zeroBLOCK hP hPz).2⟩
  have hP2 : ∀ b ∈ mkdirD2 d p pi ifl bfl, b.inodes.length = INODES_PER_BLOCK ∧
      b.directory.length = DIRECTORY_ENTRIES_PER_BLOCK := by
    rw [mkdirD2, writeInodeRaw]
    refine mem_set_forall _ _ _ hP1 ⟨?_, ?_⟩
    · rw [List.length_set]
      exact (getD_forall _ _ zeroBLOCK hP1 hPz).1
    · exact (getD_forall _ _ zeroBLOCK hP1 hPz).2
  have hP3 : ∀ b ∈ mkdirD3 d p pi dn ifl bfl ipos,
      b.inodes.length = INODES_PER_BLOCK ∧
      b.directory.length = DIRECTORY_ENTRIES_PER_BLOCK := by
    rw [mkdirD3]
    refine mem_set_forall _ _ _ hP2 ⟨?_, ?_⟩
    · rw [insertEntryBLOCK_inodes]
      exact (getD_forall _ _ zeroBLOCK hP2 hPz).1
    · rw [insertEntryBLOCK_dir_length]
      exact (getD_forall _ _ zeroBLOCK hP2 hPz).2
  have hP4 : ∀ b ∈ mkdirD4 d p pi dn ifl bfl ipos bpos,
      b.inodes.length = INODES_PER_BLOCK ∧
      b.directory.length = DIRECTORY_ENTRIES_PER_BLOCK := by
    rw [mkdirD4]
    refine mem_set_forall _ _ _ hP3 ⟨?_, ?_⟩
    · simp [mkdirChildBLOCK, zeroBLOCK]
    · simp [mkdirChildBLOCK, DIRECTORY_ENTRIES_PER_BLOCK]
  rw [mkdirResultDisk_layers, writeInodeRaw]
  refine mem_set_forall _ _ _ hP4 ⟨?_, ?_⟩
  · rw [List.length_set]
    exact (getD_forall _ _ zeroBLOCK hP4 hPz).1
  · exact (getD_forall _ _ zeroBLOCK hP4 hPz).2

/-- The disk invariant is preserved along the success path of `oufs_mkdir`:
allocating a fresh inode/block pair for a new directory under any parent the
resolver can produce keeps both bitmaps in agreement with the inode table
and keeps the directory-block structure well formed. -/
theorem DiskInv_mkdirResultDisk (d : Disk) (p : Nat) (pi : INODE) (dn : String)
    (ifl bfl : List Nat) (ipos bpos : Nat)
    (hInv : DiskInv d)
    (hpieq : pi = inodeAt d p)
    (hpT : p / INODES_PER_BLOCK + 1 < N_BLOCKS_IN_DISK)
    (hipos : ipos < N_INODES)
    (hiposbit : bitmapGet (iflagsOf d) ipos = false)
    (hifl : ifl = (iflagsOf d).set (ipos / 8)
        (oufs_flip_bit ((iflagsOf d).getD (ipos / 8) 0) (ipos % 8)))
    (hbposbit : bitmapGet (bflagsOf d) bpos = false)
    (hbfl : bfl = (bflagsOf d).set (bpos / 8)
        (oufs_flip_bit ((bflagsOf d).getD (bpos / 8) 0) (bpos % 8)))
    (hbpos128 : bpos < N_BLOCKS_IN_DISK) :
    DiskInv (mkdirResultDisk d p pi dn ifl bfl ipos bpos) := by
  have h8 : INODES_PER_BLOCK = 8 := rfl
  have h64 : N_INODES = 64 := rfl
  have h128 : N_BLOCKS_IN_DISK = 128 := rfl
  have h9R : ROOT_DIRECTORY_BLOCK = 9 := rfl
  have h16 : DIRECTORY_ENTRIES_PER_BLOCK = 16 := rfl
  have hp1016 : p < 1016 := by
    rw [h8, h128] at hpT
    omega
  have hiposNONE : (inodeAt d ipos).itype = .IT_NONE := by
    by_contra hcon
    have hbit := (hInv.K1 ipos hipos).mpr hcon
    rw [hiposbit] at hbit
    simp at hbit
  have hipos0 : ipos ≠ 0 := by
    intro h0
    rw [h0] at hiposNONE
    rw [hInv.rootType] at hiposNONE
    simp at hiposNONE
  have hbpos10 : 10 ≤ bpos := by
    by_contra hcon
    have hbit := (hInv.K2 bpos hbpos128).mpr (Or.inl (by rw [h9R]; omega))
    rw [hbposbit] at hbit
    simp at hbit
  have hbpos9 : 9 ≤ bpos := by omega
  have hbposFree : ∀ i, i < N_INODES → (inodeAt d i).itype ≠ .IT_NONE →
      inodeData0 d i ≠ bpos := by
    intro i hi ht hcon
    have hbit := (hInv.K2 bpos hbpos128).mpr (Or.inr ⟨i, hi, ht, hcon⟩)
    rw [hbposbit] at hbit
    simp at hbit
  have hpbr_eq : pi.data.getD 0 0 = inodeData0 d p := by
    rw [hpieq, inodeData0_eq]
  have hpbrC := inv_data0_cases hInv p
  have hpbr09 : pi.data.getD 0 0 = 0 ∨ 9 ≤ pi.data.getD 0 0 := by
    rcases hpbrC with h0 | ⟨hp64, hpalloc⟩
    · exact Or.inl (by rw [hpbr_eq, h0])
    · rcases inv_data0_live hInv hp64 hpalloc with ⟨-, hv⟩ | ⟨-, hv, -⟩
      · exact Or.inr (by rw [hpbr_eq, hv])
      · exact Or.inr (by rw [hpbr_eq]; omega)
  have hpbr128 : pi.data.getD 0 0 < N_BLOCKS_IN_DISK := by
    rw [hpbr_eq]
    exact inv_data0_lt hInv p
  have hpbrpT : pi.data.getD 0 0 ≠ p / INODES_PER_BLOCK + 1 := by
    rcases hpbrC with h0 | ⟨hp64, hpalloc⟩
    · rw [hpbr_eq, h0, h8]
      omega
    · rcases hpbr09 with h0 | h9
      · rw [h0, h8]
        omega
      · rw [h8]
        rw [h64] at hp64
        omega
  have hpbrb : pi.data.getD 0 0 ≠ bpos := by
    rcases hpbrC with h0 | ⟨hp64, hpalloc⟩
    · rw [hpbr_eq, h0]
      omega
    · rw [hpbr_eq]
      exact hbposFree p hp64 hpalloc
  have hIFL := iflagsOf_mkdirResultDisk d p pi dn ifl bfl ipos bpos hInv.len hbpos9
  have hBFL := bflagsOf_mkdirResultDisk d p pi dn ifl bfl ipos bpos hInv.len hbpos9
  have hIA := inodeAt_mkdirResultDisk d p pi dn ifl bfl ipos bpos hInv.len hInv.wfi
    hipos hbpos9 hpbr09 hpT
  have hbitI : ∀ m, bitmapGet ifl m
      = if m = ipos then true else bitmapGet (iflagsOf d) m := by
    intro m
    rw [hifl, bitmapGet_set_flip _ _ (by
      rw [hInv.wfiF]
      rw [h64] at hipos
      rw [show N_INODES / 8 = 8 from rfl]
      omega) m]
    by_cases hm : m = ipos
    · rw [if_pos hm, if_pos hm, hiposbit]
      rfl
    · rw [if_neg hm, if_neg hm]
  have hbitB : ∀ m, bitmapGet bfl m
      = if m = bpos then true else bitmapGet (bflagsOf d) m := by
    intro m
    rw [hbfl, bitmapGet_set_flip _ _ (by
      rw [hInv.wfbF]
      rw [h128] at hbpos128
      rw [show N_BLOCKS_IN_DISK / 8 = 16 from rfl]
      omega) m]
    by_cases hm : m = bpos
    · rw [if_pos hm, if_pos hm, hbposbit]
      rfl
    · rw [if_neg hm, if_neg hm]
  have hD0 : ∀ i, i < N_INODES → inodeData0 (mkdirResultDisk d p pi dn ifl bfl ipos bpos) i
      = if i = ipos then bpos else if i = p then inodeData0 d p else inodeData0 d i := by
    intro i hi
    rw [inodeData0_eq, hIA i hi]
    by_cases hip : i = ipos
    · rw [if_pos hip, if_pos hip]
      rfl
    · rw [if_neg hip, if_neg hip]
      by_cases hp : i = p
      · rw [if_pos hp, if_pos hp]
        exact hpbr_eq
      · rw [if_neg hp, if_neg hp, inodeData0_eq]
  have hTY : ∀ i, i < N_INODES → (inodeAt (mkdirResultDisk d p pi dn ifl bfl ipos bpos) i).itype
      = if i = ipos then INODE_TYPE.IT_DIRECTORY else (inodeAt d i).itype := by
    intro i hi
    rw [hIA i hi]
    by_cases hip : i = ipos
    · rw [if_pos hip, if_pos hip]
      rfl
    · rw [if_neg hip, if_neg hip]
      by_cases hp : i = p
      · rw [if_pos hp]
        rw [show ({ pi with size := u32 (pi.size + 1) } : INODE).itype = pi.itype from rfl]
        rw [hpieq, hp]
      · rw [if_neg hp]
  refine ⟨?_, ?_, ?_, ?_, ?_, ?_, ?_, ?_, ?_, ?_, ?_, ?_, ?_, ?_, ?_, ?_, ?_, ?_⟩
  · rw [mkdirResultDisk_length, hInv.len]
  · exact fun b hb =>
      (wf_mkdirResultDisk d p pi dn ifl bfl ipos bpos hInv.wfi hInv.wfd b hb).1
  · exact fun b hb =>
      (wf_mkdirResultDisk d p pi dn ifl bfl ipos bpos hInv.wfi hInv.wfd b hb).2
  · rw [hIFL, hifl, List.length_set, hInv.wfiF]
  · rw [hBFL, hbfl, List.length_set, hInv.wfbF]
  · rw [hIFL, hifl]
    refine mem_set_forall _ _ _ hInv.bytesI ?_
    rw [oufs_flip_bit]
    exact xor_lt_256
      (getD_forall (P := fun x => x < 256) _ _ _ hInv.bytesI (by norm_num))
      (shiftLeft_one_lt_256 (Nat.mod_lt _ (by norm_num)))
  · rw [hBFL, hbfl]
    refine mem_set_forall _ _ _ hInv.bytesB ?_
    rw [oufs_flip_bit]
    exact xor_lt_256
      (getD_forall (P := fun x => x < 256) _ _ _ hInv.bytesB (by norm_num))
      (shiftLeft_one_lt_256 (Nat.mod_lt _ (by norm_num)))
  · have h0 := hTY 0 (by rw [h64]; omega)
    rw [if_neg (fun hh => hipos0 hh.symm)] at h0
    rw [h0]
    exact hInv.rootType
  · have h0 := hD0 0 (by rw [h64]; omega)
    rw [if_neg (fun hh => hipos0 hh.symm)] at h0
    by_cases h0p : (0 : Nat) = p
    · rw [if_pos h0p] at h0
      rw [h0, ← h0p]
      exact hInv.rootData
    · rw [if_neg h0p] at h0
      rw [h0]
      exact hInv.rootData
  · intro m hm
    rw [hIFL, hbitI m]
    by_cases hmi : m = ipos
    · rw [if_pos hmi, hTY m hm, if_pos hmi]
      simp
    · rw [if_neg hmi, hTY m hm, if_neg hmi]
      exact hInv.K1 m hm
  · intro m hm
    rw [hTY m hm]
    by_cases hmi : m = ipos
    · rw [if_pos hmi]
      simp
    · rw [if_neg hmi]
      exact hInv.noFile m hm
  · intro j hj
    rw [hBFL, hbitB j]
    by_cases hjb : j = bpos
    · subst hjb
      rw [if_pos rfl]
      refine iff_of_true rfl (Or.inr ⟨ipos, hipos, ?_, ?_⟩)
      · rw [hTY ipos hipos, if_pos rfl]
        simp
      · rw [hD0 ipos hipos, if_pos rfl]
    · rw [if_neg hjb, hInv.K2 j hj]
      constructor
      · intro h
        rcases h with h | ⟨i, hi, ht, hd0⟩
        · exact Or.inl h
        · have hii : i ≠ ipos := by
            intro hcon
            rw [hcon] at ht
            exact ht hiposNONE
          refine Or.inr ⟨i, hi, ?_, ?_⟩
          · rw [hTY i hi, if_neg hii]
            exact ht
          · rw [hD0 i hi, if_neg hii]
            by_cases hip2 : i = p
            · rw [if_pos hip2, ← hip2]
              exact hd0
            · rw [if_neg hip2]
              exact hd0
      · intro h
        rcases h with h | ⟨i, hi, ht, hd0⟩
        · exact Or.inl h
        · rw [hTY i hi] at ht
          rw [hD0 i hi] at hd0
          by_cases hii : i = ipos
          · rw [if_pos hii] at hd0
            exact absurd hd0.symm hjb
          · rw [if_neg hii] at ht hd0
            by_cases hip2 : i = p
            · rw [if_pos hip2] at hd0
              rw [hip2] at ht hi
              exact Or.inr ⟨p, hi, ht, hd0⟩
            · rw [if_neg hip2] at hd0
              exact Or.inr ⟨i, hi, ht, hd0⟩
  · intro i hi hi0 ht
    rw [hTY i hi] at ht
    rw [hD0 i hi]
    by_cases hii : i = ipos
    · rw [if_pos hii]
      exact ⟨hbpos10, hbpos128⟩
    · rw [if_neg hii] at ht
      rw [if_neg hii]
      by_cases hip2 : i = p
      · rw [if_pos hip2]
        rw [hip2] at ht hi hi0
        exact hInv.dataHi p hi hi0 ht
      · rw [if_neg hip2]
        exact hInv.dataHi i hi hi0 ht
  · intro i1 hi1 i2 hi2 ht1 ht2 hne
    rw [hTY i1 hi1] at ht1
    rw [hTY i2 hi2] at ht2
    rw [hD0 i1 hi1, hD0 i2 hi2]
    have hval : ∀ i, i < N_INODES → i ≠ ipos →
        (inodeAt d i).itype ≠ .IT_NONE →
        (if i = p then inodeData0 d p else inodeData0 d i) = inodeData0 d i ∧
        (inodeAt d i).itype ≠ .IT_NONE := by
      intro i hii hine htt
      refine ⟨?_, htt⟩
      by_cases hip2 : i = p
      · rw [if_pos hip2, hip2]
      · rw [if_neg hip2]
    by_cases h1i : i1 = ipos
    · rw [if_pos h1i]
      have h2i : i2 ≠ ipos := by
        intro hcon
        rw [hcon, ← h1i] at hne
        exact hne rfl
      rw [if_neg h2i] at ht2 ⊢
      obtain ⟨hv2, ht2'⟩ := hval i2 hi2 h2i ht2
      rw [hv2]
      exact fun hcon => hbposFree i2 hi2 ht2' hcon.symm
    · rw [if_neg h1i] at ht1 ⊢
      obtain ⟨hv1, ht1'⟩ := hval i1 hi1 h1i ht1
      rw [hv1]
      by_cases h2i : i2 = ipos
      · rw [if_pos h2i]
        exact hbposFree i1 hi1 ht1'
      · rw [if_neg h2i] at ht2 ⊢
        obtain ⟨hv2, ht2'⟩ := hval i2 hi2 h2i ht2
        rw [hv2]
        exact hInv.dataInj i1 hi1 i2 hi2 ht1' ht2' hne
  · intro i hi ht
    rw [hTY i hi] at ht
    by_cases hii : i = ipos
    · rw [if_pos hii] at ht
      simp at ht
    · rw [if_neg hii] at ht
      rw [hD0 i hi, if_neg hii]
      by_cases hip2 : i = p
      · rw [if_pos hip2]
        rw [hip2] at ht hi
        exact hInv.noneD0 p hi ht
      · rw [if_neg hip2]
        exact hInv.noneD0 i hi ht
  · intro j hj h9j v hv
    by_cases hjb : j = bpos
    · subst hjb
      rw [inodesAt_mkdirResultDisk_bpos d p pi dn ifl bfl ipos j hInv.len hipos
        hbpos9 hj] at hv
      have hvz : v = zeroINODE := List.eq_of_mem_replicate hv
      rw [hvz]
      constructor
      · rfl
      · rfl
    · by_cases hjpT : j = p / INODES_PER_BLOCK + 1
      · subst hjpT
        rw [inodesAt_mkdirResultDisk_pT d p pi dn ifl bfl ipos bpos hInv.len hipos
          h9j hjb hj] at hv
        rcases List.mem_or_eq_of_mem_set hv with hv1 | hv1
        · exact hInv.nonTable _ hj h9j v hv1
        · have hp64 : N_INODES ≤ p := by
            rw [h8] at h9j
            rw [h64]
            omega
          obtain ⟨htb, hdb⟩ := inv_inodeAt_big hInv hp64 hpT
          rw [hv1]
          constructor
          · rw [show ({ pi with size := u32 (pi.size + 1) } : INODE).itype
                = pi.itype from rfl, hpieq]
            exact htb
          · rw [show ({ pi with size := u32 (pi.size + 1) } : INODE).data
                = pi.data from rfl, hpbr_eq]
            exact hdb
      · rw [inodesAt_mkdirResultDisk_ne d p pi dn ifl bfl ipos bpos j hipos h9j hjb
          hjpT] at hv
        exact hInv.nonTable j hj h9j v hv
  · by_cases hpbr0 : pi.data.getD 0 0 = 0
    · rw [show dirAt (mkdirResultDisk d p pi dn ifl bfl ipos bpos) 0
          = dirAt (mkdirResultDisk d p pi dn ifl bfl ipos bpos) 0 from rfl,
        dirAt_mkdirResultDisk_zero d p pi dn ifl bfl ipos bpos hInv.len hInv.blk0dir
          hpbr0 hbpos9]
      exact hInv.blk0dir
    · rw [dirAt_mkdirResultDisk_ne d p pi dn ifl bfl ipos bpos 0
        (fun hh => hpbr0 hh.symm) (by omega)]
      exact hInv.blk0dir
  · intro i hi ht
    rw [hTY i hi] at ht
    have hd0i := hD0 i hi
    by_cases hii : i = ipos
    · subst hii
      rw [hd0i, if_pos rfl,
        dirAt_mkdirResultDisk_bpos d p pi dn ifl bfl i bpos hInv.len hbpos128]
      refine entriesOK_childBLOCK i p ?_ ?_
      · rw [h64] at hi
        norm_num [UNALLOCATED_INODE]
        omega
      · norm_num [UNALLOCATED_INODE]
        omega
    · rw [if_neg hii] at ht
      rw [hd0i, if_neg hii]
      have hval : (if i = p then inodeData0 d p else inodeData0 d i)
          = inodeData0 d i := by
        by_cases hip2 : i = p
        · rw [if_pos hip2, hip2]
        · rw [if_neg hip2]
      rw [hval]
      have hBb : inodeData0 d i ≠ bpos := hbposFree i hi ht
      by_cases hBpbr : inodeData0 d i = pi.data.getD 0 0
      · have hB9 : 9 ≤ inodeData0 d i := by
          rcases inv_data0_live hInv hi ht with ⟨-, hv⟩ | ⟨-, hv, -⟩
          · omega
          · omega
        have hpalloc : p < N_INODES ∧ (inodeAt d p).itype ≠ .IT_NONE := by
          rcases hpbrC with h0 | hok
          · rw [hpbr_eq, h0] at hBpbr
            omega
          · exact hok
        have hip2 : i = p := by
          by_contra hcon
          have := hInv.dataInj i hi p hpalloc.1 ht hpalloc.2 hcon
          rw [hpbr_eq] at hBpbr
          exact this hBpbr
        have hOld := hInv.live i hi ht
        rw [hBpbr,
          dirAt_mkdirResultDisk_pbr d p pi dn ifl bfl ipos bpos hInv.len
            (by omega) hpbrb hpbr128 hpbrpT]
        have hbd : (d.getD (pi.data.getD 0 0) zeroBLOCK).directory
            = dirAt d (inodeData0 d i) := by
          rw [hBpbr]
          rfl
        rcases insertEntryBLOCK_directory_spec (d.getD (pi.data.getD 0 0) zeroBLOCK)
            dn ipos
            (by rw [hbd]; exact hOld.2.1)
            (by rw [hbd]; exact hOld.2.2.2.1) with hcase | ⟨idx, hidx2, hidxlt, hcase⟩
        · rw [hcase, hbd]
          exact hOld
        · rw [hcase]
          have hOld' : entriesOK ((d.getD (pi.data.getD 0 0) zeroBLOCK).directory) i := by
            rw [hbd]
            exact hOld
          refine entriesOK_set_alloc hOld' hidx2 hidxlt hipos0 ?_ ?_
          · intro hcon
            rw [hcon, hip2] at hiposNONE
            exact hpalloc.2 hiposNONE
          · rw [h64] at hipos
            norm_num [UNALLOCATED_INODE]
            omega
      · rw [dirAt_mkdirResultDisk_ne d p pi dn ifl bfl ipos bpos _ hBpbr hBb]
        exact hInv.live i hi ht

/-- Every `oufs_mkdir` call that returns 0 preserves the disk invariant. -/
theorem DiskInv_mkdir (d : Disk) (cwd path : String) (hInv : DiskInv d)
    (h : (oufs_mkdir d cwd path).ret = 0) :
    DiskInv (oufs_mkdir d cwd path).disk := by
  obtain ⟨gp, p, pi, ifl, ipos, bfl, bpos, hF, hname, hpi, hsize, hbi, hbb⟩ :=
    oufs_mkdir_ret0_inv d cwd path h
  obtain ⟨hpieq, hpT⟩ := read_some_inodeAt hpi
  obtain ⟨hiposlt, hiposbit, hifl⟩ :=
    oufs_find_bit_positions_inv (Or.inl rfl)
      (by rw [if_pos rfl]; exact hInv.wfiF) hbi
  obtain ⟨hbposlt, hbposbit, hbfl⟩ :=
    oufs_find_bit_positions_inv (Or.inr rfl)
      (by rw [if_neg (by decide)]; exact hInv.wfbF) hbb
  rw [show (diskMaster d).inode_allocated_flag = iflagsOf d from rfl]
    at hiposlt hiposbit hifl
  rw [show (diskMaster d).block_allocated_flag = bflagsOf d from rfl]
    at hbposlt hbposbit hbfl
  have hipos64 : ipos < N_INODES := by
    rw [hInv.wfiF] at hiposlt
    rw [show 8 * (N_INODES / 8) = N_INODES from rfl] at hiposlt
    exact hiposlt
  have hbpos128 : bpos < N_BLOCKS_IN_DISK := by
    rw [hInv.wfbF] at hbposlt
    rw [show 8 * (N_BLOCKS_IN_DISK / 8) = N_BLOCKS_IN_DISK from rfl] at hbposlt
    exact hbposlt
  have hpbr : pi.data.getD 0 0 < N_BLOCKS_IN_DISK := by
    rw [hpieq]
    rw [show (inodeAt d p).data.getD 0 0 = inodeData0 d p from rfl]
    exact inv_data0_lt hInv p
  have hd' := oufs_mkdir_success_eq d cwd path gp p pi ifl bfl ipos bpos hF hname
    hpi hsize hbi hbb hpbr
  rw [hd']
  exact DiskInv_mkdirResultDisk d p pi (cBasename path) ifl bfl ipos bpos hInv
    hpieq hpT hipos64 hiposbit hifl hbposbit hbfl hbpos128

/-! ### The write layers of the rmdir success path -/

/-- Layer 1 of `rmdirResultDisk`: the parent inode size decrement. -/
def rmdirD1 (d : Disk) (p : Nat) (pi : INODE) : Disk :=
  writeInodeRaw d p { pi with size := u32 (pi.size + 4294967295) }

/-- Layer 2: the entry removal in the parent's directory block. -/
def rmdirD2 (d : Disk) (p : Nat) (pi : INODE) (dn : String) : Disk :=
  (rmdirD1 d p pi).set (pi.data.getD 0 0)
    (removeEntryBLOCK ((rmdirD1 d p pi).getD (pi.data.getD 0 0) zeroBLOCK) dn)

/-- Layer 3: the child inode zeroing. -/
def rmdirD3 (d : Disk) (p : Nat) (pi : INODE) (dn : String) (c : Nat) : Disk :=
  writeInodeRaw (rmdirD2 d p pi dn) c zeroINODE

/-- Layer 4: the child directory block zeroing. -/
def rmdirD4 (d : Disk) (p : Nat) (pi : INODE) (dn : String) (c cbr : Nat) : Disk :=
  (rmdirD3 d p pi dn c).set cbr zeroBLOCK

theorem rmdirResultDisk_layers (d : Disk) (p c : Nat) (pi ci : INODE) (dn : String) :
    rmdirResultDisk d p c pi ci dn
      = (rmdirD4 d p pi dn c (ci.data.getD 0 0)).set 0
          (clearBitsBLOCK
            ((rmdirD4 d p pi dn c (ci.data.getD 0 0)).getD 0 zeroBLOCK) c
            (ci.data.getD 0 0)) := rfl

theorem rmdirD1_length (d : Disk) (p : Nat) (pi : INODE) :
    (rmdirD1 d p pi).length = d.length := by
  rw [rmdirD1, length_writeInodeRaw]

theorem rmdirD2_length (d : Disk) (p : Nat) (pi : INODE) (dn : String) :
    (rmdirD2 d p pi dn).length = d.length := by
  rw [rmdirD2, List.length_set, rmdirD1_length]

theorem rmdirD3_length (d : Disk) (p : Nat) (pi : INODE) (dn : String) (c : Nat) :
    (rmdirD3 d p pi dn c).length = d.length := by
  rw [rmdirD3, length_writeInodeRaw, rmdirD2_length]

theorem rmdirD4_length (d : Disk) (p : Nat) (pi : INODE) (dn : String) (c cbr : Nat) :
    (rmdirD4 d p pi dn c cbr).length = d.length := by
  rw [rmdirD4, List.length_set, rmdirD3_length]

theorem rmdirResultDisk_length (d : Disk) (p c : Nat) (pi ci : INODE) (dn : String) :
    (rmdirResultDisk d p c pi ci dn).length = d.length := by
  rw [rmdirResultDisk_layers, List.length_set, rmdirD4_length]

/-- Block 0 is untouched by the first four rmdir layers. -/
theorem rmdirD4_blk0 (d : Disk) (p : Nat) (pi : INODE) (dn : String) (c cbr : Nat)
    (hpbr0 : pi.data.getD 0 0 ≠ 0) (hcbr0 : cbr ≠ 0) :
    (rmdirD4 d p pi dn c cbr).getD 0 zeroBLOCK = d.getD 0 zeroBLOCK := by
  rw [rmdirD4, getD_set_ne _ _ _ _ _ hcbr0,
    rmdirD3, writeInodeRaw, getD_set_ne _ _ _ _ _ (Nat.succ_ne_zero _),
    rmdirD2, getD_set_ne _ _ _ _ _ hpbr0,
    rmdirD1, writeInodeRaw, getD_set_ne _ _ _ _ _ (Nat.succ_ne_zero _)]

theorem iflagsOf_rmdirResultDisk (d : Disk) (p c : Nat) (pi ci : INODE) (dn : String)
    (hd : d.length = N_BLOCKS_IN_DISK)
    (hpbr0 : pi.data.getD 0 0 ≠ 0) (hcbr0 : ci.data.getD 0 0 ≠ 0) :
    iflagsOf (rmdirResultDisk d p c pi ci dn)
      = (iflagsOf d).set (c / 8)
          (oufs_flip_bit ((iflagsOf d).getD (c / 8) 0) (c % 8)) := by
  rw [iflagsOf, diskMaster, rmdirResultDisk_layers,
    getD_set_self _ _ _ _ (by
      rw [rmdirD4_length, hd]
      norm_num [N_BLOCKS_IN_DISK]),
    rmdirD4_blk0 d p pi dn c _ hpbr0 hcbr0]
  rfl

theorem bflagsOf_rmdirResultDisk (d : Disk) (p c : Nat) (pi ci : INODE) (dn : String)
    (hd : d.length = N_BLOCKS_IN_DISK)
    (hpbr0 : pi.data.getD 0 0 ≠ 0) (hcbr0 : ci.data.getD 0 0 ≠ 0) :
    bflagsOf (rmdirResultDisk d p c pi ci dn)
      = (bflagsOf d).set (ci.data.getD 0 0 / 8)
          (oufs_flip_bit ((bflagsOf d).getD (ci.data.getD 0 0 / 8) 0)
            (ci.data.getD 0 0 % 8)) := by
  rw [bflagsOf, diskMaster, rmdirResultDisk_layers,
    getD_set_self _ _ _ _ (by
      rw [rmdirD4_length, hd]
      norm_num [N_BLOCKS_IN_DISK]),
    rmdirD4_blk0 d p pi dn c _ hpbr0 hcbr0]
  rfl

theorem inodeAt_rmdirResultDisk (d : Disk) (p c : Nat) (pi ci : INODE) (dn : String)
    (hd : d.length = N_BLOCKS_IN_DISK)
    (hwfi : ∀ b ∈ d, b.inodes.length = INODES_PER_BLOCK)
    (hp64 : p < N_INODES) (hc64 : c < N_INODES)
    (hpbr9 : 9 ≤ pi.data.getD 0 0) (hcbr9 : 9 ≤ ci.data.getD 0 0) :
    ∀ i, i < N_INODES →
      inodeAt (rmdirResultDisk d p c pi ci dn) i
        = if i = c then zeroINODE
          else if i = p then { pi with size := u32 (pi.size + 4294967295) }
          else inodeAt d i := by
  intro i hi
  have h8 : INODES_PER_BLOCK = 8 := rfl
  have h64 : N_INODES = 64 := rfl
  have h128 : N_BLOCKS_IN_DISK = 128 := rfl
  have hiT : i / INODES_PER_BLOCK + 1 < N_BLOCKS_IN_DISK := by
    rw [h8, h128]
    rw [h64] at hi
    omega
  have hpT : p / INODES_PER_BLOCK + 1 < N_BLOCKS_IN_DISK := by
    rw [h8, h128]
    rw [h64] at hp64
    omega
  have hcT : c / INODES_PER_BLOCK + 1 < N_BLOCKS_IN_DISK := by
    rw [h8, h128]
    rw [h64] at hc64
    omega
  rw [rmdirResultDisk_layers,
    inodeAt_set_ne _ _ _ _ (Nat.succ_ne_zero _).symm,
    rmdirD4,
    inodeAt_set_ne _ _ _ _ (by
      rw [h8]
      rw [h64] at hi
      omega),
    rmdirD3]
  by_cases hic : i = c
  · subst hic
    rw [if_pos rfl]
    refine inodeAt_writeInodeRaw_self _ _ _ (by rw [rmdirD2_length, hd]; exact hiT)
      hiT ?_
    rw [show ((rmdirD2 d p pi dn).getD (i / INODES_PER_BLOCK + 1) zeroBLOCK).inodes
        = inodesAt (rmdirD2 d p pi dn) (i / INODES_PER_BLOCK + 1) from rfl]
    rw [rmdirD2]
    by_cases hsame : pi.data.getD 0 0 = i / INODES_PER_BLOCK + 1
    · exact absurd hsame (by
        rw [h8]
        rw [h64] at hi
        omega)
    · rw [inodesAt_set_ne _ _ _ _ hsame, rmdirD1]
      by_cases hpt : p / INODES_PER_BLOCK + 1 = i / INODES_PER_BLOCK + 1
      · rw [← hpt, inodesAt_writeInodeRaw_self _ _ _ (by rw [hd]; rw [hpt]; exact hiT)]
        rw [List.length_set]
        exact inodesAt_length_of_wf d hwfi _
      · rw [inodesAt_writeInodeRaw_ne _ _ _ _ hpt]
        exact inodesAt_length_of_wf d hwfi _
  · rw [if_neg hic]
    rw [inodeAt_writeInodeRaw_ne _ _ _ _ hic (by rw [rmdirD2_length, hd]; exact hcT)]
    rw [rmdirD2]
    rw [inodeAt_set_ne _ _ _ _ (by
      rw [h8]
      rw [h64] at hi
      omega)]
    rw [rmdirD1]
    by_cases hip : i = p
    · subst hip
      rw [if_pos rfl]
      refine inodeAt_writeInodeRaw_self _ _ _ (by rw [hd]; exact hiT) hiT ?_
      exact inodesAt_length_of_wf d hwfi _
    · rw [if_neg hip]
      exact inodeAt_writeInodeRaw_ne _ _ _ _ hip (by rw [hd]; exact hpT)

theorem dirAt_rmdirResultDisk_ne (d : Disk) (p c : Nat) (pi ci : INODE) (dn : String)
    (hp64 : p < N_INODES) (hc64 : c < N_INODES) (j : Nat)
    (hj1 : j ≠ pi.data.getD 0 0) (hj2 : j ≠ ci.data.getD 0 0) :
    dirAt (rmdirResultDisk d p c pi ci dn) j = dirAt d j := by
  have h8 : INODES_PER_BLOCK = 8 := rfl
  have hstep0 : dirAt (rmdirResultDisk d p c pi ci dn) j
      = dirAt (rmdirD4 d p pi dn c (ci.data.getD 0 0)) j := by
    rw [rmdirResultDisk_layers]
    by_cases h0 : (0 : Nat) = j
    · subst h0
      by_cases hlen : 0 < (rmdirD4 d p pi dn c (ci.data.getD 0 0)).length
      · rw [dirAt_set_self _ _ _ hlen, clearBitsBLOCK_directory]
        rfl
      · rw [List.set_eq_of_length_le (by omega)]
    · rw [dirAt_set_ne _ _ _ _ h0]
  rw [hstep0, rmdirD4, dirAt_set_ne _ _ _ _ (Ne.symm hj2),
    rmdirD3, dirAt_writeInodeRaw,
    rmdirD2, dirAt_set_ne _ _ _ _ (Ne.symm hj1),
    rmdirD1, dirAt_writeInodeRaw]

theorem dirAt_rmdirResultDisk_cbr (d : Disk) (p c : Nat) (pi ci : INODE) (dn : String)
    (hd : d.length = N_BLOCKS_IN_DISK)
    (hcbr0 : ci.data.getD 0 0 ≠ 0) (hcbr128 : ci.data.getD 0 0 < N_BLOCKS_IN_DISK) :
    dirAt (rmdirResultDisk d p c pi ci dn) (ci.data.getD 0 0)
      = List.replicate DIRECTORY_ENTRIES_PER_BLOCK zeroENTRY := by
  rw [rmdirResultDisk_layers, dirAt_set_ne _ _ _ _ (fun hh => hcbr0 hh.symm),
    rmdirD4, dirAt_set_self _ _ _ (by rw [rmdirD3_length, hd]; exact hcbr128)]
  rfl

theorem dirAt_rmdirResultDisk_pbr (d : Disk) (p c : Nat) (pi ci : INODE) (dn : String)
    (hd : d.length = N_BLOCKS_IN_DISK) (hp64 : p < N_INODES)
    (hpbr9 : 9 ≤ pi.data.getD 0 0) (hpbr128 : pi.data.getD 0 0 < N_BLOCKS_IN_DISK)
    (hpbrcbr : pi.data.getD 0 0 ≠ ci.data.getD 0 0) :
    dirAt (rmdirResultDisk d p c pi ci dn) (pi.data.getD 0 0)
      = (removeEntryBLOCK (d.getD (pi.data.getD 0 0) zeroBLOCK) dn).directory := by
  have h8 : INODES_PER_BLOCK = 8 := rfl
  have h64 : N_INODES = 64 := rfl
  have hblk : (rmdirD1 d p pi).getD (pi.data.getD 0 0) zeroBLOCK
      = d.getD (pi.data.getD 0 0) zeroBLOCK := by
    rw [rmdirD1, writeInodeRaw, getD_set_ne _ _ _ _ _ (by
      rw [h8]
      rw [h64] at hp64
      omega)]
  rw [rmdirResultDisk_layers, dirAt_set_ne _ _ _ _ (by omega),
    rmdirD4, dirAt_set_ne _ _ _ _ (Ne.symm hpbrcbr),
    rmdirD3, dirAt_writeInodeRaw,
    rmdirD2, dirAt_set_self _ _ _ (by rw [rmdirD1_length, hd]; exact hpbr128),
    hblk]

theorem inodesAt_rmdirResultDisk_ne (d : Disk) (p c : Nat) (pi ci : INODE)
    (dn : String) (hp64 : p < N_INODES) (hc64 : c < N_INODES) (j : Nat)
    (h9 : 9 ≤ j) (hjc : j ≠ ci.data.getD 0 0) :
    inodesAt (rmdirResultDisk d p c pi ci dn) j = inodesAt d j := by
  have h8 : INODES_PER_BLOCK = 8 := rfl
  have h64 : N_INODES = 64 := rfl
  have hstep0 : inodesAt (rmdirResultDisk d p c pi ci dn) j
      = inodesAt (rmdirD4 d p pi dn c (ci.data.getD 0 0)) j := by
    rw [rmdirResultDisk_layers]
    by_cases h0 : (0 : Nat) = j
    · omega
    · rw [inodesAt_set_ne _ _ _ _ h0]
  have hstep2 : inodesAt (rmdirD2 d p pi dn) j = inodesAt (rmdirD1 d p pi) j := by
    rw [rmdirD2]
    by_cases hsame : pi.data.getD 0 0 = j
    · subst hsame
      by_cases hlen : pi.data.getD 0 0 < (rmdirD1 d p pi).length
      · rw [inodesAt_set_self _ _ _ hlen, removeEntryBLOCK_inodes]
        rfl
      · rw [List.set_eq_of_length_le (by omega)]
    · rw [inodesAt_set_ne _ _ _ _ hsame]
  rw [hstep0, rmdirD4, inodesAt_set_ne _ _ _ _ (Ne.symm hjc),
    rmdirD3, inodesAt_writeInodeRaw_ne _ _ _ _ (by
      rw [h8]
      rw [h64] at hc64
      omega),
    hstep2,
    rmdirD1, inodesAt_writeInodeRaw_ne _ _ _ _ (by
      rw [h8]
      rw [h64] at hp64
      omega)]

theorem inodesAt_rmdirResultDisk_cbr (d : Disk) (p c : Nat) (pi ci : INODE)
    (dn : String) (hd : d.length = N_BLOCKS_IN_DISK)
    (hcbr0 : ci.data.getD 0 0 ≠ 0) (hcbr128 : ci.data.getD 0 0 < N_BLOCKS_IN_DISK) :
    inodesAt (rmdirResultDisk d p c pi ci dn) (ci.data.getD 0 0)
      = List.replicate INODES_PER_BLOCK zeroINODE := by
  rw [rmdirResultDisk_layers, inodesAt_set_ne _ _ _ _ (fun hh => hcbr0 hh.symm),
    rmdirD4, inodesAt_set_self _ _ _ (by rw [rmdirD3_length, hd]; exact hcbr128)]
  rfl

theorem wf_rmdirResultDisk (d : Disk) (p c : Nat) (pi ci : INODE) (dn : String)
    (hwfi : ∀ b ∈ d, b.inodes.length = INODES_PER_BLOCK)
    (hwfd : ∀ b ∈ d, b.directory.length = DIRECTORY_ENTRIES_PER_BLOCK) :
    ∀ b ∈ rmdirResultDisk d p c pi ci dn,
      b.inodes.length = INODES_PER_BLOCK ∧
      b.directory.length = DIRECTORY_ENTRIES_PER_BLOCK := by
  have hPz : zeroBLOCK.inodes.length = INODES_PER_BLOCK ∧
      zeroBLOCK.directory.length = DIRECTORY_ENTRIES_PER_BLOCK := by
    constructor <;> simp [zeroBLOCK]
  have hP : ∀ b ∈ d, b.inodes.length = INODES_PER_BLOCK ∧
      b.directory.length = DIRECTORY_ENTRIES_PER_BLOCK :=
    fun b hb => ⟨hwfi b hb, hwfd b hb⟩
  have hP1 : ∀ b ∈ rmdirD1 d p pi, b.inodes.length = INODES_PER_BLOCK ∧
      b.directory.length = DIRECTORY_ENTRIES_PER_BLOCK := by
    rw [rmdirD1, writeInodeRaw]
    refine mem_set_forall _ _ _ hP ⟨?_, ?_⟩
    · rw [List.length_set]
      exact (getD_forall _ _ zeroBLOCK hP hPz).1
    · exact (getD_forall _ _ zeroBLOCK hP hPz).2
  have hP2 : ∀ b ∈ rmdirD2 d p pi dn, b.inodes.length = INODES_PER_BLOCK ∧
      b.directory.length = DIRECTORY_ENTRIES_PER_BLOCK := by
    rw [rmdirD2]
    refine mem_set_forall _ _ _ hP1 ⟨?_, ?_⟩
    · rw [removeEntryBLOCK_inodes]
      exact (getD_forall _ _ zeroBLOCK hP1 hPz).1
    · rw [removeEntryBLOCK_dir_length]
      exact (getD_forall _ _ zeroBLOCK hP1 hPz).2
  have hP3 : ∀ b ∈ rmdirD3 d p pi dn c, b.inodes.length = INODES_PER_BLOCK ∧
      b.directory.length = DIRECTORY_ENTRIES_PER_BLOCK := by
    rw [rmdirD3, writeInodeRaw]
    refine mem_set_forall _ _ _ hP2 ⟨?_, ?_⟩
    · rw [List.length_set]
      exact (getD_forall _ _ zeroBLOCK hP2 hPz).1
    · exact (getD_forall _ _ zeroBLOCK hP2 hPz).2
  have hP4 : ∀ b ∈ rmdirD4 d p pi dn c (ci.data.getD 0 0),
      b.inodes.length = INODES_PER_BLOCK ∧
      b.directory.length = DIRECTORY_ENTRIES_PER_BLOCK := by
    rw [rmdirD4]
    exact mem_set_forall _ _ _ hP3 hPz
  rw [rmdirResultDisk_layers]
  refine mem_set_forall _ _ _ hP4 ⟨?_, ?_⟩
  · rw [clearBitsBLOCK_inodes]
    exact (getD_forall _ _ zeroBLOCK hP4 hPz).1
  · rw [clearBitsBLOCK_directory]
    exact (getD_forall _ _ zeroBLOCK hP4 hPz).2

/-- The disk invariant is preserved along the success path of `oufs_rmdir`:
removing an empty directory found under its parent frees exactly its inode
bit and its directory-block bit and keeps the structures well formed. -/
theorem DiskInv_rmdirResultDisk (d : Disk) (p c : Nat) (pi ci : INODE) (dn : String)
    (hInv : DiskInv d)
    (hpieq : pi = inodeAt d p) (hcieq : ci = inodeAt d c)
    (hp64 : p < N_INODES) (hpalloc : (inodeAt d p).itype ≠ .IT_NONE)
    (hc64 : c < N_INODES) (hcalloc : (inodeAt d c).itype ≠ .IT_NONE)
    (hc0 : c ≠ 0) (hcp : c ≠ p)
    (hdn0 : dn ≠ "") (hdn1 : dn ≠ ".") (hdn2 : dn ≠ "..") :
    DiskInv (rmdirResultDisk d p c pi ci dn) := by
  have h8 : INODES_PER_BLOCK = 8 := rfl
  have h64 : N_INODES = 64 := rfl
  have h128 : N_BLOCKS_IN_DISK = 128 := rfl
  have h9R : ROOT_DIRECTORY_BLOCK = 9 := rfl
  have hpbr_eq : pi.data.getD 0 0 = inodeData0 d p := by
    rw [hpieq, inodeData0_eq]
  have hcbr_eq : ci.data.getD 0 0 = inodeData0 d c := by
    rw [hcieq, inodeData0_eq]
  have hpbr9 : 9 ≤ pi.data.getD 0 0 := by
    rw [hpbr_eq]
    rcases inv_data0_live hInv hp64 hpalloc with ⟨-, hv⟩ | ⟨-, hv, -⟩
    · omega
    · omega
  have hpbr128 : pi.data.getD 0 0 < N_BLOCKS_IN_DISK := by
    rw [hpbr_eq]
    exact inv_data0_lt hInv p
  have hcbr10 : 10 ≤ ci.data.getD 0 0 := by
    rw [hcbr_eq]
    rcases inv_data0_live hInv hc64 hcalloc with ⟨hz, -⟩ | ⟨-, hv, -⟩
    · exact absurd hz hc0
    · exact hv
  have hcbr128 : ci.data.getD 0 0 < N_BLOCKS_IN_DISK := by
    rw [hcbr_eq]
    exact inv_data0_lt hInv c
  have hcbr0 : ci.data.getD 0 0 ≠ 0 := by omega
  have hpbr0 : pi.data.getD 0 0 ≠ 0 := by omega
  have hpbrcbr : pi.data.getD 0 0 ≠ ci.data.getD 0 0 := by
    rw [hpbr_eq, hcbr_eq]
    exact hInv.dataInj p hp64 c hc64 hpalloc hcalloc (fun hh => hcp hh.symm)
  have hbitC : bitmapGet (iflagsOf d) c = true := (hInv.K1 c hc64).mpr hcalloc
  have hbitCbr : bitmapGet (bflagsOf d) (ci.data.getD 0 0) = true :=
    (hInv.K2 _ hcbr128).mpr (Or.inr ⟨c, hc64, hcalloc, hcbr_eq.symm⟩)
  have hIFL := iflagsOf_rmdirResultDisk d p c pi ci dn hInv.len hpbr0 hcbr0
  have hBFL := bflagsOf_rmdirResultDisk d p c pi ci dn hInv.len hpbr0 hcbr0
  have hIA := inodeAt_rmdirResultDisk d p c pi ci dn hInv.len hInv.wfi hp64 hc64
    (by omega) (by omega)
  have hbitI : ∀ m, bitmapGet (iflagsOf (rmdirResultDisk d p c pi ci dn)) m
      = if m = c then false else bitmapGet (iflagsOf d) m := by
    intro m
    rw [hIFL, bitmapGet_set_flip _ _ (by
      rw [hInv.wfiF, show N_INODES / 8 = 8 from rfl]
      rw [h64] at hc64
      omega) m]
    by_cases hm : m = c
    · rw [if_pos hm, if_pos hm, hbitC]
      rfl
    · rw [if_neg hm, if_neg hm]
  have hbitB : ∀ m, bitmapGet (bflagsOf (rmdirResultDisk d p c pi ci dn)) m
      = if m = ci.data.getD 0 0 then false else bitmapGet (bflagsOf d) m := by
    intro m
    rw [hBFL, bitmapGet_set_flip _ _ (by
      rw [hInv.wfbF, show N_BLOCKS_IN_DISK / 8 = 16 from rfl]
      rw [h128] at hcbr128
      omega) m]
    by_cases hm : m = ci.data.getD 0 0
    · rw [if_pos hm, if_pos hm, hbitCbr]
      rfl
    · rw [if_neg hm, if_neg hm]
  have hD0 : ∀ i, i < N_INODES → inodeData0 (rmdirResultDisk d p c pi ci dn) i
      = if i = c then 0 else inodeData0 d i := by
    intro i hi
    rw [inodeData0_eq, hIA i hi]
    by_cases hic : i = c
    · rw [if_pos hic, if_pos hic]
      rfl
    · rw [if_neg hic, if_neg hic]
      by_cases hip : i = p
      · rw [if_pos hip]
        rw [show ({ pi with size := u32 (pi.size + 4294967295) } : INODE).data
            = pi.data from rfl, hpbr_eq, hip]
      · rw [if_neg hip, inodeData0_eq]
  have hTY : ∀ i, i < N_INODES → (inodeAt (rmdirResultDisk d p c pi ci dn) i).itype
      = if i = c then INODE_TYPE.IT_NONE else (inodeAt d i).itype := by
    intro i hi
    rw [hIA i hi]
    by_cases hic : i = c
    · rw [if_pos hic, if_pos hic]
      rfl
    · rw [if_neg hic, if_neg hic]
      by_cases hip : i = p
      · rw [if_pos hip]
        rw [show ({ pi with size := u32 (pi.size + 4294967295) } : INODE).itype
            = pi.itype from rfl, hpieq, hip]
      · rw [if_neg hip]
  refine ⟨?_, ?_, ?_, ?_, ?_, ?_, ?_, ?_, ?_, ?_, ?_, ?_, ?_, ?_, ?_, ?_, ?_, ?_⟩
  · rw [rmdirResultDisk_length, hInv.len]
  · exact fun b hb => (wf_rmdirResultDisk d p c pi ci dn hInv.wfi hInv.wfd b hb).1
  · exact fun b hb => (wf_rmdirResultDisk d p c pi ci dn hInv.wfi hInv.wfd b hb).2
  · rw [hIFL, List.length_set, hInv.wfiF]
  · rw [hBFL, List.length_set, hInv.wfbF]
  · rw [hIFL]
    refine mem_set_forall _ _ _ hInv.bytesI ?_
    rw [oufs_flip_bit]
    exact xor_lt_256
      (getD_forall (P := fun x => x < 256) _ _ _ hInv.bytesI (by norm_num))
      (shiftLeft_one_lt_256 (Nat.mod_lt _ (by norm_num)))
  · rw [hBFL]
    refine mem_set_forall _ _ _ hInv.bytesB ?_
    rw [oufs_flip_bit]
    exact xor_lt_256
      (getD_forall (P := fun x => x < 256) _ _ _ hInv.bytesB (by norm_num))
      (shiftLeft_one_lt_256 (Nat.mod_lt _ (by norm_num)))
  · have h0 := hTY 0 (by rw [h64]; omega)
    rw [if_neg (fun hh => hc0 hh.symm)] at h0
    rw [h0]
    exact hInv.rootType
  · have h0 := hD0 0 (by rw [h64]; omega)
    rw [if_neg (fun hh => hc0 hh.symm)] at h0
    rw [h0]
    exact hInv.rootData
  · intro m hm
    rw [hbitI m, hTY m hm]
    by_cases hmc : m = c
    · rw [if_pos hmc, if_pos hmc]
      simp
    · rw [if_neg hmc, if_neg hmc]
      exact hInv.K1 m hm
  · intro m hm
    rw [hTY m hm]
    by_cases hmc : m = c
    · rw [if_pos hmc]
      simp
    · rw [if_neg hmc]
      exact hInv.noFile m hm
  · intro j hj
    rw [hbitB j]
    by_cases hjc : j = ci.data.getD 0 0
    · subst hjc
      rw [if_pos rfl]
      refine iff_of_false (by simp) ?_
      intro hcon
      rcases hcon with hle | ⟨i, hi, ht, hd0⟩
      · rw [h9R] at hle
        omega
      · rw [hTY i hi] at ht
        rw [hD0 i hi] at hd0
        by_cases hic : i = c
        · rw [if_pos hic] at ht
          exact ht rfl
        · rw [if_neg hic] at ht hd0
          have := hInv.dataInj i hi c hc64 ht hcalloc hic
          rw [hcbr_eq] at hd0
          exact this hd0
    · rw [if_neg hjc, hInv.K2 j hj]
      constructor
      · intro h
        rcases h with h | ⟨i, hi, ht, hd0⟩
        · exact Or.inl h
        · have hic : i ≠ c := by
            intro hcon
            rw [hcon] at hd0
            rw [hcbr_eq] at hjc
            exact hjc hd0.symm
          refine Or.inr ⟨i, hi, ?_, ?_⟩
          · rw [hTY i hi, if_neg hic]
            exact ht
          · rw [hD0 i hi, if_neg hic]
            exact hd0
      · intro h
        rcases h with h | ⟨i, hi, ht, hd0⟩
        · exact Or.inl h
        · rw [hTY i hi] at ht
          rw [hD0 i hi] at hd0
          by_cases hic : i = c
          · rw [if_pos hic] at ht
            exact absurd rfl ht
          · rw [if_neg hic] at ht hd0
            exact Or.inr ⟨i, hi, ht, hd0⟩
  · intro i hi hi0 ht
    rw [hTY i hi] at ht
    rw [hD0 i hi]
    by_cases hic : i = c
    · rw [if_pos hic] at ht
      exact absurd rfl ht
    · rw [if_neg hic] at ht
      rw [if_neg hic]
      exact hInv.dataHi i hi hi0 ht
  · intro i1 hi1 i2 hi2 ht1 ht2 hne
    rw [hTY i1 hi1] at ht1
    rw [hTY i2 hi2] at ht2
    rw [hD0 i1 hi1, hD0 i2 hi2]
    by_cases h1c : i1 = c
    · rw [if_pos h1c] at ht1
      exact absurd rfl ht1
    · by_cases h2c : i2 = c
      · rw [if_pos h2c] at ht2
        exact absurd rfl ht2
      · rw [if_neg h1c] at ht1 ⊢
        rw [if_neg h2c] at ht2 ⊢
        exact hInv.dataInj i1 hi1 i2 hi2 ht1 ht2 hne
  · intro i hi ht
    rw [hTY i hi] at ht
    rw [hD0 i hi]
    by_cases hic : i = c
    · rw [if_pos hic]
    · rw [if_neg hic] at ht
      rw [if_neg hic]
      exact hInv.noneD0 i hi ht
  · intro j hj h9j v hv
    by_cases hjc : j = ci.data.getD 0 0
    · subst hjc
      rw [inodesAt_rmdirResultDisk_cbr d p c pi ci dn hInv.len hcbr0 hcbr128] at hv
      have hvz : v = zeroINODE := List.eq_of_mem_replicate hv
      rw [hvz]
      exact ⟨rfl, rfl⟩
    · rw [inodesAt_rmdirResultDisk_ne d p c pi ci dn hp64 hc64 j h9j hjc] at hv
      exact hInv.nonTable j hj h9j v hv
  · rw [dirAt_rmdirResultDisk_ne d p c pi ci dn hp64 hc64 0
      (fun hh => hpbr0 hh.symm) (fun hh => hcbr0 hh.symm)]
    exact hInv.blk0dir
  · intro i hi ht
    rw [hTY i hi] at ht
    have hd0i := hD0 i hi
    by_cases hic : i = c
    · rw [if_pos hic] at ht
      exact absurd rfl ht
    · rw [if_neg hic] at ht
      rw [hd0i, if_neg hic]
      have hBc : inodeData0 d i ≠ ci.data.getD 0 0 := by
        rw [hcbr_eq]
        exact hInv.dataInj i hi c hc64 ht hcalloc hic
      by_cases hBp : inodeData0 d i = pi.data.getD 0 0
      · have hip : i = p := by
          by_contra hcon
          have := hInv.dataInj i hi p hp64 ht hpalloc hcon
          rw [hpbr_eq] at hBp
          exact this hBp
        have hOld := hInv.live i hi ht
        rw [hBp, dirAt_rmdirResultDisk_pbr d p c pi ci dn hInv.len hp64 hpbr9
          hpbr128 hpbrcbr]
        have hbd : (d.getD (pi.data.getD 0 0) zeroBLOCK).directory
            = dirAt d (inodeData0 d i) := by
          rw [hBp]
          rfl
        rcases removeEntryBLOCK_directory_spec (d.getD (pi.data.getD 0 0) zeroBLOCK)
            dn (by rw [hbd]; exact hOld.1) (by rw [hbd]; exact hOld.2.2.1)
            hdn1 hdn2 with hcase | ⟨idx, hidx2, hidxlt, hcase⟩
        · rw [hcase, hbd]
          exact hOld
        · rw [hcase]
          have hOld' : entriesOK ((d.getD (pi.data.getD 0 0) zeroBLOCK).directory) i := by
            rw [hbd]
            exact hOld
          exact entriesOK_set_free hOld' hidx2
      · rw [dirAt_rmdirResultDisk_ne d p c pi ci dn hp64 hc64 _ hBp hBc]
        exact hInv.live i hi ht

/-- Every `oufs_rmdir` call that returns 0 preserves the disk invariant. -/
theorem DiskInv_rmdir (d : Disk) (cwd path : String) (hInv : DiskInv d)
    (h : (oufs_rmdir d cwd path).ret = 0) :
    DiskInv (oufs_rmdir d cwd path).disk := by
  obtain ⟨p, c, ci, pi, hname, hdot, hF, hci, htype, hsz, hpi⟩ :=
    oufs_rmdir_ret0_inv d cwd path h
  obtain ⟨hcieq, hcT⟩ := read_some_inodeAt hci
  obtain ⟨hpieq, hpT⟩ := read_some_inodeAt hpi
  obtain ⟨htoknn, hlast⟩ := find_file_found_inv d cwd path p c [] hF
  have hlt_eq : cBasename path = (tokenize path).getLastD "" :=
    cBasename_eq_getLast path htoknn
  have hltne : (tokenize path).getLastD "" ≠ "" :=
    tokenize_mem_ne path _ (getLastD_mem _ _ htoknn)
  have hlt1 : (tokenize path).getLastD "" ≠ "." := by
    rw [← hlt_eq]
    exact fun hh => hdot (Or.inl hh)
  have hlt2 : (tokenize path).getLastD "" ≠ ".." := by
    rw [← hlt_eq]
    exact fun hh => hdot (Or.inr hh)
  obtain ⟨hp64, hpalloc, hc0, hcp⟩ := inv_lookup_true hInv hlast hltne hlt1 hlt2
  have hcalloc : (inodeAt d c).itype ≠ .IT_NONE := by
    rw [← hcieq, htype]
    simp
  have hc64 : c < N_INODES := by
    by_contra hcon
    have hbig := inv_inodeAt_big hInv (by omega) hcT
    rw [← hcieq] at hbig
    rw [htype] at hbig
    simp at hbig
  have hpbr : pi.data.getD 0 0 < N_BLOCKS_IN_DISK := by
    rw [hpieq, show (inodeAt d p).data.getD 0 0 = inodeData0 d p from rfl]
    exact inv_data0_lt hInv p
  have hcbr : ci.data.getD 0 0 < N_BLOCKS_IN_DISK := by
    rw [hcieq, show (inodeAt d c).data.getD 0 0 = inodeData0 d c from rfl]
    exact inv_data0_lt hInv c
  have hd' := oufs_rmdir_success_eq d cwd path p c pi ci hname hdot hF hci htype
    hsz hpi hpbr hcbr
  rw [hd']
  refine DiskInv_rmdirResultDisk d p c pi ci (cBasename path) hInv hpieq hcieq
    hp64 hpalloc hc64 hcalloc hc0 hcp ?_ ?_ ?_
  · rw [hlt_eq]
    exact hltne
  · exact fun hh => hdot (Or.inl hh)
  · exact fun hh => hdot (Or.inr hh)

set_option maxRecDepth 1000000 in
/-- The freshly formatted disk satisfies the invariant. -/
theorem DiskInv_fmtDisk : DiskInv fmtDisk := by
  have hkey : ∀ i < N_INODES, i = 0 ∨ (inodeAt fmtDisk i).itype = INODE_TYPE.IT_NONE := by
    decide
  refine ⟨by decide, by decide, by decide, by decide, by decide, by decide, by decide,
    by decide, by decide, by decide, by decide, by decide, by decide, ?_,
    by decide, by decide, by decide, by decide⟩
  intro i1 hi1 i2 hi2 ht1 ht2 hne
  rcases hkey i1 hi1 with h1 | h1
  · rcases hkey i2 hi2 with h2 | h2
    · exact absurd (h1.trans h2.symm) hne
    · exact absurd h2 ht2
  · exact absurd h1 ht1

/-- The disks reachable from formatting a 128-block image by finite
sequences of successfully completed `oufs_mkdir`/`oufs_rmdir` calls. -/
inductive oufsReachable : Disk → Prop where
  | format (d0 d1 : Disk) (hlen : d0.length = N_BLOCKS_IN_DISK)
      (h : oufs_format_disk d0 = some d1) : oufsReachable d1
  | mkdir (d : Disk) (cwd path : String) (hd : oufsReachable d)
      (h : (oufs_mkdir d cwd path).ret = 0) :
      oufsReachable (oufs_mkdir d cwd path).disk
  | rmdir (d : Disk) (cwd path : String) (hd : oufsReachable d)
      (h : (oufs_rmdir d cwd path).ret = 0) :
      oufsReachable (oufs_rmdir d cwd path).disk

/-- Every reachable disk satisfies the full invariant. -/
theorem oufsReachable_DiskInv : ∀ d, oufsReachable d → DiskInv d := by
  intro d h
  induction h with
  | format d0 d1 hlen hfmt =>
      have heq := oufs_format_disk_eq d0 hlen
      rw [heq] at hfmt
      have hd1 : d1 = fmtDisk := (Option.some.inj hfmt).symm
      rw [hd1]
      exact DiskInv_fmtDisk
  | mkdir d cwd path hd h ih => exact DiskInv_mkdir d cwd path ih h
  | rmdir d cwd path hd h ih => exact DiskInv_rmdir d cwd path ih h

/-- C5: starting from a freshly formatted disk, after every finite sequence
of successfully completed mkdir and rmdir calls, inode bitmap bit `i` is set
iff inode `i`'s type is not NONE, and block bitmap bit `j` is set iff block
`j` is the `data[0]` block of some allocated inode or one of the permanently
reserved blocks 0..9 (master block, inode-table blocks, root directory
block). -/
theorem claim_C5_bitmap_invariant (d : Disk) (h : oufsReachable d) :
    (∀ i < N_INODES,
      bitmapGet (diskMaster d).inode_allocated_flag i = true ↔
        (inodeAt d i).itype ≠ .IT_NONE) ∧
    (∀ j < N_BLOCKS_IN_DISK,
      bitmapGet (diskMaster d).block_allocated_flag j = true ↔
        (j ≤ ROOT_DIRECTORY_BLOCK ∨
          ∃ i, i < N_INODES ∧ (inodeAt d i).itype ≠ .IT_NONE ∧
            (inodeAt d i).data.getD 0 0 = j)) := by
  have hInv := oufsReachable_DiskInv d h
  exact ⟨hInv.K1, hInv.K2⟩

set_option maxRecDepth 1000000 in
theorem claim_C5_bitmap_invariant_witness :
    oufsReachable fmtDisk ∧
    ((∀ i < N_INODES,
      bitmapGet (diskMaster fmtDisk).inode_allocated_flag i = true ↔
        (inodeAt fmtDisk i).itype ≠ .IT_NONE) ∧
    (∀ j < N_BLOCKS_IN_DISK,
      bitmapGet (diskMaster fmtDisk).block_allocated_flag j = true ↔
        (j ≤ ROOT_DIRECTORY_BLOCK ∨
          ∃ i, i < N_INODES ∧ (inodeAt fmtDisk i).itype ≠ .IT_NONE ∧
            (inodeAt fmtDisk i).data.getD 0 0 = j))) := by
  have hreach : oufsReachable fmtDisk :=
    oufsReachable.format zeroDisk fmtDisk (by decide)
      (oufs_format_disk_eq zeroDisk (by decide))
  exact ⟨hreach, claim_C5_bitmap_invariant fmtDisk hreach⟩
